import Mathlib

/-!
Block memory system device driver.

A shallow embedding of the BLOCK driver (`block_driver.c`, shipped inside
`src/block_cache.h`) and of its frame cache (`src/block_cache.c`).

* Machine integers are natural numbers or integers with explicit wrap-around;
  a conversion to a signed type that does not fit wraps (two's complement).
* A byte buffer is a `List Nat`; a copy that would leave the source or the
  destination buffer, an index past the end of an array and a dereference of a
  null pointer are undefined behaviour in C and end the run with `Abort.fault`.
* The checksum retry loops are unbounded in the source; here every retry loop
  takes a bound `fuel` on its number of iterations and ends with `Abort.fuel`
  when the bound is used up.
* The bus, the checksum function, the frame size and the operation codes come
  from `block_controller.h`, which is not part of the sources: they are the
  fields of `Env`.
-/

namespace BlockDriver

/-! ## Outcomes and machine integers -/

/-- Ways in which a run of the model ends without returning to the caller. -/
inductive Abort where
  | fault
  | fuel
deriving DecidableEq, Repr

/-- Conversion of a signed value to `uint32_t`. -/
def toU32 (c : Int) : Nat := (c % 4294967296).toNat

/-- Conversion of an unsigned value to `int32_t` (two's complement). -/
def toI32 (n : Nat) : Int :=
  if n % 4294967296 < 2147483648 then (n % 4294967296 : Nat) else (n % 4294967296 : Nat) - 4294967296

/-- Conversion of an unsigned value to `int16_t` (two's complement). -/
def toI16 (n : Nat) : Int :=
  if n % 65536 < 32768 then (n % 65536 : Nat) else (n % 65536 : Nat) - 65536

/-- Conversion of an unsigned value to `int8_t` (two's complement). -/
def toI8 (n : Nat) : Int :=
  if n % 256 < 128 then (n % 256 : Nat) else (n % 256 : Nat) - 256

/-- Conversion of a signed value to `uint16_t`. -/
def toU16 (c : Int) : Nat := (c % 65536).toNat

/-! ## Buffers -/

/-- The `n` bytes at `src + s`; reading past the end of `src` is a fault. -/
def peek (src : List Nat) (s n : Nat) : Except Abort (List Nat) :=
  if s + n ≤ src.length then .ok ((src.drop s).take n) else .error .fault

/-- Store `bytes` at `dst + d`; writing past the end of `dst` is a fault. -/
def poke (dst : List Nat) (d : Nat) (bytes : List Nat) : Except Abort (List Nat) :=
  if d + bytes.length ≤ dst.length then
    .ok (dst.take d ++ bytes ++ dst.drop (d + bytes.length))
  else .error .fault

/-- The call `memcpy(dst + d, src + s, n)`. -/
def memcpy (dst : List Nat) (d : Nat) (src : List Nat) (s n : Nat) : Except Abort (List Nat) :=
  match peek src s n with
  | .ok bytes => poke dst d bytes
  | .error e => .error e

/-! ## The frame cache (`block_cache.c`) -/

/-- One slot of the cache table (`struct cache_frame`). -/
structure cache_frame where
  frame_number : Nat
  calls_since_use : Nat
  frame : List Nat
deriving DecidableEq, Repr

/-- The globals of `block_cache.c`.  `cache` holds the slots below
`cache_indeces_used`; the table pointer is non-null exactly when `init` is set. -/
structure CacheState where
  block_cache_max_items : Nat
  init : Bool
  cache : List cache_frame
deriving DecidableEq, Repr

/-- The counter `cache_indeces_used`. -/
def CacheState.cache_indeces_used (c : CacheState) : Nat := c.cache.length

/-- The state of the cache globals at program start. -/
def CacheState.boot : CacheState :=
  { block_cache_max_items := 1024, init := false, cache := [] }

/-- The function `init_block_cache`. -/
def init_block_cache (c : CacheState) : Int × CacheState :=
  (0, { c with cache := [], init := true })

/-- The function `set_block_cache_size`. -/
def set_block_cache_size (c : CacheState) (max_frames : Nat) : Int × CacheState :=
  if c.init then (-1, c)
  else (0, { c with block_cache_max_items := max_frames % 4294967296 })

/-- The scan of `get_block_cache` over the used slots. -/
def get_scan (frm : Nat) : List cache_frame → Option (List Nat)
  | [] => none
  | e :: rest => if e.frame_number = frm then some e.frame else get_scan frm rest

/-- The function `get_block_cache`: the frame of the first slot holding `frm`,
or `none` for `NULL`. -/
def get_block_cache (c : CacheState) (frm : Nat) : Except Abort (Option (List Nat)) :=
  if c.cache = [] then .ok none
  else if c.init then .ok (get_scan frm c.cache)
  else .error .fault

/-- Result of the search loop of `put_block_cache`. -/
inductive Scan where
  | hit (cache : List cache_frame)
  | miss (cache : List cache_frame) (least_recently_used least_recent_index : Nat)
deriving DecidableEq, Repr

/-- The search loop of `put_block_cache`, from slot `i` on: every slot visited
has its age incremented; the loop stops at the first slot holding `frm`. -/
def put_scan (F frm : Nat) (buf : List Nat) :
    List cache_frame → Nat → Nat → Nat → Except Abort Scan
  | [], _, least_recently_used, least_recent_index =>
    .ok (.miss [] least_recently_used least_recent_index)
  | e :: rest, i, least_recently_used, least_recent_index =>
    let calls := (e.calls_since_use + 1) % 65536
    if e.frame_number = frm then
      match memcpy e.frame 0 buf 0 F with
      | .ok fr => .ok (.hit ({ e with calls_since_use := 0, frame := fr } :: rest))
      | .error a => .error a
    else
      let e1 := { e with calls_since_use := calls }
      let lru := if calls > least_recently_used then calls else least_recently_used
      let lri := if calls > least_recently_used then i % 65536 else least_recent_index
      match put_scan F frm buf rest (i + 1) lru lri with
      | .ok (.hit rest1) => .ok (.hit (e1 :: rest1))
      | .ok (.miss rest1 a b) => .ok (.miss (e1 :: rest1) a b)
      | .error a => .error a

/-- The function `put_block_cache`. -/
def put_block_cache (F : Nat) (c : CacheState) (frm : Nat) (buf : List Nat) :
    Except Abort (Int × CacheState) :=
  if c.init = false then .error .fault
  else
    match put_scan F frm buf c.cache 0 0 0 with
    | .error a => .error a
    | .ok (.hit cache1) => .ok (0, { c with cache := cache1 })
    | .ok (.miss cache1 _ least_recent_index) =>
      if cache1.length < c.block_cache_max_items then
        match peek buf 0 F with
        | .ok fr =>
          let e : cache_frame := ⟨frm % 65536, 0, fr⟩
          .ok (0, { c with cache := cache1 ++ [e] })
        | .error a => .error a
      else if h : least_recent_index < cache1.length then
        match memcpy (cache1.get ⟨least_recent_index, h⟩).frame 0 buf 0 F with
        | .ok fr =>
          let e : cache_frame := ⟨frm % 65536, 0, fr⟩
          .ok (0, { c with cache := cache1.set least_recent_index e })
        | .error a => .error a
      else .error .fault

/-! ## The driver (`block_driver.c`) -/

/-- The enumeration `status` of `struct file`. -/
inductive Status where
  | OPEN
  | CLOSED
deriving DecidableEq, Repr

/-- One entry of the file table (`struct file`).  `path` is the 128-byte array,
`frames` the array of frame numbers, whose length is the field `num_frames`. -/
structure file where
  path : List Nat
  handle : Int
  length : Nat
  status : Status
  seek_pos : Nat
  frames : List Nat
deriving DecidableEq, Repr

/-- The field `num_frames`. -/
def file.num_frames (f : file) : Nat := f.frames.length

/-- What a call of `block_io_bus` leaves behind: the returned register, the
contents of the buffer passed to it, and the state of the device. -/
structure BusResp (β : Type) where
  reg : Nat
  buf : List Nat
  bus : β

/-- The collaborators declared in `block_controller.h`: the frame size, the
operation codes, the checksum function and the bus. -/
structure Env (β : Type) where
  BLOCK_FRAME_SIZE : Nat
  BLOCK_OP_INITMS : Nat
  BLOCK_OP_RDFRME : Nat
  BLOCK_OP_WRFRME : Nat
  BLOCK_OP_POWOFF : Nat
  compute_frame_checksum : List Nat → Nat
  block_io_bus : β → Nat → List Nat → BusResp β

/-- The globals of `block_driver.c` together with the cache and the device.
`num_files` is the length of `all_files`; `temp_buf` is `none` while the
pointer is null (before `block_poweron`, after `block_poweroff`). -/
structure Driver (β : Type) where
  all_files : List file
  num_frames_used : Nat
  temp_buf : Option (List Nat)
  cache : CacheState
  bus : β
deriving DecidableEq

/-- The counter `num_files`. -/
def Driver.num_files {β : Type} (s : Driver β) : Nat := s.all_files.length

/-- The function `generate_register`. -/
def generate_register (kr1 fm1 cs1 rt1 : Nat) : Nat :=
  let tempkr1 := ((kr1 % 256) <<< 56) % 18446744073709551616
  let tempfm1 := ((fm1 % 65536) <<< 40) % 18446744073709551616
  let tempcs1 := ((cs1 % 4294967296) <<< 32) % 18446744073709551616
  let tempcs1 := tempcs1 >>> 24
  let tempcs1 := tempcs1 &&& 0x000000ffffffffff
  let temprt1 := rt1 % 256
  tempkr1 ||| tempfm1 ||| tempcs1 ||| temprt1

/-- The return code of a response: `(return_reg << 56) >> 56` read as `int8_t`. -/
def rt_of (return_reg : Nat) : Int :=
  toI8 ((((return_reg % 18446744073709551616) <<< 56) % 18446744073709551616) >>> 56)

/-- The checksum of a response: `(return_reg << 24) >> 32` stored in a `uint32_t`. -/
def checksum_of (return_reg : Nat) : Nat :=
  ((((return_reg % 18446744073709551616) <<< 24) % 18446744073709551616) >>> 32) % 4294967296

/-- The value `fr_checksum_value` that `compute_frame_checksum` leaves for a buffer. -/
def fr_checksum_value {β : Type} (E : Env β) (buf : List Nat) : Nat :=
  E.compute_frame_checksum buf % 4294967296

/-- How a frame transfer ends: completed, or the bus returned `-1` and the
calling function returns `-1` at once. -/
inductive Xfer (β : Type) where
  | done (buf : List Nat) (bus : β)
  | hard (buf : List Nat) (bus : β)
deriving DecidableEq

/-- The loop `while (frame_checksum != fr_checksum_value)` of the read sequence.
`frame_checksum` is the checksum taken from the first response. -/
def read_retry {β : Type} (E : Env β) (cur_frame frame_checksum : Nat) :
    Nat → List Nat → β → Except Abort (Xfer β)
  | fuel, buf, bus =>
    if frame_checksum = fr_checksum_value E buf then .ok (.done buf bus)
    else
      match fuel with
      | 0 => .error .fuel
      | fuel + 1 =>
        let r := E.block_io_bus bus (generate_register E.BLOCK_OP_RDFRME cur_frame 0 0) buf
        if rt_of r.reg = -1 then .ok (.hard r.buf r.bus)
        else read_retry E cur_frame frame_checksum fuel r.buf r.bus

/-- The read sequence written out in `block_poweron`, in `block_read` and twice
in `block_write`: read frame `cur_frame` into `temp_buf` and repeat while the
checksum disagrees. -/
def read_frame {β : Type} (E : Env β) (fuel cur_frame : Nat) (temp_buf : List Nat) (bus : β) :
    Except Abort (Xfer β) :=
  let r := E.block_io_bus bus (generate_register E.BLOCK_OP_RDFRME cur_frame 0 0) temp_buf
  if rt_of r.reg = -1 then .ok (.hard r.buf r.bus)
  else read_retry E cur_frame (checksum_of r.reg) fuel r.buf r.bus

/-- The loop `while (rt == 2)` of the write sequence. -/
def write_retry {β : Type} (E : Env β) (reg : Nat) :
    Nat → Int → List Nat → β → Except Abort (Xfer β)
  | fuel, rt, buf, bus =>
    if rt ≠ 2 then .ok (.done buf bus)
    else
      match fuel with
      | 0 => .error .fuel
      | fuel + 1 =>
        let r := E.block_io_bus bus reg buf
        write_retry E reg fuel (rt_of r.reg) r.buf r.bus

/-- The write sequence written out in `block_write` and in `block_poweroff`:
send `temp_buf` to frame `cur_frame` and repeat while the bus answers `2`. -/
def write_frame {β : Type} (E : Env β) (fuel cur_frame : Nat) (temp_buf : List Nat) (bus : β) :
    Except Abort (Xfer β) :=
  let reg := generate_register E.BLOCK_OP_WRFRME cur_frame (fr_checksum_value E temp_buf) 0
  let r := E.block_io_bus bus reg temp_buf
  if rt_of r.reg = -1 then .ok (.hard r.buf r.bus)
  else write_retry E reg fuel (rt_of r.reg) r.buf r.bus

/-- The handle search at the head of `block_close`, `block_read`, `block_write`
and `block_seek`: the index of the first entry whose handle is `fd`. -/
def find_handle (fd : Int) : List file → Option Nat
  | [] => none
  | f :: rest =>
    if fd = f.handle then some 0
    else
      match find_handle fd rest with
      | some i => some (i + 1)
      | none => none

/-- The function `block_seek`. -/
def block_seek {β : Type} (s : Driver β) (fd : Int) (loc : Nat) : Int × Driver β :=
  match find_handle fd s.all_files with
  | none => (-1, s)
  | some index =>
    match s.all_files[index]? with
    | none => (-1, s)
    | some f =>
      if f.status = Status.CLOSED then (-1, s)
      else if loc ≤ f.length then
        (0, { s with all_files := s.all_files.set index { f with seek_pos := loc } })
      else (-1, s)

/-- State of a frame loop when it is left: `failed` is set when a bus response
carried `-1` (the function then returns `-1`); `out` holds the bytes stored in
the caller's buffer so far. -/
structure Loop (β : Type) where
  failed : Bool
  out : List Nat
  temp_buf : Option (List Nat)
  cache : CacheState
  bus : β
deriving DecidableEq

/-- Result of looking a frame up for reading (`get_block_cache`, and the read
sequence on a miss): the buffer the data is then copied from is `cache_buf`
on a hit and `temp_buf` on a miss. -/
structure Fetch (β : Type) where
  failed : Bool
  cache_buf : Option (List Nat)
  temp_buf : Option (List Nat)
  bus : β
deriving DecidableEq

/-- The lines `cache_buf = get_block_cache(0, cur_frame); if (cache_buf == NULL) ...`
of `block_read` and `block_write`. -/
def fetch {β : Type} (E : Env β) (fuel : Nat) (cache : CacheState) (cur_frame : Nat)
    (temp_buf : Option (List Nat)) (bus : β) : Except Abort (Fetch β) :=
  match get_block_cache cache cur_frame with
  | .error a => .error a
  | .ok (some cb) => .ok ⟨false, some cb, temp_buf, bus⟩
  | .ok none =>
    match temp_buf with
    | none => .error .fault
    | some tb =>
      match read_frame E fuel cur_frame tb bus with
      | .error a => .error a
      | .ok (.hard b bus1) => .ok ⟨true, none, some b, bus1⟩
      | .ok (.done b bus1) => .ok ⟨false, none, some b, bus1⟩

/-- The frame loop of `block_read`.  The first argument is the part of the
frame array from `frame_index` on.  `frame_index` is an `int16_t`: the values
from 32768 on stand for the negative indices it wraps to, and using one as an
index leaves the array. -/
def read_loop {β : Type} (E : Env β) (fuel : Nat) (cache : CacheState) :
    List Nat → Nat → Nat → Nat → List Nat → Option (List Nat) → β → Except Abort (Loop β)
  | [], frame_index, _, count_remaining, out, temp_buf, bus =>
    if count_remaining = 0 then .ok ⟨false, out, temp_buf, cache, bus⟩
    else if 32768 ≤ frame_index then .error .fault
    else .ok ⟨false, out, temp_buf, cache, bus⟩
  | cur_frame :: rest, frame_index, seek, count_remaining, out, temp_buf, bus =>
    if count_remaining = 0 then .ok ⟨false, out, temp_buf, cache, bus⟩
    else if 32768 ≤ frame_index then .error .fault
    else
      match fetch E fuel cache cur_frame temp_buf bus with
      | .error a => .error a
      | .ok ft =>
        if ft.failed then .ok ⟨true, out, ft.temp_buf, cache, ft.bus⟩
        else
          let bytes_to_read_in_cur_frame :=
            if count_remaining < E.BLOCK_FRAME_SIZE then count_remaining else E.BLOCK_FRAME_SIZE
          let src := match ft.cache_buf with
            | some cb => some cb
            | none => ft.temp_buf
          match src with
          | none => .error .fault
          | some sb =>
            match peek sb seek bytes_to_read_in_cur_frame with
            | .error a => .error a
            | .ok bytes =>
              read_loop E fuel cache rest (frame_index + 1) 0
                (count_remaining - bytes_to_read_in_cur_frame) (out ++ bytes) ft.temp_buf ft.bus

/-- The function `block_read`; the second component of the result holds the
bytes stored in the caller's buffer, from its start on. -/
def block_read {β : Type} (E : Env β) (fuel : Nat) (s : Driver β) (fd : Int) (count : Int) :
    Except Abort (Int × List Nat × Driver β) :=
  match find_handle fd s.all_files with
  | none => .ok (-1, [], s)
  | some index =>
    match s.all_files[index]? with
    | none => .ok (-1, [], s)
    | some f =>
      if f.status = Status.CLOSED then .ok (-1, [], s)
      else
        let seek := f.seek_pos
        let length := f.length
        let avail := (length + 4294967296 - seek) % 4294967296
        let count := if avail < toU32 count then toI32 avail else count
        if E.BLOCK_FRAME_SIZE = 0 then .error .fault
        else
          let frame_index := (seek / E.BLOCK_FRAME_SIZE) % 65536
          let seek := seek % E.BLOCK_FRAME_SIZE
          match read_loop E fuel s.cache (f.frames.drop frame_index) frame_index seek
              (toU32 count) [] s.temp_buf s.bus with
          | .error a => .error a
          | .ok l =>
            if l.failed then .ok (-1, l.out, { s with temp_buf := l.temp_buf, bus := l.bus })
            else
              let f1 := { f with seek_pos := (f.seek_pos + toU32 count) % 4294967296 }
              .ok (count, l.out,
                { s with all_files := s.all_files.set index f1, temp_buf := l.temp_buf, bus := l.bus })

/-- The loop `while (length >= num_frames * BLOCK_FRAME_SIZE)` of `block_write`,
on the local `length`, the frame array and `num_frames_used`.  Every turn adds
a frame, so the first argument (65536 at the call) is never used up: growing an
array of 65535 frames wraps `num_frames` to 0 and stores at index `-1`.  The
product `num_frames * BLOCK_FRAME_SIZE` is taken without overflow. -/
def grow_frames (F : Nat) : Nat → Nat → List Nat → Nat → Except Abort (List Nat × Nat)
  | 0, _, _, _ => .error .fault
  | n + 1, length, frames, num_frames_used =>
    if length ≥ frames.length * F then
      if frames.length + 1 ≥ 65536 then .error .fault
      else
        grow_frames F n ((length + 4294967296 - F % 4294967296) % 4294967296)
          (frames ++ [(num_frames_used + 1) % 65536]) ((num_frames_used + 1) % 65536)
    else .ok (frames, num_frames_used)

/-- Lines 715 to 739 of `block_write`: when `seek + count > length`, the length
of the entry is set to `seek + count` and the frame array is grown.  The result
is the entry and `num_frames_used`. -/
def grow_file (F : Nat) (f : file) (count : Int) (num_frames_used : Nat) :
    Except Abort (file × Nat) :=
  if (f.seek_pos + toU32 count) % 4294967296 > f.length then
    let length := (f.seek_pos + toU32 count) % 4294967296
    match grow_frames F 65536 length f.frames num_frames_used with
    | .error a => .error a
    | .ok (frames, used) => .ok ({ f with length := length, frames := frames }, used)
  else .ok (f, num_frames_used)

/-- The three cases of the body of the write loop, up to the point where
`temp_buf` holds the frame to send.  The result is the new `temp_buf`,
`bytes_written` and `bytes_left_to_write`, besides the state `fetch` leaves. -/
structure Splice (β : Type) where
  failed : Bool
  temp_buf : Option (List Nat)
  bytes_written : Nat
  bytes_left_to_write : Nat
  bus : β
deriving DecidableEq

/-- The buffer the bytes of a partial frame are copied from in `block_write`:
`cache_buf` when the frame was found in the cache (lines 848, 861, 933), the
caller's `buf` otherwise (lines 845, 858, 930). -/
def copy_src (cache_buf : Option (List Nat)) (buf : List Nat) : List Nat :=
  match cache_buf with
  | some cb => cb
  | none => buf

/-- Lines 792 to 938 of `block_write`. -/
def splice {β : Type} (E : Env β) (fuel : Nat) (cache : CacheState) (buf : List Nat)
    (cur_frame seek bytes_left_to_write bytes_written : Nat)
    (temp_buf : Option (List Nat)) (bus : β) : Except Abort (Splice β) :=
  let F := E.BLOCK_FRAME_SIZE
  if seek > 0 then
    match fetch E fuel cache cur_frame temp_buf bus with
    | .error a => .error a
    | .ok ft =>
      if ft.failed then .ok ⟨true, ft.temp_buf, bytes_written, bytes_left_to_write, ft.bus⟩
      else
        let src := copy_src ft.cache_buf buf
        match ft.temp_buf with
        | none => .error .fault
        | some tb =>
          if bytes_left_to_write ≤ F - seek then
            match memcpy tb seek src 0 bytes_left_to_write with
            | .error a => .error a
            | .ok tb1 => .ok ⟨false, some tb1, bytes_left_to_write, 0, ft.bus⟩
          else
            match memcpy tb seek src 0 (F - seek) with
            | .error a => .error a
            | .ok tb1 =>
              .ok ⟨false, some tb1, bytes_written + (F - seek),
                bytes_left_to_write - (F - seek), ft.bus⟩
  else if bytes_left_to_write ≥ F then
    match temp_buf with
    | none => .error .fault
    | some tb =>
      match memcpy tb 0 buf bytes_written F with
      | .error a => .error a
      | .ok tb1 => .ok ⟨false, some tb1, bytes_written + F, bytes_left_to_write - F, bus⟩
  else
    match fetch E fuel cache cur_frame temp_buf bus with
    | .error a => .error a
    | .ok ft =>
      if ft.failed then .ok ⟨true, ft.temp_buf, bytes_written, bytes_left_to_write, ft.bus⟩
      else
        let src := copy_src ft.cache_buf buf
        match ft.temp_buf with
        | none => .error .fault
        | some tb =>
          match memcpy tb 0 src bytes_written bytes_left_to_write with
          | .error a => .error a
          | .ok tb1 => .ok ⟨false, some tb1, bytes_written + bytes_left_to_write, 0, ft.bus⟩

/-- The loop `while (bytes_left_to_write > 0)` of `block_write`.  The first
argument is the part of the frame array from `frame_index` on; indexing past
its end is a fault. -/
def write_loop {β : Type} (E : Env β) (fuel : Nat) (buf : List Nat) :
    List Nat → Nat → Nat → Nat → Option (List Nat) → CacheState → β → Except Abort (Loop β)
  | [], _, bytes_left_to_write, _, temp_buf, cache, bus =>
    if bytes_left_to_write = 0 then .ok ⟨false, [], temp_buf, cache, bus⟩
    else .error .fault
  | cur_frame :: rest, seek, bytes_left_to_write, bytes_written, temp_buf, cache, bus =>
    if bytes_left_to_write = 0 then .ok ⟨false, [], temp_buf, cache, bus⟩
    else
      match splice E fuel cache buf cur_frame seek bytes_left_to_write bytes_written
          temp_buf bus with
      | .error a => .error a
      | .ok sp =>
        if sp.failed then .ok ⟨true, [], sp.temp_buf, cache, sp.bus⟩
        else
          match sp.temp_buf with
          | none => .error .fault
          | some tb =>
            match write_frame E fuel cur_frame tb sp.bus with
            | .error a => .error a
            | .ok (.hard b bus1) => .ok ⟨true, [], some b, cache, bus1⟩
            | .ok (.done b bus1) =>
              match put_block_cache E.BLOCK_FRAME_SIZE cache cur_frame b with
              | .error a => .error a
              | .ok (_, cache1) =>
                write_loop E fuel buf rest 0 sp.bytes_left_to_write sp.bytes_written
                  (some b) cache1 bus1

/-- The function `block_write`. -/
def block_write {β : Type} (E : Env β) (fuel : Nat) (s : Driver β) (fd : Int)
    (buf : List Nat) (count : Int) : Except Abort (Int × Driver β) :=
  match find_handle fd s.all_files with
  | none => .ok (-1, s)
  | some index =>
    match s.all_files[index]? with
    | none => .ok (-1, s)
    | some f =>
      if f.status = Status.CLOSED then .ok (-1, s)
      else
        let seek := f.seek_pos
        match grow_file E.BLOCK_FRAME_SIZE f count s.num_frames_used with
        | .error a => .error a
        | .ok (f1, used) =>
          if E.BLOCK_FRAME_SIZE = 0 then .error .fault
          else
            let frame_index := (seek / E.BLOCK_FRAME_SIZE) % 65536
            let seek := seek % E.BLOCK_FRAME_SIZE
            match write_loop E fuel buf (f1.frames.drop frame_index) seek (toU32 count) 0
                s.temp_buf s.cache s.bus with
            | .error a => .error a
            | .ok l =>
              if l.failed then
                .ok (-1, { all_files := s.all_files.set index f1, num_frames_used := used,
                           temp_buf := l.temp_buf, cache := l.cache, bus := l.bus })
              else
                let f2 := { f1 with seek_pos := (f1.seek_pos + toU32 count) % 4294967296 }
                .ok (count, { all_files := s.all_files.set index f2, num_frames_used := used,
                              temp_buf := l.temp_buf, cache := l.cache, bus := l.bus })

/-! ## Session persistence (`block_poweroff`, `block_poweron`) -/

/-- The two bytes `memcpy` stores for a 16-bit value (low byte first). -/
def bytes16 (v : Nat) : List Nat := [v % 256, (v / 256) % 256]

/-- The four bytes `memcpy` stores for a 32-bit value (low byte first). -/
def bytes32 (v : Nat) : List Nat :=
  [v % 256, (v / 256) % 256, (v / 65536) % 256, (v / 16777216) % 256]

/-- The 16-bit value `memcpy` loads from two bytes. -/
def load16 (b : List Nat) : Nat := b.getD 0 0 % 256 + 256 * (b.getD 1 0 % 256)

/-- The 32-bit value `memcpy` loads from four bytes. -/
def load32 (b : List Nat) : Nat :=
  b.getD 0 0 % 256 + 256 * (b.getD 1 0 % 256) + 65536 * (b.getD 2 0 % 256)
    + 16777216 * (b.getD 3 0 % 256)

/-- The bytes `block_poweroff` stores for one file (lines 309 to 330): the path
array, the handle, the length, the frame count and the frame numbers. -/
def file_bytes (f : file) : List Nat :=
  f.path.take 128 ++ bytes16 (toU16 f.handle) ++ bytes32 f.length ++ bytes16 f.num_frames
    ++ (f.frames.map bytes16).flatten

/-- The bytes `block_poweroff` stores from offset 0 on (lines 304 to 333): the
consecutive `memcpy` calls at `temp_buf + bytes_written` lay the records out
one after the other. -/
def metadata_bytes (all_files : List file) : List Nat :=
  bytes16 all_files.length ++ (all_files.map file_bytes).flatten

/-- Lines 300 to 339 of `block_poweroff`: the metadata, then zeros up to the end
of the frame.  Storing past the end of `temp_buf` is a fault. -/
def serialize_metadata (F : Nat) (all_files : List file) : Except Abort (List Nat) :=
  if (metadata_bytes all_files).length ≤ F then
    .ok (metadata_bytes all_files ++ List.replicate (F - (metadata_bytes all_files).length) 0)
  else .error .fault

/-- The loop `for (int j = 0; j < num_frames; j++)` of `block_poweron`, on the
bytes from `temp_buf + bytes_read` on: the frame numbers and the bytes left. -/
def parse_frames : Nat → List Nat → Except Abort (List Nat × List Nat)
  | 0, bytes => .ok ([], bytes)
  | n + 1, bytes =>
    match peek bytes 0 2 with
    | .error a => .error a
    | .ok b =>
      match parse_frames n (bytes.drop 2) with
      | .error a => .error a
      | .ok (frames, rest) => .ok (load16 b :: frames, rest)

/-- One turn of the loop `for (int i = 0; i < num_files; i++)` of `block_poweron`
(lines 234 to 261). -/
def parse_file (bytes : List Nat) : Except Abort (file × List Nat) :=
  match peek bytes 0 128, peek bytes 128 2, peek bytes 130 4, peek bytes 134 2 with
  | .ok path, .ok handle, .ok length, .ok num_frames =>
    match parse_frames (load16 num_frames) (bytes.drop 136) with
    | .error a => .error a
    | .ok (frames, rest) =>
      .ok ({ path := path, handle := toI16 (load16 handle), length := load32 length,
             status := Status.OPEN, seek_pos := 0, frames := frames }, rest)
  | _, _, _, _ => .error .fault

/-- The loop `for (int i = 0; i < num_files; i++)` of `block_poweron`. -/
def parse_files : Nat → List Nat → Except Abort (List file)
  | 0, _ => .ok []
  | n + 1, bytes =>
    match parse_file bytes with
    | .error a => .error a
    | .ok (f, rest) =>
      match parse_files n rest with
      | .error a => .error a
      | .ok fs => .ok (f :: fs)

/-- Lines 222 to 266 of `block_poweron`: the file table read back from the
metadata frame in `temp_buf`. -/
def parse_metadata (temp_buf : List Nat) : Except Abort (List file) :=
  match peek temp_buf 0 2 with
  | .error a => .error a
  | .ok b => parse_files (load16 b) (temp_buf.drop 2)

/-- The function `block_poweron`.  `bck_exists` tells whether `fopen` finds
`block_memsys.bck`; `heap` is the content of the buffer `malloc` hands out. -/
def block_poweron {β : Type} (E : Env β) (fuel : Nat) (s : Driver β) (bck_exists : Bool)
    (heap : List Nat) : Except Abort (Int × Driver β) :=
  let r := E.block_io_bus s.bus (generate_register E.BLOCK_OP_INITMS 0 0 0) []
  if rt_of r.reg = -1 then .ok (-1, { s with bus := r.bus })
  else
    let s1 : Driver β := { all_files := [], num_frames_used := 0, temp_buf := some heap,
                           cache := s.cache, bus := r.bus }
    if bck_exists then
      match read_frame E fuel 0 heap r.bus with
      | .error a => .error a
      | .ok (.hard b bus1) => .ok (-1, { s1 with temp_buf := some b, bus := bus1 })
      | .ok (.done b bus1) =>
        match parse_metadata b with
        | .error a => .error a
        | .ok files =>
          .ok (0, { s1 with all_files := files, temp_buf := some b,
                            cache := (init_block_cache s.cache).2, bus := bus1 })
    else .ok (0, { s1 with cache := (init_block_cache s.cache).2 })

/-- The function `close_block_cache`.  Its loop runs over all
`block_cache_max_items` slots of the table: through a null table pointer, or on
a slot that was never filled (whose `frame` pointer `malloc` left
indeterminate), `free(cache[i].frame)` is a fault.  `cache_indeces_used` is not
reset. -/
def close_block_cache (c : CacheState) : Except Abort (Int × CacheState) :=
  if c.block_cache_max_items = 0 then .ok (0, { c with init := false })
  else if c.init = false then .error .fault
  else if c.cache.length < c.block_cache_max_items then .error .fault
  else
    .ok (0, { c with init := false,
                     cache := c.cache.map (fun _ => (⟨0, 0, []⟩ : cache_frame)) })

/-- The function `block_close`. -/
def block_close {β : Type} (s : Driver β) (fd : Int) : Int × Driver β :=
  match find_handle fd s.all_files with
  | none => (-1, s)
  | some index =>
    match s.all_files[index]? with
    | none => (-1, s)
    | some f =>
      if f.status = Status.CLOSED then (-1, s)
      else (0, { s with all_files := s.all_files.set index { f with status := Status.CLOSED } })

/-- The characters of a C string: the bytes before the first zero byte. -/
def cstr (a : List Nat) : List Nat := a.takeWhile (fun b => b ≠ 0)

/-- The test `strcmp(arr, path) == 0` for the path array `arr` of an entry and
the string `path`: the bytes are compared up to the first difference or the
zero byte; running off the end of the array is a fault. -/
def strcmp_eq : List Nat → List Nat → Except Abort Bool
  | [], _ => .error .fault
  | a :: _, [] => .ok (decide (a = 0))
  | a :: arr, p :: path =>
    if p = 0 then .ok (decide (a = 0))
    else if a ≠ p then .ok false
    else strcmp_eq arr path

/-- The path search at the head of `block_open`: the index of the first entry
whose path is `path`. -/
def find_path (path : List Nat) : List file → Except Abort (Option Nat)
  | [] => .ok none
  | f :: rest =>
    match strcmp_eq f.path path with
    | .error a => .error a
    | .ok true => .ok (some 0)
    | .ok false =>
      match find_path path rest with
      | .error a => .error a
      | .ok (some i) => .ok (some (i + 1))
      | .ok none => .ok none

/-- The function `block_open`.  `rnd` is the value `getRandomValue` returns and
`heap` the content of the 128-byte path array of the slot `realloc` adds, into
which `strcpy` stores the string and its zero byte. -/
def block_open {β : Type} (s : Driver β) (path : List Nat) (rnd : Nat) (heap : List Nat) :
    Except Abort (Int × Driver β) :=
  match find_path path s.all_files with
  | .error a => .error a
  | .ok (some index) =>
    match s.all_files[index]? with
    | none => .error .fault
    | some f => .ok (f.handle, s)
  | .ok none =>
    if s.all_files.length > 1024 then .ok (-1, s)
    else if 128 < (cstr path).length + 1 then .error .fault
    else
      match poke heap 0 (cstr path ++ [0]) with
      | .error a => .error a
      | .ok arr =>
        let fd := toI16 ((rnd % 4294967296) / 65536)
        let f : file := ⟨arr, fd, 0, Status.OPEN, 0, [(s.num_frames_used + 1) % 65536]⟩
        .ok (fd, { s with all_files := s.all_files ++ [f],
                          num_frames_used := (s.num_frames_used + 1) % 65536 })

/-- The function `block_poweroff`.  The buffers it frees are not modelled
beyond `temp_buf` becoming null. -/
def block_poweroff {β : Type} (E : Env β) (fuel : Nat) (s : Driver β) :
    Except Abort (Int × Driver β) :=
  match s.temp_buf with
  | none => .error .fault
  | some _ =>
    match serialize_metadata E.BLOCK_FRAME_SIZE s.all_files with
    | .error a => .error a
    | .ok frame =>
      match write_frame E fuel 0 frame s.bus with
      | .error a => .error a
      | .ok (.hard b bus1) => .ok (-1, { s with temp_buf := some b, bus := bus1 })
      | .ok (.done b bus1) =>
        let r := E.block_io_bus bus1 (generate_register E.BLOCK_OP_POWOFF 0 0 0) []
        if rt_of r.reg = -1 then .ok (-1, { s with temp_buf := some b, bus := r.bus })
        else
          match close_block_cache s.cache with
          | .error a => .error a
          | .ok (_, c1) => .ok (0, { s with temp_buf := none, cache := c1, bus := r.bus })

/-! ## Sequences of calls -/

/-- A call of one of the file operations, with its arguments. -/
inductive Call where
  | open (path : List Nat) (rnd : Nat) (heap : List Nat)
  | close (fd : Int)
  | read (fd : Int) (count : Int)
  | write (fd : Int) (buf : List Nat) (count : Int)
  | seek (fd : Int) (loc : Nat)

/-- The state one call leaves. -/
def call {β : Type} (E : Env β) (fuel : Nat) (s : Driver β) : Call → Except Abort (Driver β)
  | .open path rnd heap =>
    match block_open s path rnd heap with
    | .error a => .error a
    | .ok (_, s1) => .ok s1
  | .close fd => .ok (block_close s fd).2
  | .read fd count =>
    match block_read E fuel s fd count with
    | .error a => .error a
    | .ok (_, _, s1) => .ok s1
  | .write fd buf count =>
    match block_write E fuel s fd buf count with
    | .error a => .error a
    | .ok (_, s1) => .ok s1
  | .seek fd loc => .ok (block_seek s fd loc).2

/-- The state a sequence of calls leaves. -/
def calls {β : Type} (E : Env β) (fuel : Nat) : Driver β → List Call → Except Abort (Driver β)
  | s, [] => .ok s
  | s, c :: rest =>
    match call E fuel s c with
    | .error a => .error a
    | .ok s1 => calls E fuel s1 rest

/-- The cache after a sequence of calls `put_block_cache(0, frm, buf)`. -/
def puts (F : Nat) : CacheState → List (Nat × List Nat) → Except Abort CacheState
  | c, [] => .ok c
  | c, (frm, buf) :: rest =>
    match put_block_cache F c frm buf with
    | .error a => .error a
    | .ok (_, c1) => puts F c1 rest

/-! ## Notions used to state the claims on the table and the cache -/

/-- A slot after the search loop of `put_block_cache` has passed it without a
match: its age is one more, modulo 2^16. -/
def aged (e : cache_frame) : cache_frame :=
  { e with calls_since_use := (e.calls_since_use + 1) % 65536 }

/-- The values of `least_recently_used` and `least_recent_index` with which
the search loop of `put_block_cache` ends when it runs from slot `i` on and no
slot holds the frame. -/
def scan_lru : List cache_frame → Nat → Nat → Nat → Nat × Nat
  | [], _, least_recently_used, least_recent_index => (least_recently_used, least_recent_index)
  | e :: rest, i, least_recently_used, least_recent_index =>
    if (e.calls_since_use + 1) % 65536 > least_recently_used then
      scan_lru rest (i + 1) ((e.calls_since_use + 1) % 65536) (i % 65536)
    else scan_lru rest (i + 1) least_recently_used least_recent_index

/-- The frame numbers held by the slots of a cache table. -/
def keys (l : List cache_frame) : List Nat := l.map cache_frame.frame_number

/-- A cache in working order for frames of `F` bytes: initialized, with room
for at least one frame, every slot in use
holding `F` bytes, and no frame number held twice. -/
def CacheState.wf (F : Nat) (c : CacheState) : Prop :=
  c.init = true ∧ 1 ≤ c.block_cache_max_items ∧
    (∀ e ∈ c.cache, e.frame.length = F) ∧ (keys c.cache).Nodup

/-- The slots that puts of pairwise different frames leave in a cache with
room for all of them, oldest first: the age of a slot is the number of puts
made after its own. -/
def stack : List (Nat × List Nat) → List cache_frame
  | [] => []
  | p :: rest => ⟨p.1, rest.length, p.2⟩ :: stack rest

/-- The collaborators `E` with a recorder on the bus: every request is noted,
newest first, with its register and the bytes its buffer held when it was
made. -/
def recordEnv {β : Type} (E : Env β) : Env (β × List (Nat × List Nat)) :=
  { BLOCK_FRAME_SIZE := E.BLOCK_FRAME_SIZE, BLOCK_OP_INITMS := E.BLOCK_OP_INITMS,
    BLOCK_OP_RDFRME := E.BLOCK_OP_RDFRME, BLOCK_OP_WRFRME := E.BLOCK_OP_WRFRME,
    BLOCK_OP_POWOFF := E.BLOCK_OP_POWOFF, compute_frame_checksum := E.compute_frame_checksum,
    block_io_bus := fun st reg buf =>
      let r := E.block_io_bus st.1 reg buf
      ⟨r.reg, r.buf, (r.bus, (reg, buf) :: st.2)⟩ }

/-- A recorded request is a write of frame `K`: its register carries the
operation code `op` in the bits 56 to 63 and `K` in the bits 40 to 55. -/
def is_write (op K : Nat) (p : Nat × List Nat) : Bool :=
  decide (p.1 >>> 56 = op % 256 ∧ (p.1 >>> 40) % 65536 = K)

/-- The bytes sent to the bus in the last recorded write of frame `K`, if
there is one. -/
def last_write {β : Type} (E : Env β) (K : Nat) (log : List (Nat × List Nat)) :
    Option (List Nat) :=
  (log.find? (is_write E.BLOCK_OP_WRFRME K)).map Prod.snd

/-- The cursor of every entry lies within its file, whose length is a
`uint32_t` value. -/
def cursor_ok (l : List file) : Prop :=
  ∀ f ∈ l, f.seek_pos ≤ f.length ∧ f.length < 4294967296

/-- The arguments of a call are in the range the cursor invariant is claimed
for: a count is a non-negative `int32_t` value, and a write does not take the
cursor of the file it addresses past `2^32 - 1`. -/
def call_in_range {β : Type} (s : Driver β) : Call → Bool
  | .read _ count => decide (0 ≤ count) && decide (count < 2147483648)
  | .write fd _ count =>
    decide (0 ≤ count) && decide (count < 2147483648) &&
      s.all_files.all (fun f => decide (f.handle ≠ fd) ||
        decide ((f.seek_pos : Int) + count < 4294967296))
  | .open _ _ _ => true
  | .close _ => true
  | .seek _ _ => true

/-- Every call of a sequence has its arguments in range in the state it is
made in. -/
def calls_in_range {β : Type} (E : Env β) (fuel : Nat) : Driver β → List Call → Bool
  | _, [] => true
  | s, c :: rest =>
    call_in_range s c &&
      match call E fuel s c with
      | .ok s1 => calls_in_range E fuel s1 rest
      | .error _ => true

/-- The frame number and the age of every slot of a cache table, in order. -/
def slots (l : List cache_frame) : List (Nat × Nat) :=
  l.map (fun e => (e.frame_number, e.calls_since_use))

/-- The frame numbers the cache holds after `put_block_cache` has been called
for the frames `frames` in turn, each with a buffer of `F` bytes.  Which slot
holds which frame does not depend on the bytes put. -/
def keys_after (F : Nat) (c : CacheState) (frames : List Nat) : List Nat :=
  match puts F c (frames.map (fun K => (K, List.replicate F 0))) with
  | .ok c1 => keys c1.cache
  | .error _ => []

/-- For a write of `count` bytes at the cursor `seek_pos` of a file with the
frame array `frames`: the frame that takes the last bytes of the write is in
the cache when its turn comes, that is, after the frames the write goes through
before it have been put. -/
def tail_cached (F : Nat) (c : CacheState) (frames : List Nat) (seek_pos count : Nat) : Bool :=
  decide ((frames.drop (seek_pos / F)).getD ((seek_pos % F + count - 1) / F) 0
    ∈ keys_after F c ((frames.drop (seek_pos / F)).take ((seek_pos % F + count - 1) / F)))

/-! ## A concrete device for worked examples -/

/-- Equality of outcomes is decidable. -/
instance decEqExcept {ε α : Type} [DecidableEq ε] [DecidableEq α] : DecidableEq (Except ε α)
  | .ok a, .ok b =>
    if h : a = b then isTrue (congrArg Except.ok h) else isFalse (fun h1 => h (Except.ok.inj h1))
  | .error a, .error b =>
    if h : a = b then isTrue (congrArg Except.error h)
    else isFalse (fun h1 => h (Except.error.inj h1))
  | .ok _, .error _ => isFalse (fun h => Except.noConfusion h)
  | .error _, .ok _ => isFalse (fun h => Except.noConfusion h)

/-- A checksum for the examples: the sum of the bytes. -/
def sumck (buf : List Nat) : Nat := buf.foldl (· + ·) 0

/-- A device that never fails: it keeps the frames written to it, newest first,
answers a write with return code 0, and answers a read with the `F` bytes of
the frame last written (zeros where nothing was written) and their checksum. -/
def ramBus (F : Nat) (b : List (Nat × List Nat)) (reg : Nat) (buf : List Nat) :
    BusResp (List (Nat × List Nat)) :=
  let op := reg >>> 56
  let frm := (reg >>> 40) % 65536
  if op = 3 then ⟨0, buf, (frm, buf) :: b⟩
  else if op = 2 then
    let d := ((b.lookup frm).getD [] ++ List.replicate F 0).take F
    ⟨(sumck d % 4294967296) <<< 8, d, b⟩
  else ⟨0, buf, b⟩

/-- The collaborators of the examples, for frame size `F`. -/
def ramEnv (F : Nat) : Env (List (Nat × List Nat)) :=
  { BLOCK_FRAME_SIZE := F, BLOCK_OP_INITMS := 0, BLOCK_OP_RDFRME := 2, BLOCK_OP_WRFRME := 3,
    BLOCK_OP_POWOFF := 4, compute_frame_checksum := sumck, block_io_bus := ramBus F }

/-- The 128-byte path array of a file named `a`. -/
def path_a : List Nat := 97 :: List.replicate 127 0

/-- The driver right after `block_poweron` and the first `block_open`: one open
file of length 0 with handle 7 and the frame 1, a cache of 4 slots, none used. -/
def freshOn {β : Type} (F : Nat) (bus : β) : Driver β :=
  { all_files := [⟨path_a, 7, 0, .OPEN, 0, [1]⟩], num_frames_used := 1,
    temp_buf := some (List.replicate F 0),
    cache := { block_cache_max_items := 4, init := true, cache := [] }, bus := bus }

/-- The state `freshOn` over the device `ramBus` with nothing written yet. -/
def fresh (F : Nat) : Driver (List (Nat × List Nat)) := freshOn F []

/-- The value ranges that the C types give the fields of a file entry: a
128-byte path, an `int16_t` handle, a `uint32_t` length, a `uint16_t` frame
count and `uint16_t` frame numbers. -/
abbrev file.wf (f : file) : Prop :=
  f.path.length = 128 ∧ (∀ b ∈ f.path, b < 256) ∧ -32768 ≤ f.handle ∧ f.handle < 32768 ∧
    f.length < 4294967296 ∧ f.frames.length < 65536 ∧ ∀ x ∈ f.frames, x < 65536

/-- The entry with its status and cursor set the way `block_poweron` sets them
(lines 246 to 248). -/
def file.restored (f : file) : file := { f with status := Status.OPEN, seek_pos := 0 }

/-- A file table of two files for the examples: `a`, closed, 2500 bytes in
three frames, and `b`, open, empty, one frame. -/
def two_files : List file :=
  [⟨path_a, 7, 2500, .CLOSED, 1600, [1, 2, 3]⟩,
   ⟨98 :: List.replicate 127 0, -3, 0, .OPEN, 0, [4]⟩]

/-- The state a call leaves, or `d` when the run does not return. -/
def state_of {β : Type} (r : Except Abort (Int × Driver β)) (d : Driver β) : Driver β :=
  match r with
  | .ok (_, s) => s
  | .error _ => d

/-- The value a call returns, if the run returns. -/
def value_of {β : Type} (r : Except Abort (Int × Driver β)) : Option Int :=
  match r with
  | .ok (v, _) => some v
  | .error _ => none

/-- The sequence `block_write(fd, data, n); block_seek(fd, 0); block_read(fd, out, n)`
with `n` the size of `data`: the value `block_read` returns and the bytes it stores. -/
def round_trip {β : Type} (E : Env β) (fuel : Nat) (s : Driver β) (fd : Int) (data : List Nat) :
    Except Abort (Int × List Nat) :=
  match block_write E fuel s fd data data.length with
  | .error a => .error a
  | .ok (_, s1) =>
    match block_read E fuel (block_seek s1 fd 0).2 fd data.length with
    | .error a => .error a
    | .ok (r, out, _) => .ok (r, out)

/-- The state after `block_write(7, "A", 1); block_seek(7, 0)` on `fresh 1024`:
the file has length 1, its cursor is 0 and its frame 1 is in the cache. -/
def resident : Driver (List (Nat × List Nat)) :=
  (block_seek (state_of (block_write (ramEnv 1024) 0 (fresh 1024) 7 [65] 1) (fresh 1024)) 7 0).2

/-- The state `resident` with the cursor moved to offset 1. -/
def resident_mid : Driver (List (Nat × List Nat)) := (block_seek resident 7 1).2

/-- The state after writing 1024, 1024 and 452 bytes of `0xAA` to the file of
`fresh 1024` and seeking to offset 1000. -/
def aa_file : Driver (List (Nat × List Nat)) :=
  let s1 := state_of (block_write (ramEnv 1024) 0 (fresh 1024) 7 (List.replicate 1024 170) 1024)
    (fresh 1024)
  let s2 := state_of (block_write (ramEnv 1024) 0 s1 7 (List.replicate 1024 170) 1024) s1
  let s3 := state_of (block_write (ramEnv 1024) 0 s2 7 (List.replicate 452 170) 452) s2
  (block_seek s3 7 1000).2

/-- The metadata frame `block_poweroff` builds for `two_files`. -/
def two_files_frame : List Nat :=
  match serialize_metadata 1024 two_files with
  | .ok frame => frame
  | .error _ => []

/-- The driver before `block_poweron`, on a device whose frame 0 holds the
metadata of `two_files`. -/
def powered_off : Driver (List (Nat × List Nat)) :=
  { all_files := [], num_frames_used := 0, temp_buf := none, cache := CacheState.boot,
    bus := [(0, two_files_frame)] }

/-- A device that answers every request with return code 2 (checksum rejected)
and never with -1. -/
def rejectBus (b : Unit) (_ : Nat) (buf : List Nat) : BusResp Unit := ⟨2, buf, b⟩

/-- The collaborators with the device `rejectBus`. -/
def rejectEnv (F : Nat) : Env Unit :=
  { BLOCK_FRAME_SIZE := F, BLOCK_OP_INITMS := 0, BLOCK_OP_RDFRME := 2, BLOCK_OP_WRFRME := 3,
    BLOCK_OP_POWOFF := 4, compute_frame_checksum := sumck, block_io_bus := rejectBus }

/-- An open file of one byte with handle 7 and the frame 1, an empty cache. -/
def one_byte {β : Type} (F : Nat) (bus : β) : Driver β :=
  { all_files := [⟨path_a, 7, 1, .OPEN, 0, [1]⟩], num_frames_used := 1,
    temp_buf := some (List.replicate F 0),
    cache := { block_cache_max_items := 4, init := true, cache := [] }, bus := bus }

/-- The state `block_read` leaves, or `d` when the run does not return. -/
def read_state_of {β : Type} (r : Except Abort (Int × List Nat × Driver β)) (d : Driver β) :
    Driver β :=
  match r with
  | .ok (_, _, s) => s
  | .error _ => d

/-- The bytes `block_read` stores in the caller's buffer, if the run returns. -/
def read_out_of {β : Type} (r : Except Abort (Int × List Nat × Driver β)) : List Nat :=
  match r with
  | .ok (_, out, _) => out
  | .error _ => []

/-- A driver whose frame counter is used up: one open file of 65534 full frames
that owns the frames 1 to 65535, as left by 65534 writes of one frame each. -/
def exhausted : Driver (List (Nat × List Nat)) :=
  { all_files := [⟨path_a, 7, 67107840, .OPEN, 67107840, List.range' 1 65535⟩],
    num_frames_used := 65535, temp_buf := some (List.replicate 1024 0),
    cache := { block_cache_max_items := 4, init := true, cache := [] }, bus := [] }

/-- A file table at the limit: 1024 closed files with pairwise different
two-character paths, handles 0 to 1023 and one frame each. -/
def full_table : List file :=
  (List.range 1024).map (fun (i : Nat) =>
    (⟨[1 + i % 255, 1 + i / 255] ++ List.replicate 126 0, Int.ofNat i, 0, Status.CLOSED, 0,
      [i + 1]⟩ : file))

/-- The driver with the file table `full_table`. -/
def at_limit : Driver (List (Nat × List Nat)) :=
  { all_files := full_table, num_frames_used := 1024,
    temp_buf := some (List.replicate 1024 0),
    cache := { block_cache_max_items := 4, init := true, cache := [] }, bus := [] }

/-- A device that answers the requests with the registers of a script, one
after the other, then with 0, and leaves the buffer as it is. -/
def scriptBus (b : List Nat) (_ : Nat) (buf : List Nat) : BusResp (List Nat) :=
  match b with
  | [] => ⟨0, buf, []⟩
  | r :: rest => ⟨r, buf, rest⟩

/-- The collaborators with the device `scriptBus`. -/
def scriptEnv (F : Nat) : Env (List Nat) :=
  { BLOCK_FRAME_SIZE := F, BLOCK_OP_INITMS := 0, BLOCK_OP_RDFRME := 2, BLOCK_OP_WRFRME := 3,
    BLOCK_OP_POWOFF := 4, compute_frame_checksum := sumck, block_io_bus := scriptBus }

/-- A driver about to power off the device `scriptBus`: one open file, and a
cache of one slot, which is in use. -/
def closing (script : List Nat) : Driver (List Nat) :=
  { all_files := [⟨path_a, 7, 0, .OPEN, 0, [1]⟩], num_frames_used := 1,
    temp_buf := some (List.replicate 1024 0),
    cache := { block_cache_max_items := 1, init := true,
               cache := [⟨1, 0, List.replicate 1024 0⟩] }, bus := script }

/-- Reference model of a least-recently-used cache, after the words of the
specification: the resident frame numbers in the order of their most recent
put, oldest first.  A put of a resident frame makes it the most recent; a put
of a new frame into a full cache evicts the oldest. -/
def lru_put (capacity : Nat) (resident : List Nat) (frm : Nat) : List Nat :=
  if frm ∈ resident then resident.erase frm ++ [frm]
  else if resident.length < capacity then resident ++ [frm]
  else resident.tail ++ [frm]

/-- The reference model after a sequence of puts. -/
def lru_puts (capacity : Nat) : List Nat → List Nat → List Nat
  | resident, [] => resident
  | resident, frm :: rest => lru_puts capacity (lru_put capacity resident frm) rest

/-- An initialized, empty cache of `capacity` slots. -/
def empty_cache (capacity : Nat) : CacheState :=
  { block_cache_max_items := capacity, init := true, cache := [] }

/-- The frame numbers resident in the cache a run of `puts` leaves. -/
def residents (r : Except Abort CacheState) : Option (List Nat) :=
  match r with
  | .ok c => some (c.cache.map cache_frame.frame_number)
  | .error _ => none

/-- Five puts that fill a cache of three slots with the frames 1, 2, 3 and then
put the frames 1 and 2 again. -/
def five_puts : List (Nat × List Nat) :=
  [(1, List.replicate 1024 1), (2, List.replicate 1024 2), (3, List.replicate 1024 3),
   (1, List.replicate 1024 1), (2, List.replicate 1024 2)]

/-- A driver whose open file has 32769 frames, the frames 1 to 32769, with
the cursor at the start of the last one (frame index 32768). -/
def long_file : Driver (List (Nat × List Nat)) :=
  { all_files := [⟨path_a, 7, 33555456, .OPEN, 33554432, (List.range 32769).map (fun (i : Nat) => i + 1)⟩],
    num_frames_used := 32769, temp_buf := some (List.replicate 1024 0),
    cache := { block_cache_max_items := 4, init := true, cache := [] }, bus := [] }

/-- The state after `block_write(7, "A", 1); block_seek(7, 33554432)` on
`long_file`. -/
def long_written : Driver (List (Nat × List Nat)) :=
  (block_seek (state_of (block_write (ramEnv 1024) 0 long_file 7 [65] 1) long_file) 7
    33554432).2

/-- Equality of driver states over a recorded device is decidable. -/
instance decEqRecorded :
    DecidableEq (Driver (List (Nat × List Nat) × List (Nat × List Nat))) :=
  inferInstance

/-- Equality of the results of a call on a recorded device is decidable. -/
instance decEqRecordedResult :
    DecidableEq (Except Abort (Int × Driver (List (Nat × List Nat) × List (Nat × List Nat)))) :=
  inferInstance

/-- The state `fresh 1024` on the device `ramBus` with a recorder that has
noted nothing yet. -/
def fresh_recorded : Driver (List (Nat × List Nat) × List (Nat × List Nat)) :=
  freshOn 1024 ([], [])

/-- The state after `block_write(7, "A", 1)` on `fresh_recorded`. -/
def recorded_written : Driver (List (Nat × List Nat) × List (Nat × List Nat)) :=
  state_of (block_write (recordEnv (ramEnv 1024)) 0 fresh_recorded 7 [65] 1) fresh_recorded

/-- The ages (`calls_since_use`) of the slots of the cache a run leaves. -/
def ages (r : Except Abort CacheState) : Option (List Nat) :=
  match r with
  | .ok c => some (c.cache.map cache_frame.calls_since_use)
  | .error _ => none

/-- Three puts that fill a cache of three slots with the frames 1, 2, 3. -/
def three_puts : List (Nat × List Nat) :=
  [(1, List.replicate 1024 1), (2, List.replicate 1024 2), (3, List.replicate 1024 3)]

/-- The cache after six puts, two of them hits, into a freshly initialized
cache of `capacity` slots of four bytes. -/
def state_of_puts (capacity : Nat) : CacheState :=
  match puts 4 (init_block_cache ⟨capacity, false, []⟩).2
      [(1, [1, 1, 1, 1]), (2, [2, 2, 2, 2]), (1, [3, 3, 3, 3]), (3, [4, 4, 4, 4]),
       (3, [5, 5, 5, 5]), (4, [6, 6, 6, 6])] with
  | .ok c => c
  | .error _ => ⟨capacity, false, []⟩

/-- The state `block_poweron` leaves on `powered_off`: the two files of
`two_files` restored from frame 0. -/
def restarted : Driver (List (Nat × List Nat)) :=
  state_of (block_poweron (ramEnv 1024) 0 powered_off true (List.replicate 1024 0)) powered_off

/-- The state a sequence of calls leaves, or `d` when the run does not return. -/
def calls_state {β : Type} (r : Except Abort (Driver β)) (d : Driver β) : Driver β :=
  match r with
  | .ok s => s
  | .error _ => d

/-- A device that answers the requests with the registers and buffers of a
script, one after the other, then with register 0 and the buffer as it is. -/
def replyBus (b : List (Nat × List Nat)) (_ : Nat) (buf : List Nat) :
    BusResp (List (Nat × List Nat)) :=
  match b with
  | [] => ⟨0, buf, []⟩
  | (r, d) :: rest => ⟨r, d, rest⟩

/-- The collaborators with the device `replyBus`. -/
def replyEnv (F : Nat) : Env (List (Nat × List Nat)) :=
  { BLOCK_FRAME_SIZE := F, BLOCK_OP_INITMS := 0, BLOCK_OP_RDFRME := 2, BLOCK_OP_WRFRME := 3,
    BLOCK_OP_POWOFF := 4, compute_frame_checksum := sumck, block_io_bus := replyBus }

/-- Two answers to a read: a frame of zeros announced with checksum 5, then a
frame with checksum 5 announced with checksum 9. -/
def crossed : List (Nat × List Nat) :=
  [(5 <<< 8, List.replicate 1024 0), (9 <<< 8, 5 :: List.replicate 1023 0)]

/-- The driver at program start, before any `block_poweron`, on the device
`ramBus` with nothing written. -/
def at_start : Driver (List (Nat × List Nat)) :=
  { all_files := [], num_frames_used := 0, temp_buf := none, cache := CacheState.boot,
    bus := [] }

/-- The calls `block_open` of the `n` one-letter paths from `a` on, with
pairwise different random values. -/
def opens (n : Nat) : List Call :=
  (List.range n).map
    (fun (i : Nat) => Call.open [97 + i] (65536 * (i + 1)) (List.replicate 128 0))

/-- The state after `block_poweron` without saved metadata and `n` calls of
`block_open` of new paths, for frames of `F` bytes. -/
def crowded (F n : Nat) : Driver (List (Nat × List Nat)) :=
  calls_state
    (calls (ramEnv F) 0
      (state_of (block_poweron (ramEnv F) 0 at_start false (List.replicate F 0)) at_start)
      (opens n))
    at_start

/-! ## Handle lookup and `block_seek` -/

theorem find_handle_none {fd : Int} {l : List file} :
    find_handle fd l = none ↔ ∀ f ∈ l, f.handle ≠ fd := by
  induction l with
  | nil => simp [find_handle]
  | cons a l ih =>
    by_cases h : fd = a.handle
    · simp [find_handle, h]
    · have h1 : ¬ a.handle = fd := fun e => h e.symm
      cases hf : find_handle fd l with
      | none =>
        have hall := ih.mp hf
        simp only [find_handle, h, hf, if_false, List.mem_cons, forall_eq_or_imp, true_iff]
        exact ⟨h1, hall⟩
      | some i =>
        have : ¬ ∀ f ∈ l, f.handle ≠ fd := fun hall => by
          rw [ih.mpr hall] at hf; cases hf
        simp only [find_handle, h, hf, if_false, List.mem_cons, forall_eq_or_imp]
        constructor
        · intro e; cases e
        · intro hh; exact absurd hh.2 this

theorem find_handle_some {fd : Int} {l : List file} {i : Nat} (h : find_handle fd l = some i) :
    ∃ f, l[i]? = some f ∧ f.handle = fd ∧ ∀ j g, j < i → l[j]? = some g → g.handle ≠ fd := by
  induction l generalizing i with
  | nil => simp [find_handle] at h
  | cons a l ih =>
    by_cases ha : fd = a.handle
    · simp [find_handle, ha] at h
      subst h
      exact ⟨a, by simp, ha.symm, fun j g hj => absurd hj (Nat.not_lt_zero j)⟩
    · cases hf : find_handle fd l with
      | none => simp [find_handle, ha, hf] at h
      | some k =>
        simp [find_handle, ha, hf] at h
        subst h
        obtain ⟨f, h1, h2, h3⟩ := ih hf
        refine ⟨f, by simpa using h1, h2, ?_⟩
        intro j g hj hg
        cases j with
        | zero =>
          simp at hg
          subst hg
          exact fun e => ha e.symm
        | succ j =>
          simp at hg
          exact h3 j g (by omega) hg

/-- C9 (seek bounds). When the handle resolves to an open entry `f`, `block_seek`
returns 0 exactly when `loc ≤ f.length`; it then sets the cursor of that entry
to `loc` and changes nothing else, and otherwise it returns -1 and leaves the
whole state as it was.  Seeking to `length` succeeds, to `length + 1` fails. -/
theorem block_seek_bounds {β : Type} (s : Driver β) (fd : Int) (loc index : Nat) (f : file)
    (hfind : find_handle fd s.all_files = some index)
    (hget : s.all_files[index]? = some f) (hopen : f.status = Status.OPEN) :
    ((block_seek s fd loc).1 = 0 ↔ loc ≤ f.length) ∧
    (loc ≤ f.length → block_seek s fd loc =
      (0, { s with all_files := s.all_files.set index { f with seek_pos := loc } })) ∧
    (¬ loc ≤ f.length → block_seek s fd loc = (-1, s)) ∧
    (block_seek s fd f.length).1 = 0 ∧
    block_seek s fd (f.length + 1) = (-1, s) := by
  have hne : ¬ f.status = Status.CLOSED := by rw [hopen]; decide
  have key : ∀ l, block_seek s fd l =
      if l ≤ f.length then
        (0, { s with all_files := s.all_files.set index { f with seek_pos := l } })
      else (-1, s) := by
    intro l
    simp only [block_seek, hfind, hget, hne, if_false]
  refine ⟨?_, ?_, ?_, ?_, ?_⟩
  · rw [key]; by_cases h : loc ≤ f.length <;> simp [h]
  · intro h; rw [key, if_pos h]
  · intro h; rw [key, if_neg h]
  · rw [key, if_pos (Nat.le_refl _)]
  · rw [key, if_neg (by omega)]

/-- Witness of `block_seek_bounds`: the open file of `fresh 1024`, sought to offset 0. -/
theorem block_seek_bounds_witness :
    ((block_seek (fresh 1024) 7 0).1 = 0 ↔ 0 ≤ 0) ∧
    block_seek (fresh 1024) 7 (0 + 1) = (-1, fresh 1024) :=
  have h := block_seek_bounds (fresh 1024) 7 0 0 ⟨path_a, 7, 0, .OPEN, 0, [1]⟩ rfl rfl rfl
  ⟨h.1, h.2.2.2.2⟩

/-- C10 (unknown or closed handles). When no entry has the handle `fd`, or the
entry the handle resolves to is closed, `block_read`, `block_write` and
`block_seek` return -1 and hand back the state they were given: file table,
cache, frame buffer and device alike, whatever the bus is and whatever the
retry bound, so that no transfer took place. -/
theorem bad_handle_rejected {β : Type} (E : Env β) (fuel : Nat) (s : Driver β) (fd : Int)
    (buf : List Nat) (count : Int) (loc : Nat)
    (h : (∀ f ∈ s.all_files, f.handle ≠ fd) ∨
      ∃ i f, find_handle fd s.all_files = some i ∧ s.all_files[i]? = some f ∧
        f.status = Status.CLOSED) :
    block_read E fuel s fd count = .ok (-1, [], s) ∧
    block_write E fuel s fd buf count = .ok (-1, s) ∧
    block_seek s fd loc = (-1, s) := by
  rcases h with h | ⟨i, f, hfind, hget, hcl⟩
  · have hn := find_handle_none.mpr h
    simp [block_read, block_write, block_seek, hn]
  · simp [block_read, block_write, block_seek, hfind, hget, hcl]

/-- Witness of `bad_handle_rejected`: handle 8 is unknown to `fresh 1024`. -/
theorem bad_handle_rejected_witness :
    block_read (ramEnv 1024) 0 (fresh 1024) 8 5 = .ok (-1, [], fresh 1024) ∧
    block_write (ramEnv 1024) 0 (fresh 1024) 8 [1, 2, 3] 3 = .ok (-1, fresh 1024) ∧
    block_seek (fresh 1024) 8 0 = (-1, fresh 1024) :=
  bad_handle_rejected (ramEnv 1024) 0 (fresh 1024) 8 [1, 2, 3] 3 0
    (Or.inl (by decide))

/-! ## Session persistence -/
theorem load16_bytes16 (v : Nat) (h : v < 65536) : load16 (bytes16 v) = v := by
  simp [load16, bytes16]; omega

theorem load32_bytes32 (v : Nat) (h : v < 4294967296) : load32 (bytes32 v) = v := by
  simp [load32, bytes32]; omega

theorem toI16_toU16 (c : Int) (h1 : -32768 ≤ c) (h2 : c < 32768) : toI16 (toU16 c) = c := by
  unfold toI16 toU16
  split_ifs with h <;> omega

theorem peek_mid (pre mid post : List Nat) :
    peek (pre ++ (mid ++ post)) pre.length mid.length = .ok mid := by
  simp [peek]

theorem parse_frames_append (frames rest : List Nat) (h : ∀ x ∈ frames, x < 65536) :
    parse_frames frames.length ((frames.map bytes16).flatten ++ rest) = .ok (frames, rest) := by
  induction frames with
  | nil => simp [parse_frames]
  | cons a l ih =>
    have ha : a < 65536 := h a (by simp)
    have hl : ∀ x ∈ l, x < 65536 := fun x hx => h x (by simp [hx])
    have e1 : peek (bytes16 a ++ ((l.map bytes16).flatten ++ rest)) 0 2 = .ok (bytes16 a) :=
      peek_mid [] (bytes16 a) _
    have e2 : (bytes16 a ++ ((l.map bytes16).flatten ++ rest)).drop 2
        = (l.map bytes16).flatten ++ rest := by simp [bytes16]
    simp only [List.map_cons, List.flatten_cons, List.length_cons, parse_frames, List.append_assoc,
      e1, e2, ih hl, load16_bytes16 a ha]

theorem parse_file_append (f : file) (rest : List Nat) (h : f.wf) :
    parse_file (file_bytes f ++ rest) = .ok (f.restored, rest) := by
  obtain ⟨hp, _, hh1, hh2, hl, hn, hfr⟩ := h
  have htake : f.path.take 128 = f.path := by
    rw [← hp]; exact List.take_length f.path
  have e1 : peek (file_bytes f ++ rest) 0 128 = .ok f.path := by
    have := peek_mid [] f.path (bytes16 (toU16 f.handle) ++ bytes32 f.length
      ++ bytes16 f.num_frames ++ (f.frames.map bytes16).flatten ++ rest)
    simpa [file_bytes, htake, hp] using this
  have e2 : peek (file_bytes f ++ rest) 128 2 = .ok (bytes16 (toU16 f.handle)) := by
    have := peek_mid f.path (bytes16 (toU16 f.handle)) (bytes32 f.length
      ++ bytes16 f.num_frames ++ (f.frames.map bytes16).flatten ++ rest)
    simpa [file_bytes, htake, hp, bytes16] using this
  have e3 : peek (file_bytes f ++ rest) 130 4 = .ok (bytes32 f.length) := by
    have := peek_mid (f.path ++ bytes16 (toU16 f.handle)) (bytes32 f.length)
      (bytes16 f.num_frames ++ (f.frames.map bytes16).flatten ++ rest)
    simpa [file_bytes, htake, hp, bytes16, bytes32] using this
  have e4 : peek (file_bytes f ++ rest) 134 2 = .ok (bytes16 f.num_frames) := by
    have := peek_mid (f.path ++ bytes16 (toU16 f.handle) ++ bytes32 f.length)
      (bytes16 f.num_frames) ((f.frames.map bytes16).flatten ++ rest)
    simpa [file_bytes, htake, hp, bytes16, bytes32] using this
  have e5 : (file_bytes f ++ rest).drop 136 = (f.frames.map bytes16).flatten ++ rest := by
    have hlen : (f.path ++ bytes16 (toU16 f.handle) ++ bytes32 f.length
        ++ bytes16 f.num_frames).length = 136 := by
      simp [hp, bytes16, bytes32]
    have := @List.drop_left' _ _ ((f.frames.map bytes16).flatten ++ rest) 136 hlen
    simpa [file_bytes, htake] using this
  have e6 : toU16 f.handle < 65536 := by unfold toU16; omega
  simp only [parse_file, e1, e2, e3, e4, e5, load16_bytes16 _ hn, file.num_frames,
    parse_frames_append f.frames rest hfr, load16_bytes16 _ e6, toI16_toU16 _ hh1 hh2,
    load32_bytes32 _ hl, file.restored]

theorem parse_files_append (files : List file) (rest : List Nat) (h : ∀ f ∈ files, f.wf) :
    parse_files files.length ((files.map file_bytes).flatten ++ rest)
      = .ok (files.map file.restored) := by
  induction files with
  | nil => simp [parse_files]
  | cons a l ih =>
    have hl : ∀ f ∈ l, f.wf := fun f hf => h f (by simp [hf])
    simp only [List.map_cons, List.flatten_cons, List.length_cons, parse_files,
      List.append_assoc, parse_file_append a _ (h a (by simp)), ih hl]

theorem metadata_bytes_length (files : List file) (h : ∀ f ∈ files, f.wf) :
    (metadata_bytes files).length = 2 + (files.map (fun f => 136 + 2 * f.num_frames)).sum := by
  have key : ∀ l : List file, (∀ f ∈ l, f.wf) →
      ((l.map file_bytes).flatten).length = (l.map (fun f => 136 + 2 * f.num_frames)).sum := by
    intro l
    induction l with
    | nil => simp
    | cons a l ih =>
      intro hl
      have ha : a.wf := hl a (by simp)
      have hfl : ∀ fr : List Nat, ((fr.map bytes16).flatten).length = 2 * fr.length := by
        intro fr
        induction fr with
        | nil => simp
        | cons x xs ihx => simp [bytes16, ihx]; omega
      have e : (file_bytes a).length = 136 + 2 * a.num_frames := by
        simp [file_bytes, bytes16, bytes32, ha.1, hfl, file.num_frames]
        omega
      simp only [List.map_cons, List.flatten_cons, List.length_append, List.sum_cons, e,
        ih (fun f hf => hl f (by simp [hf]))]
  simp only [metadata_bytes, List.length_append, key files h, bytes16, List.length_cons,
    List.length_nil]

/-- C5 (persistence round trip). For a file table whose fields are in the range
of their C types and whose serialized form fits in one frame, the serializer of
`block_poweroff` returns a frame of `F` bytes, and the parser of `block_poweron`
reads back from that frame the same number of files and, at every position, an
entry with the same path, handle, length, frame count and frame numbers. -/
theorem persistence_round_trip (F : Nat) (files : List file) (hwf : ∀ f ∈ files, f.wf)
    (hnum : files.length < 65536)
    (hfit : 2 + (files.map (fun f => 136 + 2 * f.num_frames)).sum ≤ F) :
    ∃ frame, serialize_metadata F files = .ok frame ∧ frame.length = F ∧
      parse_metadata frame = .ok (files.map file.restored) ∧
      (files.map file.restored).length = files.length ∧
      ∀ (i : Nat) (f : file), files[i]? = some f → ∃ g : file, (files.map file.restored)[i]? = some g ∧
        g.path = f.path ∧ g.handle = f.handle ∧ g.length = f.length ∧
        g.num_frames = f.num_frames ∧ g.frames = f.frames := by
  have hlen := metadata_bytes_length files hwf
  have hle : (metadata_bytes files).length ≤ F := by omega
  refine ⟨metadata_bytes files ++ List.replicate (F - (metadata_bytes files).length) 0,
    by simp only [serialize_metadata, if_pos hle], ?_, ?_, by simp, ?_⟩
  · simp; omega
  · have e1 : peek (metadata_bytes files ++
        List.replicate (F - (metadata_bytes files).length) 0) 0 2 = .ok (bytes16 files.length) := by
      have := peek_mid [] (bytes16 files.length) ((files.map file_bytes).flatten ++
        List.replicate (F - (metadata_bytes files).length) 0)
      simpa [metadata_bytes, bytes16] using this
    have e2 : (metadata_bytes files ++
        List.replicate (F - (metadata_bytes files).length) 0).drop 2 =
        (files.map file_bytes).flatten ++
          List.replicate (F - (metadata_bytes files).length) 0 := by
      simp [metadata_bytes, bytes16]
    simp only [parse_metadata, e1, e2, load16_bytes16 _ hnum, parse_files_append files _ hwf]
  · intro i f hi
    refine ⟨f.restored, by simp [hi], rfl, rfl, rfl, rfl, rfl⟩

/-- Witness of `persistence_round_trip`: the table `two_files` and frames of 1024 bytes. -/
theorem persistence_round_trip_witness :
    ∃ frame, serialize_metadata 1024 two_files = .ok frame ∧ frame.length = 1024 ∧
      parse_metadata frame = .ok (two_files.map file.restored) ∧
      (two_files.map file.restored).length = two_files.length ∧
      ∀ (i : Nat) (f : file), two_files[i]? = some f →
        ∃ g : file, (two_files.map file.restored)[i]? = some g ∧
          g.path = f.path ∧ g.handle = f.handle ∧ g.length = f.length ∧
          g.num_frames = f.num_frames ∧ g.frames = f.frames :=
  persistence_round_trip 1024 two_files (by decide!) (by decide) (by decide!)

/-! ## Worked runs of `block_write` and `block_read` -/

/-- C1 (write/read round trip), evaluated on the device `ramBus`, which never
fails.  On the fresh file the round trip of one byte returns the byte.  Once
frame 1 is in the cache (`resident`: file open, cursor 0), writing `B` and
reading it back returns 1 and the byte `A` written before: the write copied
from the cached frame instead of the caller's buffer.  The round trip of 2500
bytes on the fresh file indexes the frame array past its end. -/
theorem round_trip_runs :
    round_trip (ramEnv 1024) 0 (fresh 1024) 7 [65] = .ok (1, [65]) ∧
    resident.all_files.map (fun f => (f.status, f.seek_pos, f.length)) = [(.OPEN, 0, 1)] ∧
    round_trip (ramEnv 1024) 0 resident 7 [66] = .ok (1, [65]) ∧
    round_trip (ramEnv 1024) 0 (fresh 1024) 7 (List.replicate 2500 170) = .error .fault := by
  decide!

/-- C2 (bytes returned by `block_read`), evaluated on a file of 2500 bytes of
`0xAA` in three frames of 1024 bytes with the cursor at 1000.  Reading 24 bytes
returns them; reading 600 bytes copies 600 bytes from offset 1000 of the
1024-byte frame buffer, which leaves the buffer. -/
theorem read_across_frame_end :
    aa_file.all_files.map (fun f => (f.status, f.seek_pos, f.length, f.frames))
      = [(.OPEN, 1000, 2500, [1, 2, 3])] ∧
    (block_read (ramEnv 1024) 0 aa_file 7 24).map (fun r => (r.1, r.2.1))
      = .ok (24, List.replicate 24 170) ∧
    block_read (ramEnv 1024) 0 aa_file 7 600 = .error .fault := by
  decide!

/-- C3 (partial-frame writes), evaluated with frame 1 in the cache holding
`A` followed by zeros.  Writing `B` at offset 0 sends `A` followed by zeros to
the bus and to the cache; writing `B` at offset 1 sends `A`, `A` and zeros.
With the frame not in the cache (`fresh`) the byte written is spliced in. -/
theorem partial_write_on_cache_hit :
    get_block_cache resident.cache 1 = .ok (some (65 :: List.replicate 1023 0)) ∧
    (state_of (block_write (ramEnv 1024) 0 resident 7 [66] 1) resident).bus.head?
      = some (1, 65 :: List.replicate 1023 0) ∧
    get_block_cache (state_of (block_write (ramEnv 1024) 0 resident 7 [66] 1) resident).cache 1
      = .ok (some (65 :: List.replicate 1023 0)) ∧
    (state_of (block_write (ramEnv 1024) 0 resident_mid 7 [66] 1) resident_mid).bus.head?
      = some (1, 65 :: 65 :: List.replicate 1022 0) ∧
    (state_of (block_write (ramEnv 1024) 0 (fresh 1024) 7 [66] 1) (fresh 1024)).bus.head?
      = some (1, 66 :: List.replicate 1023 0) := by
  decide!

/-- C4 (frame-list growth), evaluated for a write of 2500 bytes to the fresh
file with frames of 1024 bytes: the growth loop stops with two frames, which
hold 2048 bytes, and the write loop then indexes the frame array at 2. -/
theorem growth_falls_short :
    grow_frames 1024 65536 2500 [1] 1 = .ok ([1, 2], 2) ∧
    ¬ (2500 ≤ ([1, 2] : List Nat).length * 1024) ∧
    block_write (ramEnv 1024) 0 (fresh 1024) 7 (List.replicate 2500 170) 2500
      = .error .fault := by
  decide!

/-- C6 (status after `block_poweron`), evaluated on the metadata frame of
`two_files`, whose first file was closed when persisted: `block_poweron`
returns 0 with both files open, and `block_seek` on the handle of the first
file succeeds without any `block_open`. -/
theorem poweron_restores_open :
    two_files.map file.status = [.CLOSED, .OPEN] ∧
    serialize_metadata 1024 two_files = .ok two_files_frame ∧
    value_of (block_poweron (ramEnv 1024) 0 powered_off true (List.replicate 1024 0)) = some 0 ∧
    (state_of (block_poweron (ramEnv 1024) 0 powered_off true (List.replicate 1024 0))
      powered_off).all_files.map file.status = [.OPEN, .OPEN] ∧
    (block_seek (state_of (block_poweron (ramEnv 1024) 0 powered_off true
      (List.replicate 1024 0)) powered_off) 7 0).1 = 0 := by
  decide!

/-! ## Runs on a bus that reports no hard failure -/

theorem read_retry_done {β : Type} (E : Env β)
    (hno : ∀ b reg buf, rt_of (E.block_io_bus b reg buf).reg ≠ -1)
    (cur ck : Nat) : ∀ (fuel : Nat) (buf : List Nat) (bus : β) (x : Xfer β),
      read_retry E cur ck fuel buf bus = .ok x → ∃ b bus1, x = .done b bus1 := by
  intro fuel
  induction fuel with
  | zero =>
    intro buf bus x h
    unfold read_retry at h
    split_ifs at h with hc
    · exact ⟨buf, bus, (Except.ok.inj h).symm⟩
  | succ n ih =>
    intro buf bus x h
    unfold read_retry at h
    split_ifs at h with hc
    · exact ⟨buf, bus, (Except.ok.inj h).symm⟩
    · simp only [hno, if_false] at h
      exact ih _ _ _ h

theorem read_frame_done {β : Type} (E : Env β)
    (hno : ∀ b reg buf, rt_of (E.block_io_bus b reg buf).reg ≠ -1)
    (fuel cur : Nat) (tb : List Nat) (bus : β) (x : Xfer β)
    (h : read_frame E fuel cur tb bus = .ok x) : ∃ b bus1, x = .done b bus1 := by
  unfold read_frame at h
  simp only [hno, if_false] at h
  exact read_retry_done E hno _ _ _ _ _ _ h

theorem write_retry_done {β : Type} (E : Env β) (reg : Nat) :
    ∀ (fuel : Nat) (rt : Int) (buf : List Nat) (bus : β) (x : Xfer β),
      write_retry E reg fuel rt buf bus = .ok x → ∃ b bus1, x = .done b bus1 := by
  intro fuel
  induction fuel with
  | zero =>
    intro rt buf bus x h
    unfold write_retry at h
    split_ifs at h with hc
    · exact ⟨buf, bus, (Except.ok.inj h).symm⟩
  | succ n ih =>
    intro rt buf bus x h
    unfold write_retry at h
    split_ifs at h with hc
    · exact ⟨buf, bus, (Except.ok.inj h).symm⟩
    · exact ih _ _ _ _ h

theorem write_frame_done {β : Type} (E : Env β)
    (hno : ∀ b reg buf, rt_of (E.block_io_bus b reg buf).reg ≠ -1)
    (fuel cur : Nat) (tb : List Nat) (bus : β) (x : Xfer β)
    (h : write_frame E fuel cur tb bus = .ok x) : ∃ b bus1, x = .done b bus1 := by
  unfold write_frame at h
  simp only [hno, if_false] at h
  exact write_retry_done E _ _ _ _ _ _ h

theorem fetch_not_failed {β : Type} (E : Env β)
    (hno : ∀ b reg buf, rt_of (E.block_io_bus b reg buf).reg ≠ -1)
    (fuel : Nat) (cache : CacheState) (cur : Nat) (tb : Option (List Nat)) (bus : β)
    (ft : Fetch β) (h : fetch E fuel cache cur tb bus = .ok ft) : ft.failed = false := by
  unfold fetch at h
  split at h
  · cases h
  · cases h; rfl
  · split at h
    · cases h
    · rename_i tb1
      split at h
      · cases h
      · rename_i b bus1 hr
        obtain ⟨b2, bus2, e⟩ := read_frame_done E hno _ _ _ _ _ hr
        cases e
      · cases h; rfl

theorem splice_not_failed {β : Type} (E : Env β)
    (hno : ∀ b reg buf, rt_of (E.block_io_bus b reg buf).reg ≠ -1)
    (fuel : Nat) (cache : CacheState) (buf : List Nat) (cur seek left written : Nat)
    (tb : Option (List Nat)) (bus : β) (sp : Splice β)
    (h : splice E fuel cache buf cur seek left written tb bus = .ok sp) : sp.failed = false := by
  have key : ∀ ft, fetch E fuel cache cur tb bus = .ok ft → ft.failed = false :=
    fun ft => fetch_not_failed E hno _ _ _ _ _ ft
  unfold splice at h
  simp only at h
  repeat' split at h
  all_goals first
    | (cases h; rfl)
    | (cases h; done)
    | (rename_i ft hft hfail; have := key ft hft; rw [this] at hfail; cases hfail)

theorem write_loop_not_failed {β : Type} (E : Env β)
    (hno : ∀ b reg buf, rt_of (E.block_io_bus b reg buf).reg ≠ -1)
    (fuel : Nat) (buf : List Nat) :
    ∀ (rest : List Nat) (seek left written : Nat) (tb : Option (List Nat)) (cache : CacheState)
      (bus : β) (l : Loop β),
      write_loop E fuel buf rest seek left written tb cache bus = .ok l → l.failed = false := by
  intro rest
  induction rest with
  | nil =>
    intro seek left written tb cache bus l h
    unfold write_loop at h
    split_ifs at h
    cases h; rfl
  | cons cur rest ih =>
    intro seek left written tb cache bus l h
    have key : ∀ sp, splice E fuel cache buf cur seek left written tb bus = .ok sp →
        sp.failed = false := fun sp => splice_not_failed E hno _ _ _ _ _ _ _ _ _ sp
    have keyw : ∀ t b x, write_frame E fuel cur t b = .ok x → ∃ b1 bus1, x = .done b1 bus1 :=
      fun t b x => write_frame_done E hno _ _ _ _ x
    unfold write_loop at h
    repeat' split at h
    all_goals first
      | (cases h; rfl)
      | (cases h; done)
      | (exact ih _ _ _ _ _ _ _ h)
      | (rename_i sp hsp hfail; have := key sp hsp; rw [this] at hfail; cases hfail)
      | (rename_i hw; obtain ⟨b1, bus1, e⟩ := keyw _ _ _ hw; cases e)

theorem toU32_of_nonneg (c : Int) (h0 : 0 ≤ c) (h1 : c < 4294967296) : toU32 c = c.toNat := by
  unfold toU32
  omega

theorem grow_file_fields (F : Nat) (f f1 : file) (count : Int) (used used1 : Nat)
    (hc0 : 0 ≤ count) (hsum : f.seek_pos + count < 4294967296)
    (h : grow_file F f count used = .ok (f1, used1)) :
    f1.seek_pos = f.seek_pos ∧ f1.length = max f.length (f.seek_pos + count.toNat) ∧
    f1.status = f.status ∧ f1.handle = f.handle ∧ f1.path = f.path := by
  have hu : toU32 count = count.toNat := toU32_of_nonneg count hc0 (by omega)
  have hmod : (f.seek_pos + count.toNat) % 4294967296 = f.seek_pos + count.toNat := by
    apply Nat.mod_eq_of_lt; omega
  unfold grow_file at h
  simp only [hu, hmod] at h
  split_ifs at h with hgt
  · split at h
    · cases h
    · cases h
      refine ⟨rfl, ?_, rfl, rfl, rfl⟩
      simp only
      omega
  · cases h
    refine ⟨rfl, ?_, rfl, rfl, rfl⟩
    omega

theorem block_write_props {β : Type} (E : Env β) (fuel : Nat) (s : Driver β) (fd : Int)
    (buf : List Nat) (count : Int) (index : Nat) (f : file) (r : Int) (s1 : Driver β)
    (hfind : find_handle fd s.all_files = some index)
    (hget : s.all_files[index]? = some f) (hopen : f.status = Status.OPEN)
    (hc0 : 0 ≤ count) (hsum : f.seek_pos + count < 4294967296)
    (hno : ∀ b reg buf, rt_of (E.block_io_bus b reg buf).reg ≠ -1)
    (hrun : block_write E fuel s fd buf count = .ok (r, s1)) :
    r = count ∧ s1.all_files.length = s.all_files.length ∧
    (∀ j, j ≠ index → s1.all_files[j]? = s.all_files[j]?) ∧
    ∃ f1, s1.all_files[index]? = some f1 ∧
      f1.seek_pos = f.seek_pos + count.toNat ∧
      f1.length = max f.length (f.seek_pos + count.toNat) ∧ f.length ≤ f1.length ∧
      f1.status = f.status ∧ f1.handle = f.handle ∧ f1.path = f.path := by
  have hne : ¬ f.status = Status.CLOSED := by rw [hopen]; decide
  have hu : toU32 count = count.toNat := toU32_of_nonneg count hc0 (by omega)
  have hidx : index < s.all_files.length := by
    by_contra hcon
    rw [List.getElem?_eq_none (by omega)] at hget
    cases hget
  have hmod : (f.seek_pos + count.toNat) % 4294967296 = f.seek_pos + count.toNat := by
    apply Nat.mod_eq_of_lt; omega
  simp only [block_write, hfind, hget, hne, if_false] at hrun
  cases hg : grow_file E.BLOCK_FRAME_SIZE f count s.num_frames_used with
  | error a => rw [hg] at hrun; cases hrun
  | ok p =>
    obtain ⟨f1, used⟩ := p
    obtain ⟨g1, g2, g3, g4, g5⟩ := grow_file_fields _ _ _ _ _ _ hc0 hsum hg
    rw [hg] at hrun
    simp only at hrun
    split_ifs at hrun with hF
    cases hl : write_loop E fuel buf (List.drop (f.seek_pos / E.BLOCK_FRAME_SIZE % 65536) f1.frames)
        (f.seek_pos % E.BLOCK_FRAME_SIZE) (toU32 count) 0 s.temp_buf s.cache s.bus with
    | error a => rw [hl] at hrun; cases hrun
    | ok l =>
      have hfail := write_loop_not_failed E hno fuel buf _ _ _ _ _ _ _ l hl
      rw [hl] at hrun
      simp only [hfail, if_false, Bool.false_eq_true] at hrun
      cases hrun
      refine ⟨rfl, by simp, ?_, ?_⟩
      · intro j hj
        simp [List.getElem?_set, Ne.symm hj]
      · refine ⟨{ f1 with seek_pos := (f1.seek_pos + toU32 count) % 4294967296 },
          by simp [hidx], ?_⟩
        simp only [hu, g1, g2, g3, g4, g5, hmod]
        refine ⟨trivial, trivial, ?_, trivial, trivial, trivial⟩
        omega

theorem write_retry_rejected (F reg : Nat) (buf : List Nat) :
    ∀ fuel, write_retry (rejectEnv F) reg fuel 2 buf () = .error .fuel := by
  intro fuel
  induction fuel with
  | zero => simp [write_retry]
  | succ n ih =>
    have h : rt_of 2 = 2 := by decide
    simp only [write_retry, ne_eq, not_true_eq_false, if_false, rejectEnv, rejectBus, h]
    simpa [rejectEnv] using ih

theorem write_frame_rejected (F fuel cur : Nat) (buf : List Nat) (bus : Unit) :
    write_frame (rejectEnv F) fuel cur buf bus = .error .fuel := by
  have h : rt_of 2 = 2 := by decide
  have h1 : ¬ ((2 : Int) = -1) := by decide
  have := write_retry_rejected F
    (generate_register 3 cur (fr_checksum_value (rejectEnv F) buf) 0) buf fuel
  simp only [write_frame, rejectEnv, rejectBus, h, h1, if_false] at this ⊢
  exact this

theorem rejectEnv_no_hard (F : Nat) :
    ∀ b reg buf, rt_of ((rejectEnv F).block_io_bus b reg buf).reg ≠ -1 := by
  intro b reg buf
  simp only [rejectEnv, rejectBus]
  decide

theorem write_loop_stuck {β : Type} (E : Env β) (fuel : Nat) (buf : List Nat)
    (hno : ∀ b reg buf, rt_of (E.block_io_bus b reg buf).reg ≠ -1)
    (hspin : ∀ cur tb bus, write_frame E fuel cur tb bus = .error .fuel)
    (rest : List Nat) (seek left written : Nat) (tb : Option (List Nat)) (cache : CacheState)
    (bus : β) (l : Loop β) (hleft : left ≠ 0) :
    write_loop E fuel buf rest seek left written tb cache bus ≠ .ok l := by
  intro h
  cases rest with
  | nil =>
    unfold write_loop at h
    simp only [hleft, if_false] at h
    cases h
  | cons cur rest =>
    have key : ∀ sp, splice E fuel cache buf cur seek left written tb bus = .ok sp →
        sp.failed = false := fun sp => splice_not_failed E hno _ _ _ _ _ _ _ _ _ sp
    unfold write_loop at h
    simp only [hleft, if_false, hspin] at h
    repeat' split at h
    all_goals first
      | (cases h; done)
      | (rename_i sp hsp hfail; have := key sp hsp; rw [this] at hfail; cases hfail)

theorem block_write_stuck {β : Type} (E : Env β) (fuel : Nat) (s : Driver β) (fd : Int)
    (buf : List Nat) (count : Int) (index : Nat) (f : file)
    (hfind : find_handle fd s.all_files = some index)
    (hget : s.all_files[index]? = some f) (hopen : f.status = Status.OPEN)
    (hcount : toU32 count ≠ 0)
    (hno : ∀ b reg buf, rt_of (E.block_io_bus b reg buf).reg ≠ -1)
    (hspin : ∀ cur tb bus, write_frame E fuel cur tb bus = .error .fuel)
    (r : Int) (s1 : Driver β) :
    block_write E fuel s fd buf count ≠ .ok (r, s1) := by
  intro h
  have key := fun rest seek written tb cache bus l =>
    write_loop_stuck E fuel buf hno hspin rest seek (toU32 count) written tb cache bus l hcount
  have hne : ¬ f.status = Status.CLOSED := by rw [hopen]; decide
  simp only [block_write, hfind, hget, hne, if_false] at h
  repeat' split at h
  all_goals first
    | (cases h; done)
    | (rename_i l hl _; exact key _ _ _ _ _ _ l hl)

/-- C7, as stated, fails on the device `rejectBus`, which answers every request
with return code 2 and never with -1: `block_write` of one byte to the open
file of `freshOn 1024 ()` does not return, whatever the retry bound. -/
theorem block_write_never_returns :
    (∀ b reg buf, rt_of ((rejectEnv 1024).block_io_bus b reg buf).reg ≠ -1) ∧
    ¬ ∃ fuel r s1,
      block_write (rejectEnv 1024) fuel (freshOn 1024 ()) 7 [65] 1 = .ok (r, s1) := by
  refine ⟨rejectEnv_no_hard 1024, ?_⟩
  rintro ⟨fuel, r, s1, h⟩
  exact block_write_stuck (rejectEnv 1024) fuel (freshOn 1024 ()) 7 [65] 1 0
    ⟨path_a, 7, 0, .OPEN, 0, [1]⟩ rfl rfl rfl (by decide) (rejectEnv_no_hard 1024)
    (fun cur tb bus => write_frame_rejected 1024 fuel cur tb bus) r s1 h

theorem rt_of_low_byte (r : Nat) : rt_of r = toI8 (r % 256) := by
  unfold rt_of
  congr 1
  simp only [Nat.shiftLeft_eq, Nat.shiftRight_eq_div_pow]
  omega

theorem checksum_of_field (r : Nat) : checksum_of r = (r / 256) % 4294967296 := by
  unfold checksum_of
  simp only [Nat.shiftLeft_eq, Nat.shiftRight_eq_div_pow]
  omega

theorem ramEnv_no_hard (F : Nat) :
    ∀ b reg buf, rt_of ((ramEnv F).block_io_bus b reg buf).reg ≠ -1 := by
  intro b reg buf
  have h0 : rt_of 0 ≠ -1 := by decide
  have h1 : ∀ c : Nat, rt_of (c <<< 8) ≠ -1 := by
    intro c
    rw [rt_of_low_byte, Nat.shiftLeft_eq]
    have : c * 2 ^ 8 % 256 = 0 := by omega
    rw [this]
    decide
  simp only [ramEnv, ramBus]
  split_ifs
  · exact h0
  · exact h1 _
  · exact h0

theorem toI32_of_lt (n : Nat) (h : n < 2147483648) : toI32 n = n := by
  unfold toI32
  have : n % 4294967296 = n := Nat.mod_eq_of_lt (by omega)
  rw [this, if_pos h]

theorem generate_register_eq (kr1 fm1 cs1 rt1 : Nat) :
    generate_register kr1 fm1 cs1 rt1
      = 2 ^ 56 * (kr1 % 256) + (2 ^ 40 * (fm1 % 65536)
          + (2 ^ 8 * (cs1 % 4294967296) + rt1 % 256)) := by
  have hk : ((kr1 % 256) <<< 56) % 18446744073709551616 = 2 ^ 56 * (kr1 % 256) := by
    rw [Nat.shiftLeft_eq]; omega
  have hf : ((fm1 % 65536) <<< 40) % 18446744073709551616 = 2 ^ 40 * (fm1 % 65536) := by
    rw [Nat.shiftLeft_eq]; omega
  have hc : ((((cs1 % 4294967296) <<< 32) % 18446744073709551616) >>> 24)
      &&& 0x000000ffffffffff = 2 ^ 8 * (cs1 % 4294967296) := by
    have e : (0x000000ffffffffff : Nat) = 2 ^ 40 - 1 := by norm_num
    rw [e, Nat.and_pow_two_sub_one_eq_mod, Nat.shiftLeft_eq, Nat.shiftRight_eq_div_pow]
    omega
  unfold generate_register
  simp only [hk, hf, hc]
  have h1 : 2 ^ 8 * (cs1 % 4294967296) + rt1 % 256
      = 2 ^ 8 * (cs1 % 4294967296) ||| rt1 % 256 :=
    Nat.mul_add_lt_is_or (by omega) _
  have h2 : 2 ^ 40 * (fm1 % 65536) + (2 ^ 8 * (cs1 % 4294967296) + rt1 % 256)
      = 2 ^ 40 * (fm1 % 65536) ||| (2 ^ 8 * (cs1 % 4294967296) + rt1 % 256) :=
    Nat.mul_add_lt_is_or (by omega) _
  have h3 : 2 ^ 56 * (kr1 % 256) + (2 ^ 40 * (fm1 % 65536)
      + (2 ^ 8 * (cs1 % 4294967296) + rt1 % 256))
      = 2 ^ 56 * (kr1 % 256) ||| (2 ^ 40 * (fm1 % 65536)
      + (2 ^ 8 * (cs1 % 4294967296) + rt1 % 256)) :=
    Nat.mul_add_lt_is_or (by omega) _
  rw [h3, h2, h1, Nat.lor_assoc, Nat.lor_assoc]

theorem generate_register_op (kr1 fm1 cs1 rt1 : Nat) :
    generate_register kr1 fm1 cs1 rt1 >>> 56 = kr1 % 256 := by
  rw [generate_register_eq, Nat.shiftRight_eq_div_pow]
  omega

theorem generate_register_frame (kr1 fm1 cs1 rt1 : Nat) :
    (generate_register kr1 fm1 cs1 rt1 >>> 40) % 65536 = fm1 % 65536 := by
  rw [generate_register_eq, Nat.shiftRight_eq_div_pow]
  omega

/-! ## Runs that return -/

theorem read_retry_shape {β : Type} (E : Env β)
    (hno : ∀ b reg buf, rt_of (E.block_io_bus b reg buf).reg ≠ -1)
    (hbus : ∀ b reg buf, buf.length = E.BLOCK_FRAME_SIZE →
      (E.block_io_bus b reg buf).buf.length = E.BLOCK_FRAME_SIZE)
    (cur ck : Nat) : ∀ (fuel : Nat) (buf : List Nat) (bus : β),
      buf.length = E.BLOCK_FRAME_SIZE →
      read_retry E cur ck fuel buf bus = .error .fuel ∨
      ∃ b bus1, read_retry E cur ck fuel buf bus = .ok (.done b bus1) ∧
        b.length = E.BLOCK_FRAME_SIZE := by
  intro fuel
  induction fuel with
  | zero =>
    intro buf bus hlen
    unfold read_retry
    split_ifs with hc
    · exact Or.inr ⟨buf, bus, rfl, hlen⟩
    · exact Or.inl rfl
  | succ n ih =>
    intro buf bus hlen
    unfold read_retry
    split_ifs with hc
    · exact Or.inr ⟨buf, bus, rfl, hlen⟩
    · simp only [hno, if_false]
      exact ih _ _ (hbus _ _ _ hlen)

theorem read_frame_total {β : Type} (E : Env β) (fuel : Nat)
    (hno : ∀ b reg buf, rt_of (E.block_io_bus b reg buf).reg ≠ -1)
    (hbus : ∀ b reg buf, buf.length = E.BLOCK_FRAME_SIZE →
      (E.block_io_bus b reg buf).buf.length = E.BLOCK_FRAME_SIZE)
    (hterm : ∀ cur tb bus, read_frame E fuel cur tb bus ≠ .error .fuel)
    (cur : Nat) (tb : List Nat) (bus : β) (hlen : tb.length = E.BLOCK_FRAME_SIZE) :
    ∃ b bus1, read_frame E fuel cur tb bus = .ok (.done b bus1) ∧
      b.length = E.BLOCK_FRAME_SIZE := by
  have h := hterm cur tb bus
  unfold read_frame at h ⊢
  simp only [hno, if_false] at h ⊢
  rcases read_retry_shape E hno hbus cur _ fuel _ _ (hbus bus _ tb hlen) with h1 | h1
  · exact absurd h1 h
  · exact h1

theorem get_scan_mem (frm : Nat) (l : List cache_frame) (cb : List Nat)
    (h : get_scan frm l = some cb) : ∃ e ∈ l, cb = e.frame := by
  induction l with
  | nil => simp [get_scan] at h
  | cons a l ih =>
    unfold get_scan at h
    split_ifs at h with hc
    · cases h
      exact ⟨a, by simp, rfl⟩
    · obtain ⟨e, he, hcb⟩ := ih h
      exact ⟨e, by simp [he], hcb⟩

theorem fetch_total {β : Type} (E : Env β) (fuel : Nat)
    (hno : ∀ b reg buf, rt_of (E.block_io_bus b reg buf).reg ≠ -1)
    (hbus : ∀ b reg buf, buf.length = E.BLOCK_FRAME_SIZE →
      (E.block_io_bus b reg buf).buf.length = E.BLOCK_FRAME_SIZE)
    (hterm : ∀ cur tb bus, read_frame E fuel cur tb bus ≠ .error .fuel)
    (cache : CacheState) (hinit : cache.cache = [] ∨ cache.init = true)
    (hfr : ∀ e ∈ cache.cache, E.BLOCK_FRAME_SIZE ≤ e.frame.length)
    (cur : Nat) (tb : List Nat) (bus : β) (hlen : tb.length = E.BLOCK_FRAME_SIZE) :
    ∃ ft, fetch E fuel cache cur (some tb) bus = .ok ft ∧ ft.failed = false ∧
      (∃ tb1, ft.temp_buf = some tb1 ∧ tb1.length = E.BLOCK_FRAME_SIZE) ∧
      ∀ cb, ft.cache_buf = some cb → E.BLOCK_FRAME_SIZE ≤ cb.length := by
  have hget : get_block_cache cache cur = .ok (get_scan cur cache.cache) := by
    unfold get_block_cache
    rcases hinit with h | h
    · simp [h, get_scan]
    · simp only [h, if_true]
      split_ifs with hc
      · simp [hc, get_scan]
      · rfl
  unfold fetch
  rw [hget]
  cases hs : get_scan cur cache.cache with
  | some cb =>
    obtain ⟨e, he, hcb⟩ := get_scan_mem _ _ _ hs
    refine ⟨⟨false, some cb, some tb, bus⟩, rfl, rfl, ⟨tb, rfl, hlen⟩, ?_⟩
    intro cb1 h1
    cases h1
    rw [hcb]
    exact hfr e he
  | none =>
    obtain ⟨b, bus1, hr, hb⟩ := read_frame_total E fuel hno hbus hterm cur tb bus hlen
    simp only [hr]
    refine ⟨⟨false, none, some b, bus1⟩, rfl, rfl, ⟨b, rfl, hb⟩, ?_⟩
    intro cb1 h1
    cases h1

theorem memcpy_ok (dst : List Nat) (d : Nat) (src : List Nat) (s n : Nat)
    (hs : s + n ≤ src.length) (hd : d + n ≤ dst.length) :
    ∃ r, memcpy dst d src s n = .ok r ∧ r.length = dst.length := by
  unfold memcpy peek
  rw [if_pos hs]
  have hb : ((src.drop s).take n).length = n := by
    simp only [List.length_take, List.length_drop]; omega
  simp only [poke, hb, if_pos hd]
  refine ⟨_, rfl, ?_⟩
  simp only [List.length_append, List.length_take, List.length_drop, hb]
  omega

theorem write_retry_shape {β : Type} (E : Env β)
    (hbus : ∀ b reg buf, buf.length = E.BLOCK_FRAME_SIZE →
      (E.block_io_bus b reg buf).buf.length = E.BLOCK_FRAME_SIZE)
    (reg : Nat) : ∀ (fuel : Nat) (rt : Int) (buf : List Nat) (bus : β),
      buf.length = E.BLOCK_FRAME_SIZE →
      write_retry E reg fuel rt buf bus = .error .fuel ∨
      ∃ b bus1, write_retry E reg fuel rt buf bus = .ok (.done b bus1) ∧
        b.length = E.BLOCK_FRAME_SIZE := by
  intro fuel
  induction fuel with
  | zero =>
    intro rt buf bus hlen
    unfold write_retry
    split_ifs with hc
    · exact Or.inr ⟨buf, bus, rfl, hlen⟩
    · exact Or.inl rfl
  | succ n ih =>
    intro rt buf bus hlen
    unfold write_retry
    split_ifs with hc
    · exact Or.inr ⟨buf, bus, rfl, hlen⟩
    · exact ih _ _ _ (hbus _ _ _ hlen)

theorem write_frame_total {β : Type} (E : Env β) (fuel : Nat)
    (hno : ∀ b reg buf, rt_of (E.block_io_bus b reg buf).reg ≠ -1)
    (hbus : ∀ b reg buf, buf.length = E.BLOCK_FRAME_SIZE →
      (E.block_io_bus b reg buf).buf.length = E.BLOCK_FRAME_SIZE)
    (hterm : ∀ cur tb bus, write_frame E fuel cur tb bus ≠ .error .fuel)
    (cur : Nat) (tb : List Nat) (bus : β) (hlen : tb.length = E.BLOCK_FRAME_SIZE) :
    ∃ b bus1, write_frame E fuel cur tb bus = .ok (.done b bus1) ∧
      b.length = E.BLOCK_FRAME_SIZE := by
  have h := hterm cur tb bus
  unfold write_frame at h ⊢
  simp only [hno, if_false] at h ⊢
  rcases write_retry_shape E hbus _ fuel _ _ _ (hbus bus _ tb hlen) with h1 | h1
  · exact absurd h1 h
  · exact h1

theorem put_scan_total (F frm : Nat) (buf : List Nat) (hbuf : F ≤ buf.length) :
    ∀ (l : List cache_frame) (i lru lri : Nat), (∀ e ∈ l, F ≤ e.frame.length) →
      ∃ r, put_scan F frm buf l i lru lri = .ok r ∧
        ((∃ c1, r = .hit c1 ∧ c1.length = l.length ∧ ∀ e ∈ c1, F ≤ e.frame.length) ∨
         (∃ c1 a b, r = .miss c1 a b ∧ c1.length = l.length ∧
            (∀ e ∈ c1, F ≤ e.frame.length) ∧ (b = lri ∨ b < i + l.length))) := by
  intro l
  induction l with
  | nil =>
    intro i lru lri _
    exact ⟨_, rfl, Or.inr ⟨[], lru, lri, rfl, rfl, by simp, Or.inl rfl⟩⟩
  | cons e rest ih =>
    intro i lru lri hfr
    have he : F ≤ e.frame.length := hfr e (by simp)
    have hrest : ∀ x ∈ rest, F ≤ x.frame.length := fun x hx => hfr x (by simp [hx])
    unfold put_scan
    by_cases hc : e.frame_number = frm
    · obtain ⟨fr, hm, hl⟩ := memcpy_ok e.frame 0 buf 0 F (by omega) (by omega)
      simp only [hc, if_true, hm]
      refine ⟨_, rfl, Or.inl ⟨_, rfl, by simp, ?_⟩⟩
      intro x hx
      simp only [List.mem_cons] at hx
      rcases hx with hx | hx
      · rw [hx]; simp only; omega
      · exact hrest x hx
    · simp only [hc, if_false]
      obtain ⟨r, hr, hshape⟩ := ih (i + 1)
        (if (e.calls_since_use + 1) % 65536 > lru then (e.calls_since_use + 1) % 65536 else lru)
        (if (e.calls_since_use + 1) % 65536 > lru then i % 65536 else lri) hrest
      rw [hr]
      rcases hshape with ⟨c1, h1, h2, h3⟩ | ⟨c1, a, b, h1, h2, h3, h4⟩
      · subst h1
        refine ⟨_, rfl, Or.inl ⟨_, rfl, by simp [h2], ?_⟩⟩
        intro x hx
        simp only [List.mem_cons] at hx
        rcases hx with hx | hx
        · rw [hx]; exact he
        · exact h3 x hx
      · subst h1
        refine ⟨_, rfl, Or.inr ⟨_, a, b, rfl, by simp [h2], ?_, ?_⟩⟩
        · intro x hx
          simp only [List.mem_cons] at hx
          rcases hx with hx | hx
          · rw [hx]; exact he
          · exact h3 x hx
        · simp only [List.length_cons]
          rcases h4 with h4 | h4
          · split_ifs at h4 with hgt
            · right
              have : i % 65536 ≤ i := Nat.mod_le _ _
              omega
            · left; exact h4
          · right; omega

theorem put_block_cache_total (F : Nat) (c : CacheState) (frm : Nat) (buf : List Nat)
    (hbuf : F ≤ buf.length) (hinit : c.init = true) (hcap : 1 ≤ c.block_cache_max_items)
    (hfr : ∀ e ∈ c.cache, F ≤ e.frame.length) :
    ∃ c1, put_block_cache F c frm buf = .ok (0, c1) ∧ c1.init = true ∧
      c1.block_cache_max_items = c.block_cache_max_items ∧
      ∀ e ∈ c1.cache, F ≤ e.frame.length := by
  unfold put_block_cache
  simp only [hinit, Bool.true_eq_false, if_false]
  obtain ⟨r, hr, hshape⟩ := put_scan_total F frm buf hbuf c.cache 0 0 0 hfr
  rw [hr]
  rcases hshape with ⟨c1, h1, h2, h3⟩ | ⟨c1, a, b, h1, h2, h3, h4⟩
  · subst h1
    exact ⟨_, rfl, rfl, rfl, h3⟩
  · subst h1
    simp only
    by_cases hroom : c1.length < c.block_cache_max_items
    · have hp : peek buf 0 F = .ok ((buf.drop 0).take F) := by
        unfold peek
        rw [if_pos (by omega)]
      simp only [hroom, if_true, hp]
      refine ⟨_, rfl, rfl, rfl, ?_⟩
      intro x hx
      simp only [List.mem_append, List.mem_singleton] at hx
      rcases hx with hx | hx
      · exact h3 x hx
      · rw [hx]
        simp only [List.drop_zero, List.length_take]
        omega
    · have hb : b < c1.length := by omega
      obtain ⟨fr, hm, hl⟩ := memcpy_ok (c1.get ⟨b, hb⟩).frame 0 buf 0 F (by omega)
        (by have := h3 (c1.get ⟨b, hb⟩) (List.get_mem _ _ _); omega)
      simp only [hroom, if_false, hb, dite_true, hm]
      refine ⟨_, rfl, rfl, rfl, ?_⟩
      intro x hx
      rcases List.mem_or_eq_of_mem_set hx with hx | hx
      · exact h3 x hx
      · rw [hx]
        have := h3 (c1.get ⟨b, hb⟩) (List.get_mem _ _ _)
        simp only
        omega

theorem splice_total {β : Type} (E : Env β) (fuel : Nat)
    (hno : ∀ b reg buf, rt_of (E.block_io_bus b reg buf).reg ≠ -1)
    (hbus : ∀ b reg buf, buf.length = E.BLOCK_FRAME_SIZE →
      (E.block_io_bus b reg buf).buf.length = E.BLOCK_FRAME_SIZE)
    (hterm : ∀ cur tb bus, read_frame E fuel cur tb bus ≠ .error .fuel)
    (cache : CacheState) (hinit : cache.init = true)
    (hfr : ∀ e ∈ cache.cache, E.BLOCK_FRAME_SIZE ≤ e.frame.length)
    (buf : List Nat) (cur seek left written : Nat) (tb : List Nat) (bus : β)
    (htb : tb.length = E.BLOCK_FRAME_SIZE) (hleft : left ≠ 0)
    (hseek : seek < E.BLOCK_FRAME_SIZE) (hbuf : written + left ≤ buf.length)
    (hshape : written + left ≤ E.BLOCK_FRAME_SIZE ∨ (seek = 0 ∧ E.BLOCK_FRAME_SIZE ∣ left)) :
    ∃ sp, splice E fuel cache buf cur seek left written (some tb) bus = .ok sp ∧
      sp.failed = false ∧
      (∃ tb1, sp.temp_buf = some tb1 ∧ tb1.length = E.BLOCK_FRAME_SIZE) ∧
      sp.bytes_written + sp.bytes_left_to_write ≤ buf.length ∧
      (sp.bytes_written + sp.bytes_left_to_write ≤ E.BLOCK_FRAME_SIZE ∨
        E.BLOCK_FRAME_SIZE ∣ sp.bytes_left_to_write) ∧
      (sp.bytes_left_to_write = 0 ∨ sp.bytes_left_to_write + E.BLOCK_FRAME_SIZE ≤ seek + left) := by
  obtain ⟨ft, hft, hfail, ⟨tb1, htb1, hl1⟩, hcb⟩ :=
    fetch_total E fuel hno hbus hterm cache (Or.inr hinit) hfr cur tb bus htb
  have hsrc : ∀ n, n ≤ E.BLOCK_FRAME_SIZE → written + n ≤ buf.length →
      written + n ≤ E.BLOCK_FRAME_SIZE →
      written + n ≤ (copy_src ft.cache_buf buf).length := by
    intro n h1 h2 h3
    cases hc : ft.cache_buf with
    | some cb => have := hcb cb hc; simp only [copy_src]; omega
    | none => simp only [copy_src]; omega
  have hsrc0 : ∀ n, n ≤ E.BLOCK_FRAME_SIZE → n ≤ buf.length →
      0 + n ≤ (copy_src ft.cache_buf buf).length := by
    intro n h1 h2
    cases hc : ft.cache_buf with
    | some cb => have := hcb cb hc; simp only [copy_src]; omega
    | none => simp only [copy_src]; omega
  unfold splice
  simp only
  by_cases h1 : seek > 0
  · have hsum : written + left ≤ E.BLOCK_FRAME_SIZE := by
      rcases hshape with h | h
      · exact h
      · omega
    simp only [h1, if_true, hft, hfail, Bool.false_eq_true, if_false, htb1]
    by_cases h2 : left ≤ E.BLOCK_FRAME_SIZE - seek
    · obtain ⟨r, hm, hr⟩ := memcpy_ok tb1 seek (copy_src ft.cache_buf buf) 0 left (hsrc0 left (by omega) (by omega)) (by omega)
      simp only [h2, if_true, hm]
      exact ⟨_, rfl, rfl, ⟨r, rfl, by omega⟩, by simp only; omega, Or.inl (by simp only; omega),
        Or.inl rfl⟩
    · obtain ⟨r, hm, hr⟩ := memcpy_ok tb1 seek (copy_src ft.cache_buf buf) 0 (E.BLOCK_FRAME_SIZE - seek)
          (hsrc0 (E.BLOCK_FRAME_SIZE - seek) (by omega) (by omega)) (by omega)
      simp only [h2, if_false, hm]
      exact ⟨_, rfl, rfl, ⟨r, rfl, by omega⟩, by simp only; omega, Or.inl (by simp only; omega),
        Or.inr (by simp only; omega)⟩
  · have hs0 : seek = 0 := by omega
    by_cases h2 : left ≥ E.BLOCK_FRAME_SIZE
    · obtain ⟨r, hm, hr⟩ := memcpy_ok tb 0 buf written E.BLOCK_FRAME_SIZE (by omega) (by omega)
      simp only [h1, if_false, h2, if_true, hm]
      refine ⟨_, rfl, rfl, ⟨r, rfl, by omega⟩, by simp only; omega, ?_, Or.inr (by simp only; omega)⟩
      simp only
      rcases hshape with h | ⟨_, h⟩
      · left; omega
      · right; exact (Nat.dvd_sub' h (dvd_refl _))
    · have hsum : written + left ≤ E.BLOCK_FRAME_SIZE := by
        rcases hshape with h | ⟨_, h⟩
        · exact h
        · have := Nat.le_of_dvd (by omega) h
          omega
      obtain ⟨r, hm, hr⟩ := memcpy_ok tb1 0 (copy_src ft.cache_buf buf) written left (hsrc left (by omega) hbuf hsum) (by omega)
      simp only [h1, if_false, h2, hft, hfail, Bool.false_eq_true, htb1, hm]
      exact ⟨_, rfl, rfl, ⟨r, rfl, by omega⟩, by simp only; omega, Or.inl (by simp only; omega),
        Or.inl rfl⟩

theorem write_loop_total {β : Type} (E : Env β) (fuel : Nat)
    (hno : ∀ b reg buf, rt_of (E.block_io_bus b reg buf).reg ≠ -1)
    (hbus : ∀ b reg buf, buf.length = E.BLOCK_FRAME_SIZE →
      (E.block_io_bus b reg buf).buf.length = E.BLOCK_FRAME_SIZE)
    (htermr : ∀ cur tb bus, read_frame E fuel cur tb bus ≠ .error .fuel)
    (htermw : ∀ cur tb bus, write_frame E fuel cur tb bus ≠ .error .fuel)
    (buf : List Nat) (hF : 0 < E.BLOCK_FRAME_SIZE) :
    ∀ (rest : List Nat) (seek left written : Nat) (tb : List Nat) (cache : CacheState) (bus : β),
      tb.length = E.BLOCK_FRAME_SIZE → cache.init = true → 1 ≤ cache.block_cache_max_items →
      (∀ e ∈ cache.cache, E.BLOCK_FRAME_SIZE ≤ e.frame.length) →
      seek < E.BLOCK_FRAME_SIZE → written + left ≤ buf.length →
      (written + left ≤ E.BLOCK_FRAME_SIZE ∨ (seek = 0 ∧ E.BLOCK_FRAME_SIZE ∣ left)) →
      seek + left ≤ rest.length * E.BLOCK_FRAME_SIZE →
      ∃ l, write_loop E fuel buf rest seek left written (some tb) cache bus = .ok l := by
  intro rest
  induction rest with
  | nil =>
    intro seek left written tb cache bus _ _ _ _ _ _ _ hfrm
    simp only [List.length_nil, Nat.zero_mul] at hfrm
    have : left = 0 := by omega
    unfold write_loop
    simp only [this, if_true]
    exact ⟨_, rfl⟩
  | cons cur rest ih =>
    intro seek left written tb cache bus htb hinit hcap hfr hseek hbuf hshape hfrm
    unfold write_loop
    by_cases hl0 : left = 0
    · simp only [hl0, if_true]
      exact ⟨_, rfl⟩
    · obtain ⟨sp, hsp, hfail, ⟨tb1, htb1, hl1⟩, hb1, hs1, hf1⟩ :=
        splice_total E fuel hno hbus htermr cache hinit hfr buf cur seek left written tb bus
          htb hl0 hseek hbuf hshape
      obtain ⟨b, bus1, hw, hbl⟩ := write_frame_total E fuel hno hbus htermw cur tb1 sp.bus hl1
      obtain ⟨c1, hput, hi1, hc1, hfr1⟩ :=
        put_block_cache_total E.BLOCK_FRAME_SIZE cache cur b (by omega) hinit hcap hfr
      simp only [hl0, if_false, hsp, hfail, Bool.false_eq_true, htb1, hw, hput]
      apply ih 0 sp.bytes_left_to_write sp.bytes_written b c1 bus1 hbl hi1 (by omega) hfr1 hF hb1
      · rcases hs1 with h | h
        · exact Or.inl h
        · exact Or.inr ⟨rfl, h⟩
      · simp only [List.length_cons, Nat.add_mul, Nat.one_mul] at hfrm
        rcases hf1 with h | h
        · rw [h]; omega
        · omega

theorem block_write_returns {β : Type} (E : Env β) (fuel : Nat) (s : Driver β) (fd : Int)
    (buf : List Nat) (count : Int) (index : Nat) (f f1 : file) (used1 : Nat) (tb : List Nat)
    (hfind : find_handle fd s.all_files = some index)
    (hget : s.all_files[index]? = some f) (hopen : f.status = Status.OPEN)
    (hc0 : 0 ≤ count) (hsum : f.seek_pos + count < 4294967296)
    (hno : ∀ b reg buf, rt_of (E.block_io_bus b reg buf).reg ≠ -1)
    (hF : 0 < E.BLOCK_FRAME_SIZE)
    (hbus : ∀ b reg buf, buf.length = E.BLOCK_FRAME_SIZE →
      (E.block_io_bus b reg buf).buf.length = E.BLOCK_FRAME_SIZE)
    (htermr : ∀ cur tb bus, read_frame E fuel cur tb bus ≠ .error .fuel)
    (htermw : ∀ cur tb bus, write_frame E fuel cur tb bus ≠ .error .fuel)
    (htb : s.temp_buf = some tb) (htbl : tb.length = E.BLOCK_FRAME_SIZE)
    (hinit : s.cache.init = true) (hcap : 1 ≤ s.cache.block_cache_max_items)
    (hfr : ∀ e ∈ s.cache.cache, E.BLOCK_FRAME_SIZE ≤ e.frame.length)
    (hbuf : count.toNat ≤ buf.length)
    (hgrow : grow_file E.BLOCK_FRAME_SIZE f count s.num_frames_used = .ok (f1, used1))
    (hnf : f1.frames.length < 65536)
    (hcover : f.seek_pos + count.toNat ≤ f1.frames.length * E.BLOCK_FRAME_SIZE)
    (hshape : count.toNat ≤ E.BLOCK_FRAME_SIZE ∨
      (f.seek_pos % E.BLOCK_FRAME_SIZE = 0 ∧ E.BLOCK_FRAME_SIZE ∣ count.toNat)) :
    ∃ s1, block_write E fuel s fd buf count = .ok (count, s1) := by
  have hne : ¬ f.status = Status.CLOSED := by rw [hopen]; decide
  have hu : toU32 count = count.toNat := toU32_of_nonneg count hc0 (by omega)
  have hF0 : ¬ E.BLOCK_FRAME_SIZE = 0 := by omega
  have hdm := Nat.div_add_mod f.seek_pos E.BLOCK_FRAME_SIZE
  have hq : f.seek_pos / E.BLOCK_FRAME_SIZE ≤ f1.frames.length := by
    have h1 : f.seek_pos ≤ f1.frames.length * E.BLOCK_FRAME_SIZE := by omega
    calc f.seek_pos / E.BLOCK_FRAME_SIZE
        ≤ (f1.frames.length * E.BLOCK_FRAME_SIZE) / E.BLOCK_FRAME_SIZE :=
          Nat.div_le_div_right h1
      _ = f1.frames.length := Nat.mul_div_cancel _ hF
  have hi : f.seek_pos / E.BLOCK_FRAME_SIZE % 65536 = f.seek_pos / E.BLOCK_FRAME_SIZE :=
    Nat.mod_eq_of_lt (by omega)
  have hfrm : f.seek_pos % E.BLOCK_FRAME_SIZE + count.toNat
      ≤ (f1.frames.drop (f.seek_pos / E.BLOCK_FRAME_SIZE)).length * E.BLOCK_FRAME_SIZE := by
    simp only [List.length_drop, Nat.sub_mul]
    have h2 : f.seek_pos / E.BLOCK_FRAME_SIZE * E.BLOCK_FRAME_SIZE
        = E.BLOCK_FRAME_SIZE * (f.seek_pos / E.BLOCK_FRAME_SIZE) := Nat.mul_comm _ _
    omega
  obtain ⟨l, hl⟩ := write_loop_total E fuel hno hbus htermr htermw buf hF
    (f1.frames.drop (f.seek_pos / E.BLOCK_FRAME_SIZE)) (f.seek_pos % E.BLOCK_FRAME_SIZE)
    count.toNat 0 tb s.cache s.bus htbl hinit hcap hfr (Nat.mod_lt _ hF) (by omega)
    (by rcases hshape with h | h
        · exact Or.inl (by omega)
        · exact Or.inr h) hfrm
  have hfail := write_loop_not_failed E hno fuel buf _ _ _ _ _ _ _ l hl
  simp only [block_write, hfind, hget, hne, if_false, hgrow, hF0, hi, hu, htb, hl, hfail,
    Bool.false_eq_true]
  exact ⟨_, rfl⟩

/-! ## Writes whose last bytes go to a frame that is not cached -/

theorem slots_keys (l g : List cache_frame) (h : slots l = slots g) : keys l = keys g := by
  have h1 := congrArg (List.map Prod.fst) h
  simpa [slots, keys, List.map_map, Function.comp] using h1

theorem slots_length (l g : List cache_frame) (h : slots l = slots g) : l.length = g.length := by
  have h1 := congrArg List.length h
  simpa [slots] using h1

theorem get_scan_not_key (K : Nat) (l : List cache_frame) (h : K ∉ keys l) :
    get_scan K l = none := by
  induction l with
  | nil => rfl
  | cons e l ih =>
    simp only [keys, List.map_cons, List.mem_cons, not_or] at h
    unfold get_scan
    rw [if_neg (fun hc => h.1 hc.symm)]
    exact ih h.2

theorem put_scan_slots (F frm : Nat) (b1 b2 : List Nat) (h1 : F ≤ b1.length)
    (h2 : F ≤ b2.length) :
    ∀ (l g : List cache_frame) (i a b : Nat), slots l = slots g →
      (∀ e ∈ l, F ≤ e.frame.length) → (∀ e ∈ g, F ≤ e.frame.length) →
      (∃ l1 g1, put_scan F frm b1 l i a b = .ok (.hit l1) ∧
        put_scan F frm b2 g i a b = .ok (.hit g1) ∧ slots l1 = slots g1) ∨
      (∃ l1 g1 x y, put_scan F frm b1 l i a b = .ok (.miss l1 x y) ∧
        put_scan F frm b2 g i a b = .ok (.miss g1 x y) ∧ slots l1 = slots g1) := by
  intro l
  induction l with
  | nil =>
    intro g i a b hs _ _
    cases g with
    | nil => exact Or.inr ⟨[], [], a, b, rfl, rfl, rfl⟩
    | cons e g => simp [slots] at hs
  | cons e l ih =>
    intro g i a b hs hl hg
    cases g with
    | nil => simp [slots] at hs
    | cons e2 g =>
      simp only [slots, List.map_cons, List.cons.injEq, Prod.mk.injEq] at hs
      obtain ⟨⟨hk, ha⟩, hrest⟩ := hs
      have hl1 : ∀ x ∈ l, F ≤ x.frame.length := fun x hx => hl x (by simp [hx])
      have hg1 : ∀ x ∈ g, F ≤ x.frame.length := fun x hx => hg x (by simp [hx])
      unfold put_scan
      by_cases hc : e.frame_number = frm
      · have hc2 : e2.frame_number = frm := by rw [← hk]; exact hc
        obtain ⟨fr1, hm1, _⟩ := memcpy_ok e.frame 0 b1 0 F (by omega)
          (by have := hl e (by simp); omega)
        obtain ⟨fr2, hm2, _⟩ := memcpy_ok e2.frame 0 b2 0 F (by omega)
          (by have := hg e2 (by simp); omega)
        simp only [hc, hc2, if_true, hm1, hm2]
        refine Or.inl ⟨_, _, rfl, rfl, ?_⟩
        simp only [slots, List.map_cons, List.cons.injEq, Prod.mk.injEq]
        exact ⟨trivial, hrest⟩
      · have hc2 : ¬ e2.frame_number = frm := by rw [← hk]; exact hc
        simp only [hc, hc2, if_false, ← ha]
        rcases ih g (i + 1)
          (if (e.calls_since_use + 1) % 65536 > a then (e.calls_since_use + 1) % 65536 else a)
          (if (e.calls_since_use + 1) % 65536 > a then i % 65536 else b) hrest hl1 hg1
          with ⟨l1, g1, p1, p2, p3⟩ | ⟨l1, g1, x, y, p1, p2, p3⟩
        · rw [p1, p2]
          refine Or.inl ⟨_, _, rfl, rfl, ?_⟩
          simp only [slots, List.map_cons, List.cons.injEq, Prod.mk.injEq]
          exact ⟨⟨hk, trivial⟩, p3⟩
        · rw [p1, p2]
          refine Or.inr ⟨_, _, x, y, rfl, rfl, ?_⟩
          simp only [slots, List.map_cons, List.cons.injEq, Prod.mk.injEq]
          exact ⟨⟨hk, trivial⟩, p3⟩

theorem put_block_cache_slots (F : Nat) (c g : CacheState) (frm : Nat) (b1 b2 : List Nat)
    (h1 : F ≤ b1.length) (h2 : F ≤ b2.length)
    (hinit : c.init = true) (hcap : 1 ≤ c.block_cache_max_items)
    (hfr : ∀ e ∈ c.cache, F ≤ e.frame.length)
    (hginit : g.init = true) (hgcap : g.block_cache_max_items = c.block_cache_max_items)
    (hgfr : ∀ e ∈ g.cache, F ≤ e.frame.length)
    (hs : slots c.cache = slots g.cache) :
    ∃ c1 g1, put_block_cache F c frm b1 = .ok (0, c1) ∧
      put_block_cache F g frm b2 = .ok (0, g1) ∧ slots c1.cache = slots g1.cache := by
  obtain ⟨r1, hr1, hsh1⟩ := put_scan_total F frm b1 h1 c.cache 0 0 0 hfr
  obtain ⟨r2, hr2, hsh2⟩ := put_scan_total F frm b2 h2 g.cache 0 0 0 hgfr
  unfold put_block_cache
  simp only [hinit, hginit, Bool.true_eq_false, if_false]
  rcases put_scan_slots F frm b1 b2 h1 h2 c.cache g.cache 0 0 0 hs hfr hgfr
    with ⟨l1, g1, p1, p2, p3⟩ | ⟨l1, g1, x, y, p1, p2, p3⟩
  · rw [p1, p2]
    exact ⟨_, _, rfl, rfl, p3⟩
  · rw [p1] at hr1
    rw [p2] at hr2
    have e1 := Except.ok.inj hr1
    have e2 := Except.ok.inj hr2
    subst e1
    subst e2
    have hlen := slots_length _ _ p3
    rcases hsh1 with ⟨c1, q1, _⟩ | ⟨c1, a1, y1, q1, q2, q3, q4⟩
    · cases q1
    rcases hsh2 with ⟨c2, q5, _⟩ | ⟨c2, a2, y2, q5, q6, q7, q8⟩
    · cases q5
    cases q1
    cases q5
    rw [p1, p2]
    simp only [hgcap]
    by_cases hroom : l1.length < c.block_cache_max_items
    · have hroom2 : g1.length < c.block_cache_max_items := by omega
      have hp1 : peek b1 0 F = .ok ((b1.drop 0).take F) := by
        unfold peek
        rw [if_pos (by omega)]
      have hp2 : peek b2 0 F = .ok ((b2.drop 0).take F) := by
        unfold peek
        rw [if_pos (by omega)]
      simp only [hroom, hroom2, if_true, hp1, hp2]
      refine ⟨_, _, rfl, rfl, ?_⟩
      simp only [slots, List.map_append, List.map_cons, List.map_nil] at p3 ⊢
      rw [p3]
    · have hroom2 : ¬ g1.length < c.block_cache_max_items := by omega
      have hb1 : y < l1.length := by omega
      have hb2 : y < g1.length := by omega
      obtain ⟨fr1, hm1, _⟩ := memcpy_ok (l1.get ⟨y, hb1⟩).frame 0 b1 0 F (by omega)
        (by have := q3 (l1.get ⟨y, hb1⟩) (List.get_mem _ _ _); omega)
      obtain ⟨fr2, hm2, _⟩ := memcpy_ok (g1.get ⟨y, hb2⟩).frame 0 b2 0 F (by omega)
        (by have := q7 (g1.get ⟨y, hb2⟩) (List.get_mem _ _ _); omega)
      simp only [hroom, hroom2, if_false, hb1, hb2, dite_true, hm1, hm2]
      refine ⟨_, _, rfl, rfl, ?_⟩
      simp only [slots, List.map_set] at p3 ⊢
      rw [p3]

theorem keys_after_nil (F : Nat) (g : CacheState) : keys_after F g [] = keys g.cache := rfl

theorem keys_after_cons (F : Nat) (g g1 : CacheState) (K : Nat) (rest : List Nat) (r : Int)
    (h : put_block_cache F g K (List.replicate F 0) = .ok (r, g1)) :
    keys_after F g (K :: rest) = keys_after F g1 rest := by
  simp only [keys_after, List.map_cons, puts, h]

theorem fetch_cache_buf {β : Type} (E : Env β) (fuel : Nat) (cache : CacheState)
    (hinit : cache.init = true) (cur : Nat) (tb : Option (List Nat)) (bus : β) (ft : Fetch β)
    (h : fetch E fuel cache cur tb bus = .ok ft) : ft.cache_buf = get_scan cur cache.cache := by
  have hget : get_block_cache cache cur = .ok (get_scan cur cache.cache) := by
    unfold get_block_cache
    simp only [hinit, if_true]
    split_ifs with hc
    · simp [hc, get_scan]
    · rfl
  unfold fetch at h
  rw [hget] at h
  cases hs : get_scan cur cache.cache with
  | some cb =>
    rw [hs] at h
    cases h
    rfl
  | none =>
    rw [hs] at h
    cases tb with
    | none => cases h
    | some t =>
      simp only at h
      cases hr : read_frame E fuel cur t bus with
      | error a => rw [hr] at h; cases h
      | ok x =>
        rw [hr] at h
        cases x with
        | hard b bus1 => cases h; rfl
        | done b bus1 => cases h; rfl

theorem splice_tail {β : Type} (E : Env β) (fuel : Nat)
    (hno : ∀ b reg buf, rt_of (E.block_io_bus b reg buf).reg ≠ -1)
    (hbus : ∀ b reg buf, buf.length = E.BLOCK_FRAME_SIZE →
      (E.block_io_bus b reg buf).buf.length = E.BLOCK_FRAME_SIZE)
    (hterm : ∀ cur tb bus, read_frame E fuel cur tb bus ≠ .error .fuel)
    (cache : CacheState) (hinit : cache.init = true)
    (hfr : ∀ e ∈ cache.cache, E.BLOCK_FRAME_SIZE ≤ e.frame.length)
    (buf : List Nat) (cur seek left written : Nat) (tb : List Nat) (bus : β)
    (htb : tb.length = E.BLOCK_FRAME_SIZE)
    (hseek : seek < E.BLOCK_FRAME_SIZE) (hbuf : written + left ≤ buf.length)
    (hfirst : 0 < seek → written = 0)
    (hsafe : seek = 0 → left < E.BLOCK_FRAME_SIZE →
      written + left ≤ E.BLOCK_FRAME_SIZE ∨ get_scan cur cache.cache = none) :
    ∃ sp, splice E fuel cache buf cur seek left written (some tb) bus = .ok sp ∧
      sp.failed = false ∧
      (∃ tb1, sp.temp_buf = some tb1 ∧ tb1.length = E.BLOCK_FRAME_SIZE) ∧
      sp.bytes_written + sp.bytes_left_to_write = written + left ∧
      (sp.bytes_left_to_write = 0 ∨
        sp.bytes_left_to_write + E.BLOCK_FRAME_SIZE = seek + left) := by
  obtain ⟨ft, hft, hfail, ⟨tb1, htb1, hl1⟩, hcb⟩ :=
    fetch_total E fuel hno hbus hterm cache (Or.inr hinit) hfr cur tb bus htb
  have hcbuf := fetch_cache_buf E fuel cache hinit cur (some tb) bus ft hft
  have hsrc0 : ∀ n, n ≤ E.BLOCK_FRAME_SIZE → n ≤ buf.length →
      0 + n ≤ (copy_src ft.cache_buf buf).length := by
    intro n h1 h2
    cases hc : ft.cache_buf with
    | some cb => have := hcb cb hc; simp only [copy_src]; omega
    | none => simp only [copy_src]; omega
  unfold splice
  simp only
  by_cases h1 : seek > 0
  · have hw0 : written = 0 := hfirst h1
    simp only [h1, if_true, hft, hfail, Bool.false_eq_true, if_false, htb1]
    by_cases h2 : left ≤ E.BLOCK_FRAME_SIZE - seek
    · obtain ⟨r, hm, hr⟩ := memcpy_ok tb1 seek (copy_src ft.cache_buf buf) 0 left
        (hsrc0 left (by omega) (by omega)) (by omega)
      simp only [h2, if_true, hm]
      exact ⟨_, rfl, rfl, ⟨r, rfl, by omega⟩, by simp only; omega, Or.inl rfl⟩
    · obtain ⟨r, hm, hr⟩ := memcpy_ok tb1 seek (copy_src ft.cache_buf buf) 0
        (E.BLOCK_FRAME_SIZE - seek) (hsrc0 (E.BLOCK_FRAME_SIZE - seek) (by omega) (by omega))
        (by omega)
      simp only [h2, if_false, hm]
      exact ⟨_, rfl, rfl, ⟨r, rfl, by omega⟩, by simp only; omega, Or.inr (by simp only; omega)⟩
  · have hs0 : seek = 0 := by omega
    by_cases h2 : left ≥ E.BLOCK_FRAME_SIZE
    · obtain ⟨r, hm, hr⟩ := memcpy_ok tb 0 buf written E.BLOCK_FRAME_SIZE (by omega) (by omega)
      simp only [h1, if_false, h2, if_true, hm]
      exact ⟨_, rfl, rfl, ⟨r, rfl, by omega⟩, by simp only; omega, Or.inr (by simp only; omega)⟩
    · have hsrc : written + left ≤ (copy_src ft.cache_buf buf).length := by
        rcases hsafe hs0 (by omega) with h | h
        · cases hc : ft.cache_buf with
          | some cb => have := hcb cb hc; simp only [copy_src]; omega
          | none => simp only [copy_src]; omega
        · rw [hcbuf, h]
          simp only [copy_src]
          exact hbuf
      obtain ⟨r, hm, hr⟩ := memcpy_ok tb1 0 (copy_src ft.cache_buf buf) written left hsrc
        (by omega)
      simp only [h1, if_false, h2, hft, hfail, Bool.false_eq_true, htb1, hm]
      exact ⟨_, rfl, rfl, ⟨r, rfl, by omega⟩, by simp only; omega, Or.inl rfl⟩

theorem write_loop_tail {β : Type} (E : Env β) (fuel : Nat)
    (hno : ∀ b reg buf, rt_of (E.block_io_bus b reg buf).reg ≠ -1)
    (hbus : ∀ b reg buf, buf.length = E.BLOCK_FRAME_SIZE →
      (E.block_io_bus b reg buf).buf.length = E.BLOCK_FRAME_SIZE)
    (htermr : ∀ cur tb bus, read_frame E fuel cur tb bus ≠ .error .fuel)
    (htermw : ∀ cur tb bus, write_frame E fuel cur tb bus ≠ .error .fuel)
    (buf : List Nat) (hF : 0 < E.BLOCK_FRAME_SIZE) :
    ∀ (rest : List Nat) (seek left written : Nat) (tb : List Nat) (cache g : CacheState)
      (bus : β),
      tb.length = E.BLOCK_FRAME_SIZE → cache.init = true → 1 ≤ cache.block_cache_max_items →
      (∀ e ∈ cache.cache, E.BLOCK_FRAME_SIZE ≤ e.frame.length) →
      g.init = true → g.block_cache_max_items = cache.block_cache_max_items →
      (∀ e ∈ g.cache, E.BLOCK_FRAME_SIZE ≤ e.frame.length) →
      slots cache.cache = slots g.cache →
      seek < E.BLOCK_FRAME_SIZE → written + left ≤ buf.length →
      (0 < seek → written = 0) →
      (written + left ≤ E.BLOCK_FRAME_SIZE ∨ (seek + left) % E.BLOCK_FRAME_SIZE = 0 ∨
        rest.getD ((seek + left - 1) / E.BLOCK_FRAME_SIZE) 0
          ∉ keys_after E.BLOCK_FRAME_SIZE g
              (rest.take ((seek + left - 1) / E.BLOCK_FRAME_SIZE))) →
      seek + left ≤ rest.length * E.BLOCK_FRAME_SIZE →
      ∃ l, write_loop E fuel buf rest seek left written (some tb) cache bus = .ok l := by
  intro rest
  induction rest with
  | nil =>
    intro seek left written tb cache g bus _ _ _ _ _ _ _ _ _ _ _ _ hfrm
    simp only [List.length_nil, Nat.zero_mul] at hfrm
    have : left = 0 := by omega
    unfold write_loop
    simp only [this, if_true]
    exact ⟨_, rfl⟩
  | cons cur rest ih =>
    intro seek left written tb cache g bus htb hinit hcap hfr hginit hgcap hgfr hs hseek hbuf
      hfirst htail hfrm
    unfold write_loop
    by_cases hl0 : left = 0
    · simp only [hl0, if_true]
      exact ⟨_, rfl⟩
    · have hsafe : seek = 0 → left < E.BLOCK_FRAME_SIZE →
          written + left ≤ E.BLOCK_FRAME_SIZE ∨ get_scan cur cache.cache = none := by
        intro h0 hlt
        rcases htail with h | h | h
        · exact Or.inl h
        · rw [h0, Nat.zero_add, Nat.mod_eq_of_lt hlt] at h
          exact absurd h hl0
        · right
          have hi : (seek + left - 1) / E.BLOCK_FRAME_SIZE = 0 :=
            Nat.div_eq_of_lt (by omega)
          rw [hi] at h
          simp only [List.take_zero, keys_after_nil, List.getD_cons_zero] at h
          rw [← slots_keys _ _ hs] at h
          exact get_scan_not_key cur cache.cache h
      obtain ⟨sp, hsp, hfail, ⟨tb1, htb1, hl1⟩, hb1, hf1⟩ :=
        splice_tail E fuel hno hbus htermr cache hinit hfr buf cur seek left written tb bus
          htb hseek hbuf hfirst hsafe
      obtain ⟨b, bus1, hw, hbl⟩ := write_frame_total E fuel hno hbus htermw cur tb1 sp.bus hl1
      obtain ⟨c1, g1, hput, hgput, hs1⟩ :=
        put_block_cache_slots E.BLOCK_FRAME_SIZE cache g cur b
          (List.replicate E.BLOCK_FRAME_SIZE 0) (by omega) (by simp) hinit hcap hfr hginit hgcap
          hgfr hs
      obtain ⟨c1x, hputx, hi1, hc1, hfr1⟩ :=
        put_block_cache_total E.BLOCK_FRAME_SIZE cache cur b (by omega) hinit hcap hfr
      obtain ⟨g1x, hgputx, hgi1, hgc1, hgfr1⟩ :=
        put_block_cache_total E.BLOCK_FRAME_SIZE g cur (List.replicate E.BLOCK_FRAME_SIZE 0)
          (by simp) hginit (by omega) hgfr
      have ec : c1x = c1 := by
        rw [hput] at hputx
        exact (Prod.mk.inj (Except.ok.inj hputx)).2.symm
      have eg : g1x = g1 := by
        rw [hgput] at hgputx
        exact (Prod.mk.inj (Except.ok.inj hgputx)).2.symm
      subst ec
      subst eg
      simp only [hl0, if_false, hsp, hfail, Bool.false_eq_true, htb1, hw, hput]
      apply ih 0 sp.bytes_left_to_write sp.bytes_written b c1x g1x bus1 hbl hi1 (by omega) hfr1
        hgi1 (by omega) hgfr1 hs1 hF (by omega) (fun h => absurd h (Nat.lt_irrefl 0))
      · by_cases h0 : sp.bytes_left_to_write = 0
        · right; left
          rw [h0]
          simp
        · have h : sp.bytes_left_to_write + E.BLOCK_FRAME_SIZE = seek + left := by
            rcases hf1 with h | h
            · exact absurd h h0
            · exact h
          rcases htail with t | t | t
          · left; omega
          · right; left
            rw [← h] at t
            rw [Nat.zero_add]
            rwa [Nat.add_mod_right] at t
          · right; right
            have hi : (seek + left - 1) / E.BLOCK_FRAME_SIZE
                = (0 + sp.bytes_left_to_write - 1) / E.BLOCK_FRAME_SIZE + 1 := by
              have e : seek + left - 1
                  = (0 + sp.bytes_left_to_write - 1) + E.BLOCK_FRAME_SIZE := by omega
              rw [e, Nat.add_div_right _ hF]
            rw [hi] at t
            simp only [List.getD_cons_succ, List.take_succ_cons] at t
            rw [keys_after_cons E.BLOCK_FRAME_SIZE g g1x cur _ 0 hgput] at t
            exact t
      · simp only [List.length_cons, Nat.add_mul, Nat.one_mul] at hfrm
        rcases hf1 with h | h
        · rw [h]; omega
        · omega

theorem block_write_tail {β : Type} (E : Env β) (fuel : Nat) (s : Driver β) (fd : Int)
    (buf : List Nat) (count : Int) (index : Nat) (f f1 : file) (used1 : Nat) (tb : List Nat)
    (hfind : find_handle fd s.all_files = some index)
    (hget : s.all_files[index]? = some f) (hopen : f.status = Status.OPEN)
    (hc0 : 0 ≤ count) (hsum : f.seek_pos + count < 4294967296)
    (hno : ∀ b reg buf, rt_of (E.block_io_bus b reg buf).reg ≠ -1)
    (hF : 0 < E.BLOCK_FRAME_SIZE)
    (hbus : ∀ b reg buf, buf.length = E.BLOCK_FRAME_SIZE →
      (E.block_io_bus b reg buf).buf.length = E.BLOCK_FRAME_SIZE)
    (htermr : ∀ cur tb bus, read_frame E fuel cur tb bus ≠ .error .fuel)
    (htermw : ∀ cur tb bus, write_frame E fuel cur tb bus ≠ .error .fuel)
    (htb : s.temp_buf = some tb) (htbl : tb.length = E.BLOCK_FRAME_SIZE)
    (hinit : s.cache.init = true) (hcap : 1 ≤ s.cache.block_cache_max_items)
    (hfr : ∀ e ∈ s.cache.cache, E.BLOCK_FRAME_SIZE ≤ e.frame.length)
    (hbuf : count.toNat ≤ buf.length)
    (hgrow : grow_file E.BLOCK_FRAME_SIZE f count s.num_frames_used = .ok (f1, used1))
    (hnf : f1.frames.length < 65536)
    (hcover : f.seek_pos + count.toNat ≤ f1.frames.length * E.BLOCK_FRAME_SIZE)
    (htail : count.toNat ≤ E.BLOCK_FRAME_SIZE ∨
      (f.seek_pos + count.toNat) % E.BLOCK_FRAME_SIZE = 0 ∨
      tail_cached E.BLOCK_FRAME_SIZE s.cache f1.frames f.seek_pos count.toNat = false) :
    ∃ s1, block_write E fuel s fd buf count = .ok (count, s1) := by
  have hne : ¬ f.status = Status.CLOSED := by rw [hopen]; decide
  have hu : toU32 count = count.toNat := toU32_of_nonneg count hc0 (by omega)
  have hF0 : ¬ E.BLOCK_FRAME_SIZE = 0 := by omega
  have hdm := Nat.div_add_mod f.seek_pos E.BLOCK_FRAME_SIZE
  have hq : f.seek_pos / E.BLOCK_FRAME_SIZE ≤ f1.frames.length := by
    have h1 : f.seek_pos ≤ f1.frames.length * E.BLOCK_FRAME_SIZE := by omega
    calc f.seek_pos / E.BLOCK_FRAME_SIZE
        ≤ (f1.frames.length * E.BLOCK_FRAME_SIZE) / E.BLOCK_FRAME_SIZE :=
          Nat.div_le_div_right h1
      _ = f1.frames.length := Nat.mul_div_cancel _ hF
  have hi : f.seek_pos / E.BLOCK_FRAME_SIZE % 65536 = f.seek_pos / E.BLOCK_FRAME_SIZE :=
    Nat.mod_eq_of_lt (by omega)
  have hfrm : f.seek_pos % E.BLOCK_FRAME_SIZE + count.toNat
      ≤ (f1.frames.drop (f.seek_pos / E.BLOCK_FRAME_SIZE)).length * E.BLOCK_FRAME_SIZE := by
    simp only [List.length_drop, Nat.sub_mul]
    have h2 : f.seek_pos / E.BLOCK_FRAME_SIZE * E.BLOCK_FRAME_SIZE
        = E.BLOCK_FRAME_SIZE * (f.seek_pos / E.BLOCK_FRAME_SIZE) := Nat.mul_comm _ _
    omega
  obtain ⟨l, hl⟩ := write_loop_tail E fuel hno hbus htermr htermw buf hF
    (f1.frames.drop (f.seek_pos / E.BLOCK_FRAME_SIZE)) (f.seek_pos % E.BLOCK_FRAME_SIZE)
    count.toNat 0 tb s.cache s.cache s.bus htbl hinit hcap hfr hinit rfl hfr rfl
    (Nat.mod_lt _ hF) (by omega) (fun _ => rfl)
    (by rcases htail with h | h | h
        · exact Or.inl (by omega)
        · right; left
          rw [Nat.add_mod] at h
          rw [Nat.add_mod, Nat.mod_mod]
          exact h
        · right; right
          simpa [tail_cached] using h) hfrm
  have hfail := write_loop_not_failed E hno fuel buf _ _ _ _ _ _ _ l hl
  simp only [block_write, hfind, hget, hne, if_false, hgrow, hF0, hi, hu, htb, hl, hfail,
    Bool.false_eq_true]
  exact ⟨_, rfl⟩

theorem block_write_nothing {β : Type} (E : Env β) (fuel : Nat) (s : Driver β) (fd : Int)
    (buf : List Nat) (index : Nat) (f : file)
    (hfind : find_handle fd s.all_files = some index)
    (hget : s.all_files[index]? = some f) (hopen : f.status = Status.OPEN)
    (hpos : f.seek_pos < 4294967296)
    (hF : 0 < E.BLOCK_FRAME_SIZE) (hcur : f.seek_pos ≤ f.length) :
    ∃ s1, block_write E fuel s fd buf 0 = .ok (0, s1) := by
  have hne : ¬ f.status = Status.CLOSED := by rw [hopen]; decide
  have hu : toU32 0 = 0 := by decide
  have hF0 : ¬ E.BLOCK_FRAME_SIZE = 0 := by omega
  have hmod : f.seek_pos % 4294967296 = f.seek_pos := Nat.mod_eq_of_lt (by omega)
  have hgrow : grow_file E.BLOCK_FRAME_SIZE f 0 s.num_frames_used
      = .ok (f, s.num_frames_used) := by
    unfold grow_file
    simp only [hu, Nat.add_zero, hmod]
    rw [if_neg (by omega)]
  have hloop : ∀ rest seek, write_loop E fuel buf rest seek 0 0 s.temp_buf s.cache s.bus
      = .ok ⟨false, [], s.temp_buf, s.cache, s.bus⟩ := by
    intro rest seek
    cases rest <;> simp [write_loop]
  simp only [block_write, hfind, hget, hne, if_false, hgrow, hF0, hu, hloop,
    Bool.false_eq_true]
  exact ⟨_, rfl⟩

/-! ## The example device `ramBus` -/

theorem ramEnv_frame_size (F : Nat) :
    ∀ b reg buf, buf.length = (ramEnv F).BLOCK_FRAME_SIZE →
      ((ramEnv F).block_io_bus b reg buf).buf.length = (ramEnv F).BLOCK_FRAME_SIZE := by
  intro b reg buf hlen
  simp only [ramEnv, ramBus] at hlen ⊢
  split_ifs
  · exact hlen
  · simp only [List.length_take, List.length_append, List.length_replicate]
    omega
  · exact hlen

theorem ramEnv_read_ends (F fuel : Nat) :
    ∀ cur tb bus, read_frame (ramEnv F) fuel cur tb bus ≠ .error .fuel := by
  intro cur tb bus
  have hop : generate_register 2 cur 0 0 >>> 56 = 2 := by
    rw [generate_register_op]
  have h0 : ∀ c : Nat, ¬ rt_of (c <<< 8) = -1 := by
    intro c
    rw [rt_of_low_byte, Nat.shiftLeft_eq]
    have : c * 2 ^ 8 % 256 = 0 := by omega
    rw [this]
    decide
  have hck : ∀ c : Nat, checksum_of ((c % 4294967296) <<< 8) = c % 4294967296 := by
    intro c
    rw [checksum_of_field, Nat.shiftLeft_eq]
    omega
  unfold read_frame
  simp only [ramEnv, ramBus, hop, if_true]
  cases fuel <;> simp [read_retry, fr_checksum_value, h0, hck]

theorem ramEnv_write_ends (F fuel : Nat) :
    ∀ cur tb bus, write_frame (ramEnv F) fuel cur tb bus ≠ .error .fuel := by
  intro cur tb bus
  have hop : ∀ c, generate_register 3 cur c 0 >>> 56 = 3 := by
    intro c
    rw [generate_register_op]
  have h0 : ¬ rt_of 0 = -1 := by decide
  have h2 : ¬ rt_of 0 = 2 := by decide
  unfold write_frame
  simp only [ramEnv, ramBus, hop, if_true]
  cases fuel <;> simp [write_retry, h0, h2]

/-! ## Metadata of `block_write` and `block_read` -/

/-- C7 amended (metadata update of `block_write`). For an open entry, a count
`0 ≤ count` with `seek_pos + count < 2^32` and a bus none of whose responses
carries -1.  First part: whenever `block_write` returns, it returns `count`,
the cursor of the entry is `seek_pos + count`, its length is the maximum of
the old length and `seek_pos + count` (so it did not decrease), its status,
handle and path are as before, and every other entry is unchanged.  Second
part: `block_write` does return `count` when every frame transfer ends within
the retry bound, the bus hands back frame-size buffers, `temp_buf` is a frame
buffer, the cache is initialized with room for a frame, the caller's buffer
holds `count` bytes, the frame array left by the growth loop covers
`seek_pos + count`, and the last bytes of the write are not copied from a
cached frame past its end: the write is at most one frame long, or it ends on
a frame boundary, or the frame that takes its last bytes is not in the cache
when its turn comes.  Third part: a write of no bytes with the cursor inside
the file returns 0 whatever the buffers, the cache and the bus are. -/
theorem block_write_metadata {β : Type} (E : Env β) (fuel : Nat) (s : Driver β) (fd : Int)
    (buf : List Nat) (count : Int) (index : Nat) (f : file)
    (hfind : find_handle fd s.all_files = some index)
    (hget : s.all_files[index]? = some f) (hopen : f.status = Status.OPEN)
    (hc0 : 0 ≤ count) (hsum : f.seek_pos + count < 4294967296)
    (hno : ∀ b reg buf, rt_of (E.block_io_bus b reg buf).reg ≠ -1) :
    (∀ r s1, block_write E fuel s fd buf count = .ok (r, s1) →
      r = count ∧ s1.all_files.length = s.all_files.length ∧
      (∀ j, j ≠ index → s1.all_files[j]? = s.all_files[j]?) ∧
      ∃ f1, s1.all_files[index]? = some f1 ∧
        f1.seek_pos = f.seek_pos + count.toNat ∧
        f1.length = max f.length (f.seek_pos + count.toNat) ∧ f.length ≤ f1.length ∧
        f1.status = f.status ∧ f1.handle = f.handle ∧ f1.path = f.path) ∧
    (∀ (tb : List Nat) (f1 : file) (used1 : Nat),
      0 < E.BLOCK_FRAME_SIZE →
      (∀ b reg buf, buf.length = E.BLOCK_FRAME_SIZE →
        (E.block_io_bus b reg buf).buf.length = E.BLOCK_FRAME_SIZE) →
      (∀ cur tb bus, read_frame E fuel cur tb bus ≠ .error .fuel) →
      (∀ cur tb bus, write_frame E fuel cur tb bus ≠ .error .fuel) →
      s.temp_buf = some tb → tb.length = E.BLOCK_FRAME_SIZE →
      s.cache.init = true → 1 ≤ s.cache.block_cache_max_items →
      (∀ e ∈ s.cache.cache, E.BLOCK_FRAME_SIZE ≤ e.frame.length) →
      count.toNat ≤ buf.length →
      grow_file E.BLOCK_FRAME_SIZE f count s.num_frames_used = .ok (f1, used1) →
      f1.frames.length < 65536 →
      f.seek_pos + count.toNat ≤ f1.frames.length * E.BLOCK_FRAME_SIZE →
      (count.toNat ≤ E.BLOCK_FRAME_SIZE ∨
        (f.seek_pos + count.toNat) % E.BLOCK_FRAME_SIZE = 0 ∨
        tail_cached E.BLOCK_FRAME_SIZE s.cache f1.frames f.seek_pos count.toNat = false) →
      ∃ s1, block_write E fuel s fd buf count = .ok (count, s1)) ∧
    (count = 0 → 0 < E.BLOCK_FRAME_SIZE → f.seek_pos ≤ f.length →
      ∃ s1, block_write E fuel s fd buf count = .ok (count, s1)) :=
  ⟨fun r s1 hrun =>
      block_write_props E fuel s fd buf count index f r s1 hfind hget hopen hc0 hsum hno hrun,
    fun tb f1 used1 hF hbus htr htw htb htbl hinit hcap hfr hbuf hgrow hnf hcover htail =>
      block_write_tail E fuel s fd buf count index f f1 used1 tb hfind hget hopen hc0 hsum
        hno hF hbus htr htw htb htbl hinit hcap hfr hbuf hgrow hnf hcover htail,
    fun h0 hF hcur => by
      subst h0
      exact block_write_nothing E fuel s fd buf index f hfind hget hopen (by omega) hF hcur⟩

/-- Witness of `block_write_metadata`: 1500 bytes written at offset 0 of the
fresh file on the device `ramBus`, through the frames 1 and 2, return 1500 and
leave cursor and length at 1500. -/
theorem block_write_metadata_witness :
    ∃ s1 f1, block_write (ramEnv 1024) 0 (fresh 1024) 7 (List.replicate 1500 65) 1500
        = .ok (1500, s1) ∧
      s1.all_files[0]? = some f1 ∧ f1.seek_pos = 0 + (1500 : Int).toNat ∧
      f1.length = max 0 (0 + (1500 : Int).toNat) :=
  have h := block_write_metadata (ramEnv 1024) 0 (fresh 1024) 7 (List.replicate 1500 65) 1500 0
    ⟨path_a, 7, 0, .OPEN, 0, [1]⟩ rfl rfl rfl (by decide) (by decide) (ramEnv_no_hard 1024)
  match h.2.1 (List.replicate 1024 0) ⟨path_a, 7, 1500, .OPEN, 0, [1, 2]⟩ 2 (by decide)
      (ramEnv_frame_size 1024) (ramEnv_read_ends 1024 0) (ramEnv_write_ends 1024 0) rfl
      (by decide!) rfl (by decide) (by decide) (by decide!) (by decide!) (by decide)
      (by decide) (Or.inr (Or.inr (by decide!))) with
  | ⟨s1, hs1⟩ =>
    match (h.1 1500 s1 hs1).2.2.2 with
    | ⟨f1, h1, h2, h3, _⟩ => ⟨s1, f1, hs1, h1, h2, h3⟩

theorem find_handle_set_status (fd : Int) (l : List file) (i : Nat) (f : file) (st : Status)
    (hget : l[i]? = some f) :
    find_handle fd (l.set i { f with status := st }) = find_handle fd l := by
  induction l generalizing i with
  | nil => simp
  | cons a l ih =>
    cases i with
    | zero =>
      simp at hget
      subst hget
      simp [find_handle]
    | succ i =>
      simp at hget
      simp only [List.set_cons_succ, find_handle, ih i hget]

/-- C11 (close). When the handle resolves to an open entry `f`, `block_close`
returns 0 and replaces that entry by `f` with status `CLOSED`, every other
field and every other entry as before; closing the same handle again returns
-1 and changes nothing; a handle that no entry has returns -1 and changes
nothing. -/
theorem block_close_once {β : Type} (s : Driver β) (fd : Int) (index : Nat) (f : file)
    (hfind : find_handle fd s.all_files = some index)
    (hget : s.all_files[index]? = some f) (hopen : f.status = Status.OPEN) :
    block_close s fd
      = (0, { s with all_files := s.all_files.set index { f with status := Status.CLOSED } }) ∧
    block_close (block_close s fd).2 fd = (-1, (block_close s fd).2) ∧
    (∀ (t : Driver β) (gd : Int), (∀ g ∈ t.all_files, g.handle ≠ gd) →
      block_close t gd = (-1, t)) := by
  have hne : ¬ f.status = Status.CLOSED := by rw [hopen]; decide
  have hidx : index < s.all_files.length := by
    by_contra hcon
    rw [List.getElem?_eq_none (by omega)] at hget
    cases hget
  have h1 : block_close s fd
      = (0, { s with all_files := s.all_files.set index { f with status := Status.CLOSED } }) := by
    simp only [block_close, hfind, hget, hne, if_false]
  refine ⟨h1, ?_, ?_⟩
  · rw [h1]
    simp only [block_close, find_handle_set_status fd s.all_files index f Status.CLOSED hget,
      hfind]
    simp [hidx]
  · intro t gd hall
    simp only [block_close, find_handle_none.mpr hall]

/-- Witness of `block_close_once`: the open file of `fresh 1024`. -/
theorem block_close_once_witness :
    block_close (fresh 1024) 7
      = (0, { fresh 1024 with all_files := [⟨path_a, 7, 0, .CLOSED, 0, [1]⟩] }) ∧
    block_close (block_close (fresh 1024) 7).2 7 = (-1, (block_close (fresh 1024) 7).2) :=
  have h := block_close_once (fresh 1024) 7 0 ⟨path_a, 7, 0, .OPEN, 0, [1]⟩ rfl rfl rfl
  ⟨h.1, h.2.1⟩

/-! ## Cache configuration -/

/-- C20 (cache size). While the cache is initialized `set_block_cache_size`
returns -1 and leaves the cache state, its capacity included, as it is;
otherwise it returns 0 and sets the capacity to `n`, changing nothing else.
The cache is initialized after `init_block_cache`, it is not after a
`close_block_cache` that returns, and `put_block_cache`, `get_block_cache` and
`set_block_cache_size` do not change whether it is. -/
theorem set_block_cache_size_guard (c : CacheState) (n : Nat) (hn : n < 4294967296) :
    (c.init = true → set_block_cache_size c n = (-1, c)) ∧
    (c.init = false →
      set_block_cache_size c n = (0, { c with block_cache_max_items := n })) ∧
    (init_block_cache c).2.init = true ∧
    (init_block_cache c).2.block_cache_max_items = c.block_cache_max_items ∧
    (∀ r c1, close_block_cache c = .ok (r, c1) →
      c1.init = false ∧ c1.block_cache_max_items = c.block_cache_max_items) ∧
    (∀ F frm buf r c1, put_block_cache F c frm buf = .ok (r, c1) →
      c1.init = c.init ∧ c1.block_cache_max_items = c.block_cache_max_items) ∧
    (set_block_cache_size c n).2.init = c.init := by
  refine ⟨?_, ?_, rfl, rfl, ?_, ?_, ?_⟩
  · intro h
    simp [set_block_cache_size, h]
  · intro h
    simp [set_block_cache_size, h, Nat.mod_eq_of_lt hn]
  · intro r c1 h
    unfold close_block_cache at h
    repeat' split at h
    all_goals first
      | (cases h; exact ⟨rfl, rfl⟩)
      | cases h
  · intro F frm buf r c1 h
    unfold put_block_cache at h
    repeat' split at h
    all_goals first
      | (cases h; exact ⟨rfl, rfl⟩)
      | cases h
  · unfold set_block_cache_size
    split_ifs <;> rfl

/-- Witness of `set_block_cache_size_guard`: the cache at program start, asked
for 16 slots before and after `init_block_cache`. -/
theorem set_block_cache_size_guard_witness :
    set_block_cache_size CacheState.boot 16
      = (0, { CacheState.boot with block_cache_max_items := 16 }) ∧
    set_block_cache_size (init_block_cache CacheState.boot).2 16
      = (-1, (init_block_cache CacheState.boot).2) :=
  ⟨(set_block_cache_size_guard CacheState.boot 16 (by decide)).2.1 rfl,
   (set_block_cache_size_guard (init_block_cache CacheState.boot).2 16 (by decide)).1 rfl⟩

/-! ## Closed entries stay closed -/

theorem cstr_of_nonzero (path : List Nat) (h : ∀ b ∈ path, b ≠ 0) : cstr path = path := by
  unfold cstr
  rw [List.takeWhile_eq_self_iff]
  intro b hb
  simpa using h b hb

theorem cstr_append_zero (path rest : List Nat) (h : ∀ b ∈ path, b ≠ 0) :
    cstr (path ++ 0 :: rest) = path := by
  unfold cstr
  induction path with
  | nil => simp
  | cons a l ih =>
    have ha : a ≠ 0 := h a (by simp)
    have hl : ∀ b ∈ l, b ≠ 0 := fun b hb => h b (by simp [hb])
    have ih1 := ih hl
    simp only [List.cons_append, List.takeWhile_cons, ha, ne_eq, not_false_eq_true,
      decide_True, if_true, ih1]

theorem block_open_new {β : Type} (s : Driver β) (path : List Nat) (rnd : Nat)
    (heap : List Nat)
    (hnew : find_path path s.all_files = .ok none) (hlim : s.all_files.length < 1024)
    (hchar : ∀ b ∈ path, b ≠ 0) (hshort : path.length < 128) (hheap : heap.length = 128)
    (hused : s.num_frames_used < 65535) :
    ∃ f : file,
      block_open s path rnd heap
        = .ok (f.handle, { s with all_files := s.all_files ++ [f],
                                  num_frames_used := s.num_frames_used + 1 }) ∧
      cstr f.path = path ∧ f.path.length = 128 ∧ f.length = 0 ∧ f.seek_pos = 0 ∧
      f.status = Status.OPEN ∧ f.frames = [s.num_frames_used + 1] ∧
      s.num_frames_used + 1 ≠ 0 := by
  have hc := cstr_of_nonzero path hchar
  have hlim2 : ¬ s.all_files.length > 1024 := by omega
  have hlen : ¬ 128 < path.length + 1 := by omega
  have hpoke : poke heap 0 (path ++ [0])
      = .ok (List.take 0 heap ++ (path ++ [0]) ++ heap.drop (0 + (path ++ [0]).length)) := by
    unfold poke
    rw [if_pos (by simp only [List.length_append, List.length_singleton]; omega)]
  have hmod : (s.num_frames_used + 1) % 65536 = s.num_frames_used + 1 :=
    Nat.mod_eq_of_lt (by omega)
  refine ⟨⟨List.take 0 heap ++ (path ++ [0]) ++ heap.drop (0 + (path ++ [0]).length),
    toI16 ((rnd % 4294967296) / 65536), 0, Status.OPEN, 0, [s.num_frames_used + 1]⟩, ?_, ?_, ?_,
    rfl, rfl, rfl, rfl, by omega⟩
  · simp only [block_open, hnew, hlim2, if_false, hc, hlen, hpoke, hmod]
  · simp only [List.take_zero, List.nil_append, List.append_assoc, List.singleton_append]
    exact cstr_append_zero path _ hchar
  · simp only [List.take_zero, List.nil_append, List.length_append, List.length_singleton,
      List.length_drop, hheap]
    omega

/-- C12 amended (open of a new path). For a file table with fewer than 1024
entries none of whose paths is `path`, a string of fewer than 128 non-zero
bytes, and a frame counter below 65535: `block_open` returns the handle of a
new entry appended to the table, whose path array holds the string, with
length 0, cursor 0, status `OPEN` and the frame list `[num_frames_used + 1]`,
which is not frame 0; `num_frames_used` and, with it, the number of files grow
by one; the entries that were there, the cache, `temp_buf` and the device are
as before. -/
theorem block_open_appends {β : Type} (s : Driver β) (path : List Nat) (rnd : Nat)
    (heap : List Nat)
    (hnew : find_path path s.all_files = .ok none) (hlim : s.all_files.length < 1024)
    (hchar : ∀ b ∈ path, b ≠ 0) (hshort : path.length < 128) (hheap : heap.length = 128)
    (hused : s.num_frames_used < 65535) :
    ∃ (f : file) (s1 : Driver β),
      block_open s path rnd heap = .ok (f.handle, s1) ∧
      s1.all_files = s.all_files ++ [f] ∧ s1.all_files.length = s.all_files.length + 1 ∧
      (∀ (j : Nat) (g : file), s.all_files[j]? = some g → s1.all_files[j]? = some g) ∧
      s1.num_frames_used = s.num_frames_used + 1 ∧
      s1.cache = s.cache ∧ s1.temp_buf = s.temp_buf ∧ s1.bus = s.bus ∧
      cstr f.path = path ∧ f.length = 0 ∧ f.seek_pos = 0 ∧
      f.status = Status.OPEN ∧ f.frames = [s.num_frames_used + 1] ∧
      s.num_frames_used + 1 ≠ 0 := by
  obtain ⟨f, h1, h2, _, h4, h5, h6, h7, h8⟩ :=
    block_open_new s path rnd heap hnew hlim hchar hshort hheap hused
  refine ⟨f, _, h1, rfl, by simp, ?_, rfl, rfl, rfl, rfl, h2, h4, h5, h6, h7, h8⟩
  intro j g hj
  have hlt : j < s.all_files.length := by
    by_contra hcon
    rw [List.getElem?_eq_none (by omega)] at hj
    cases hj
  simp only [List.getElem?_append_left hlt, hj]

/-- Witness of `block_open_appends`: the path `b` opened on `fresh 1024`. -/
theorem block_open_appends_witness :
    ∃ (f : file) (s1 : Driver (List (Nat × List Nat))),
      block_open (fresh 1024) [98] 327680 (List.replicate 128 0) = .ok (f.handle, s1) ∧
      s1.all_files = (fresh 1024).all_files ++ [f] ∧ f.frames = [1 + 1] ∧
      s1.num_frames_used = 1 + 1 :=
  match block_open_appends (fresh 1024) [98] 327680 (List.replicate 128 0) (by decide!)
      (by decide) (by decide) (by decide) (by decide!) (by decide) with
  | ⟨f, s1, h1, h2, _, _, h5, _, _, _, _, _, _, _, h13, _⟩ => ⟨f, s1, h1, h2, h13, h5⟩

/-- C12, as stated, fails when the frame counter is used up: with
`num_frames_used = 65535` the new entry gets the frame list `[0]`, the frame of
the metadata, and the counter goes back to 0. -/
theorem block_open_wraps_to_frame_zero :
    exhausted.num_frames_used = 65535 ∧
    find_path [98] exhausted.all_files = .ok none ∧
    value_of (block_open exhausted [98] 327680 (List.replicate 128 0)) = some 5 ∧
    ((state_of (block_open exhausted [98] 327680 (List.replicate 128 0))
      exhausted).all_files.drop 1).map file.frames = [[0]] ∧
    (state_of (block_open exhausted [98] 327680 (List.replicate 128 0))
      exhausted).num_frames_used = 0 := by
  decide!

/-! ## Re-opening -/

/-- C13 (file-count limit), evaluated on a table of 1024 files: `block_open`
of a path that is not tracked returns a handle (5) and appends entry number
1025; only with 1025 files does it return -1. -/
theorem open_past_limit :
    at_limit.all_files.length = 1024 ∧
    find_path [98] at_limit.all_files = .ok none ∧
    value_of (block_open at_limit [98] 327680 (List.replicate 128 0)) = some 5 ∧
    (state_of (block_open at_limit [98] 327680 (List.replicate 128 0)) at_limit).all_files.length
      = 1025 ∧
    value_of (block_open (state_of (block_open at_limit [98] 327680 (List.replicate 128 0))
      at_limit) [99] 327680 (List.replicate 128 0)) = some (-1) := by
  decide!

/-- C15 (hard failures), evaluated on the device `scriptBus`.  A write whose
first response is 2 and whose retry is answered with 255 (return code -1):
`block_write` returns the count 1024 and advances the cursor, and
`block_poweroff` goes on to the power-off request and returns 0.  With -1 as
the first response both return -1. -/
theorem retried_write_ignores_hard_failure :
    rt_of 2 = 2 ∧ rt_of 255 = -1 ∧
    value_of (block_write (scriptEnv 1024) 3 (freshOn 1024 [2, 255]) 7
      (List.replicate 1024 170) 1024) = some 1024 ∧
    (state_of (block_write (scriptEnv 1024) 3 (freshOn 1024 [2, 255]) 7
      (List.replicate 1024 170) 1024) (freshOn 1024 [2, 255])).all_files.map file.seek_pos
      = [1024] ∧
    value_of (block_poweroff (scriptEnv 1024) 3 (closing [2, 255, 0])) = some 0 ∧
    value_of (block_write (scriptEnv 1024) 3 (freshOn 1024 [255]) 7
      (List.replicate 1024 170) 1024) = some (-1) ∧
    value_of (block_poweroff (scriptEnv 1024) 3 (closing [255])) = some (-1) := by
  decide!

/-- C19 (least recently used), evaluated on a cache of three slots.  After the
puts of the frames 1, 2, 3, 1, 2 the frames 1, 2, 3 are resident and frame 3 is
the one whose last put is the oldest; the put of frame 4 evicts frame 1, where
the reference model evicts frame 3. -/
theorem eviction_is_not_lru :
    residents (puts 1024 (empty_cache 3) five_puts) = some [1, 2, 3] ∧
    lru_puts 3 [] (five_puts.map Prod.fst) = [3, 1, 2] ∧
    residents (puts 1024 (empty_cache 3) (five_puts ++ [(4, List.replicate 1024 4)]))
      = some [4, 2, 3] ∧
    lru_puts 3 [] (five_puts.map Prod.fst ++ [4]) = [1, 2, 4] := by
  decide!

/-! ## The cache: what a put does -/

theorem memcpy_full (dst src : List Nat) (F : Nat) (hd : dst.length = F) (hs : src.length = F) :
    memcpy dst 0 src 0 F = .ok src := by
  have hp : peek src 0 F = .ok src := by
    unfold peek
    rw [if_pos (by omega)]
    simp [← hs]
  unfold memcpy
  rw [hp]
  simp only [poke]
  rw [if_pos (by omega)]
  have h0 : dst.drop (0 + src.length) = [] := by
    apply List.drop_eq_nil_of_le
    omega
  rw [h0]
  simp

theorem peek_full (src : List Nat) (F : Nat) (hs : src.length = F) : peek src 0 F = .ok src := by
  unfold peek
  rw [if_pos (by omega)]
  simp [← hs]

theorem get_scan_aged (K : Nat) (l : List cache_frame) :
    get_scan K (l.map aged) = get_scan K l := by
  induction l with
  | nil => rfl
  | cons e l ih => simp only [List.map_cons, get_scan, aged, ih]

theorem keys_aged (l : List cache_frame) : keys (l.map aged) = keys l := by
  simp [keys, aged, Function.comp_def]

theorem get_scan_none (K : Nat) (l : List cache_frame) (h : K ∉ keys l) :
    get_scan K l = none := by
  induction l with
  | nil => rfl
  | cons e l ih =>
    simp only [keys, List.map_cons, List.mem_cons, not_or] at h
    have h1 : ¬ e.frame_number = K := fun hc => h.1 hc.symm
    simp only [get_scan, h1, if_false]
    exact ih h.2

theorem get_scan_some_mem (K : Nat) (l : List cache_frame) (d : List Nat)
    (h : get_scan K l = some d) : ∃ e ∈ l, e.frame_number = K ∧ e.frame = d := by
  induction l with
  | nil => simp [get_scan] at h
  | cons a l ih =>
    unfold get_scan at h
    split_ifs at h with hc
    · cases h
      exact ⟨a, by simp, hc, rfl⟩
    · obtain ⟨e, he, h1, h2⟩ := ih h
      exact ⟨e, by simp [he], h1, h2⟩

theorem get_scan_of_mem (l : List cache_frame) (hnd : (keys l).Nodup) (e : cache_frame)
    (he : e ∈ l) : get_scan e.frame_number l = some e.frame := by
  induction l with
  | nil => simp at he
  | cons a l ih =>
    simp only [keys, List.map_cons, List.nodup_cons] at hnd
    simp only [List.mem_cons] at he
    unfold get_scan
    by_cases hc : a.frame_number = e.frame_number
    · rcases he with he | he
      · rw [he]; simp
      · exfalso
        apply hnd.1
        rw [hc]
        exact List.mem_map_of_mem _ he
    · rcases he with he | he
      · rw [he] at hc; exact absurd rfl hc
      · simp only [hc, if_false]
        exact ih hnd.2 he

theorem put_scan_miss (F frm : Nat) (buf : List Nat) :
    ∀ (l : List cache_frame) (i lru lri : Nat), frm ∉ keys l →
      put_scan F frm buf l i lru lri
        = .ok (.miss (l.map aged) (scan_lru l i lru lri).1 (scan_lru l i lru lri).2) := by
  intro l
  induction l with
  | nil => intro i lru lri _; rfl
  | cons e l ih =>
    intro i lru lri h
    simp only [keys, List.map_cons, List.mem_cons, not_or] at h
    have h1 : ¬ e.frame_number = frm := fun hc => h.1 hc.symm
    unfold put_scan
    simp only [h1, if_false]
    rw [ih _ _ _ h.2]
    simp only [List.map_cons, aged, scan_lru]
    split_ifs <;> rfl

theorem put_scan_hit (frm : Nat) (buf : List Nat) :
    ∀ (l : List cache_frame) (i lru lri : Nat), (∀ e ∈ l, e.frame.length = buf.length) →
      frm ∈ keys l →
      ∃ c1, put_scan buf.length frm buf l i lru lri = .ok (.hit c1) ∧ keys c1 = keys l ∧
        (∀ e ∈ c1, e.frame.length = buf.length) ∧ get_scan frm c1 = some buf ∧
        ∀ K, K ≠ frm → get_scan K c1 = get_scan K l := by
  intro l
  induction l with
  | nil => intro i lru lri _ h; simp [keys] at h
  | cons e l ih =>
    intro i lru lri hfr h
    have he : e.frame.length = buf.length := hfr e (by simp)
    have hl : ∀ x ∈ l, x.frame.length = buf.length := fun x hx => hfr x (by simp [hx])
    unfold put_scan
    by_cases hc : e.frame_number = frm
    · subst hc
      simp only [if_true, memcpy_full e.frame buf _ he rfl]
      refine ⟨_, rfl, by simp [keys], ?_, by simp [get_scan], ?_⟩
      · intro x hx
        simp only [List.mem_cons] at hx
        rcases hx with hx | hx
        · rw [hx]
        · exact hl x hx
      · intro K hK
        have hne : ¬ e.frame_number = K := fun h => hK h.symm
        simp only [get_scan, hne, if_false]
    · have hin : frm ∈ keys l := by
        simp only [keys, List.map_cons, List.mem_cons] at h
        rcases h with h | h
        · exact absurd h.symm hc
        · exact h
      obtain ⟨c1, h1, h2, h3, h4, h5⟩ := ih (i + 1)
        (if (e.calls_since_use + 1) % 65536 > lru then (e.calls_since_use + 1) % 65536 else lru)
        (if (e.calls_since_use + 1) % 65536 > lru then i % 65536 else lri) hl hin
      simp only [hc, if_false, h1]
      refine ⟨_, rfl, ?_, ?_, ?_, ?_⟩
      · simp only [keys, List.map_cons] at h2 ⊢
        rw [h2]
      · intro x hx
        simp only [List.mem_cons] at hx
        rcases hx with hx | hx
        · rw [hx]; exact he
        · exact h3 x hx
      · simp only [get_scan, hc, if_false, h4]
      · intro K hK
        simp only [get_scan, h5 K hK]

theorem scan_lru_index (l : List cache_frame) :
    ∀ (i lru lri : Nat), (scan_lru l i lru lri).2 = lri ∨ (scan_lru l i lru lri).2 < i + l.length := by
  induction l with
  | nil => intro i lru lri; exact Or.inl rfl
  | cons e l ih =>
    intro i lru lri
    unfold scan_lru
    simp only [List.length_cons]
    split_ifs with h
    · rcases ih (i + 1) ((e.calls_since_use + 1) % 65536) (i % 65536) with h1 | h1
      · right
        rw [h1]
        have := Nat.mod_le i 65536
        omega
      · right; omega
    · rcases ih (i + 1) lru lri with h1 | h1
      · left; exact h1
      · right; omega

theorem get_scan_append_new (K : Nat) (e : cache_frame) :
    ∀ (l : List cache_frame), K ∉ keys l → get_scan K (l ++ [e]) = get_scan K [e] := by
  intro l
  induction l with
  | nil => intro _; rfl
  | cons a l ih =>
    intro h
    simp only [keys, List.map_cons, List.mem_cons, not_or] at h
    have h1 : ¬ a.frame_number = K := fun hc => h.1 hc.symm
    simp only [List.cons_append, get_scan, h1, if_false]
    exact ih h.2

theorem get_scan_append_other (K : Nat) (e : cache_frame) (hK : K ≠ e.frame_number) :
    ∀ (l : List cache_frame), get_scan K (l ++ [e]) = get_scan K l := by
  intro l
  have hne : ¬ e.frame_number = K := fun h => hK h.symm
  induction l with
  | nil => simp only [List.nil_append, get_scan, hne, if_false]
  | cons a l ih =>
    rw [List.cons_append]
    unfold get_scan
    rw [ih]

theorem get_scan_set_new (e : cache_frame) :
    ∀ (l : List cache_frame) (idx : Nat), idx < l.length → e.frame_number ∉ keys l →
      get_scan e.frame_number (l.set idx e) = some e.frame := by
  intro l
  induction l with
  | nil => intro idx h _; simp at h
  | cons a l ih =>
    intro idx h hk
    simp only [keys, List.map_cons, List.mem_cons, not_or] at hk
    have h1 : ¬ a.frame_number = e.frame_number := fun hc => hk.1 hc.symm
    cases idx with
    | zero => simp [get_scan]
    | succ n =>
      simp only [List.set_cons_succ, get_scan, h1, if_false]
      exact ih n (by simpa using h) hk.2

theorem keys_set (l : List cache_frame) (idx : Nat) (e : cache_frame) :
    keys (l.set idx e) = (keys l).set idx e.frame_number := by
  simp [keys, List.map_set]

theorem get_scan_set_other (K : Nat) (e : cache_frame) (hK : K ≠ e.frame_number)
    (l : List cache_frame) (idx : Nat) (hnd : (keys l).Nodup) (d : List Nat)
    (h : get_scan K (l.set idx e) = some d) : get_scan K l = some d := by
  obtain ⟨x, hx, h1, h2⟩ := get_scan_some_mem K _ d h
  rcases List.mem_or_eq_of_mem_set hx with hx | hx
  · have := get_scan_of_mem l hnd x hx
    rw [h1, h2] at this
    exact this
  · rw [hx] at h1
    exact absurd h1.symm hK

theorem length_aged (l : List cache_frame) (F : Nat) (h : ∀ e ∈ l, e.frame.length = F) :
    ∀ e ∈ l.map aged, e.frame.length = F := by
  intro e he
  simp only [List.mem_map] at he
  obtain ⟨a, ha, rfl⟩ := he
  exact h a ha

/-- What a put does to a cache in working order: it returns 0, the frame put is
then found with the bytes put, and every other frame still found holds the
bytes it held before. -/
theorem put_block_cache_spec (F : Nat) (c : CacheState) (frm : Nat) (buf : List Nat)
    (hwf : c.wf F) (hfrm : frm < 65536) (hbuf : buf.length = F) :
    ∃ c1, put_block_cache F c frm buf = .ok (0, c1) ∧ c1.wf F ∧
      c1.block_cache_max_items = c.block_cache_max_items ∧
      get_scan frm c1.cache = some buf ∧
      ∀ K d, K ≠ frm → get_scan K c1.cache = some d → get_scan K c.cache = some d := by
  obtain ⟨hinit, hcap, hfr, hnd⟩ := hwf
  subst hbuf
  have hmod : frm % 65536 = frm := Nat.mod_eq_of_lt hfrm
  unfold put_block_cache
  rw [if_neg (by simp [hinit])]
  by_cases hin : frm ∈ keys c.cache
  · obtain ⟨l1, h1, h2, h3, h4, h5⟩ := put_scan_hit frm buf c.cache 0 0 0 hfr hin
    simp only [h1]
    refine ⟨_, rfl, ⟨hinit, hcap, h3, ?_⟩, rfl, h4, ?_⟩
    · simp only [h2]; exact hnd
    · intro K d hK hd
      rw [← h5 K hK]
      exact hd
  · simp only [put_scan_miss _ frm buf c.cache 0 0 0 hin]
    by_cases hroom : (c.cache.map aged).length < c.block_cache_max_items
    · simp only [hroom, if_true, peek_full buf _ rfl, hmod]
      refine ⟨_, rfl, ⟨hinit, hcap, ?_, ?_⟩, rfl, ?_, ?_⟩
      · intro e he
        simp only [List.mem_append, List.mem_singleton] at he
        rcases he with he | he
        · exact length_aged _ _ hfr e he
        · rw [he]
      · simp only [keys, List.map_append, List.map_cons, List.map_nil]
        have hk : List.map cache_frame.frame_number (c.cache.map aged) = keys c.cache :=
          keys_aged c.cache
        rw [hk]
        apply List.Nodup.append hnd (List.nodup_singleton _)
        intro x hx hx1
        simp only [List.mem_singleton] at hx1
        rw [hx1] at hx
        exact hin hx
      · rw [get_scan_append_new frm _ _ (by rw [keys_aged]; exact hin)]
        simp [get_scan]
      · intro K d hK hd
        rw [get_scan_append_other K _ hK, get_scan_aged] at hd
        exact hd
    · have hidx : (scan_lru c.cache 0 0 0).2 < (c.cache.map aged).length := by
        have hlen : 1 ≤ (c.cache.map aged).length := by omega
        rw [List.length_map] at hlen ⊢
        rcases scan_lru_index c.cache 0 0 0 with h | h
        · rw [h]; omega
        · omega
      have hfl : ((c.cache.map aged).get ⟨(scan_lru c.cache 0 0 0).2, hidx⟩).frame.length
          = buf.length :=
        length_aged _ _ hfr _ (List.get_mem _ _ _)
      simp only [hroom, if_false, hidx, dite_true, memcpy_full _ buf _ hfl rfl, hmod]
      refine ⟨_, rfl, ⟨hinit, hcap, ?_, ?_⟩, rfl, ?_, ?_⟩
      · intro e he
        rcases List.mem_or_eq_of_mem_set he with he | he
        · exact length_aged _ _ hfr e he
        · rw [he]
      · rw [keys_set, keys_aged]
        exact List.Nodup.set hnd hin
      · exact get_scan_set_new ⟨frm, 0, buf⟩ _ _ hidx (by rw [keys_aged]; exact hin)
      · intro K d hK hd
        have := get_scan_set_other K ⟨frm, 0, buf⟩ hK _ _ (by rw [keys_aged]; exact hnd) d hd
        rw [get_scan_aged] at this
        exact this

theorem puts_wf (F : Nat) : ∀ (ps : List (Nat × List Nat)) (c : CacheState), c.wf F →
    (∀ p ∈ ps, p.1 < 65536 ∧ p.2.length = F) →
    ∃ c1, puts F c ps = .ok c1 ∧ c1.wf F ∧
      c1.block_cache_max_items = c.block_cache_max_items := by
  intro ps
  induction ps with
  | nil => intro c hwf _; exact ⟨c, rfl, hwf, rfl⟩
  | cons p ps ih =>
    intro c hwf hps
    obtain ⟨frm, buf⟩ := p
    have hp := hps (frm, buf) (by simp)
    obtain ⟨c1, h1, h2, h3, _, _⟩ := put_block_cache_spec F c frm buf hwf hp.1 hp.2
    obtain ⟨c2, h4, h5, h6⟩ := ih c1 h2 (fun q hq => hps q (by simp [hq]))
    refine ⟨c2, ?_, h5, by rw [h6, h3]⟩
    simp only [puts, h1]
    exact h4

theorem empty_cache_wf (F capacity : Nat) (h : 1 ≤ capacity) : (empty_cache capacity).wf F :=
  ⟨rfl, h, by simp [empty_cache], by simp [empty_cache, keys]⟩

theorem get_block_cache_of_scan (c : CacheState) (K : Nat) (d : List Nat)
    (hinit : c.init = true) (h : get_scan K c.cache = some d) :
    get_block_cache c K = .ok (some d) := by
  unfold get_block_cache
  have hne : c.cache ≠ [] := by
    intro hc
    rw [hc] at h
    simp [get_scan] at h
  simp only [hne, if_false, hinit, if_true, h]

/-- C17 (get after put). Frame numbers are 16-bit values, as the field
`frame_number` and the frame field of the register are, and buffers hold `F`
bytes.  Whatever puts a cache of at least one slot has taken since
`init_block_cache`, the puts return, and a further put of any frame number with
any buffer returns 0, after which `get_block_cache` of that frame number
returns a frame that holds the bytes of the buffer. -/
theorem get_after_put (F capacity : Nat) (ps : List (Nat × List Nat))
    (hcap : 1 ≤ capacity) (hps : ∀ p ∈ ps, p.1 < 65536 ∧ p.2.length = F) :
    ∃ c, puts F (init_block_cache ⟨capacity, false, []⟩).2 ps = .ok c ∧
      ∀ frm buf, frm < 65536 → buf.length = F →
        ∃ c1, put_block_cache F c frm buf = .ok (0, c1) ∧
          get_block_cache c1 frm = .ok (some buf) := by
  obtain ⟨c, h1, h2, _⟩ := puts_wf F ps (empty_cache capacity) (empty_cache_wf F capacity hcap) hps
  refine ⟨c, h1, ?_⟩
  intro frm buf hfrm hbuf
  obtain ⟨c1, h3, h4, _, h5, _⟩ := put_block_cache_spec F c frm buf h2 hfrm hbuf
  exact ⟨c1, h3, get_block_cache_of_scan c1 frm buf h4.1 h5⟩

/-- Witness of `get_after_put`: a cache of two slots after four puts, one of
them a second put of frame 1. -/
theorem get_after_put_witness :
    ∃ c, puts 4 (init_block_cache ⟨2, false, []⟩).2 [(1, [1, 1, 1, 1]), (2, [2, 2, 2, 2]),
        (3, [3, 3, 3, 3]), (1, [4, 4, 4, 4])] = .ok c ∧
      ∀ frm buf, frm < 65536 → buf.length = 4 →
        ∃ c1, put_block_cache 4 c frm buf = .ok (0, c1) ∧
          get_block_cache c1 frm = .ok (some buf) :=
  get_after_put 4 2 _ (by decide) (by decide)

/-! ## The cache: filling it and the first eviction -/

theorem stack_length (ps : List (Nat × List Nat)) : (stack ps).length = ps.length := by
  induction ps with
  | nil => rfl
  | cons p ps ih => simp [stack, ih]

theorem keys_stack (ps : List (Nat × List Nat)) : keys (stack ps) = ps.map Prod.fst := by
  induction ps with
  | nil => rfl
  | cons p ps ih =>
    simp only [keys] at ih
    simp [stack, keys, ih]

theorem stack_age (ps : List (Nat × List Nat)) :
    ∀ e ∈ stack ps, e.calls_since_use < ps.length := by
  induction ps with
  | nil => intro e he; simp [stack] at he
  | cons p ps ih =>
    intro e he
    simp only [stack, List.mem_cons] at he
    rcases he with he | he
    · rw [he]; simp
    · have := ih e he
      simp only [List.length_cons]
      omega

theorem stack_frame (ps : List (Nat × List Nat)) (F : Nat) (h : ∀ p ∈ ps, p.2.length = F) :
    ∀ e ∈ stack ps, e.frame.length = F := by
  induction ps with
  | nil => intro e he; simp [stack] at he
  | cons p ps ih =>
    intro e he
    simp only [stack, List.mem_cons] at he
    rcases he with he | he
    · rw [he]; exact h p (by simp)
    · exact ih (fun q hq => h q (by simp [hq])) e he

theorem stack_mem (ps : List (Nat × List Nat)) (p : Nat × List Nat) (hp : p ∈ ps) :
    ∃ e ∈ stack ps, e.frame_number = p.1 ∧ e.frame = p.2 := by
  induction ps with
  | nil => simp at hp
  | cons q ps ih =>
    simp only [List.mem_cons] at hp
    rcases hp with hp | hp
    · subst hp
      exact ⟨⟨p.1, ps.length, p.2⟩, by simp [stack], rfl, rfl⟩
    · obtain ⟨e, he, h1, h2⟩ := ih hp
      exact ⟨e, by simp [stack, he], h1, h2⟩

theorem stack_append (ps : List (Nat × List Nat)) (q : Nat × List Nat)
    (h : ps.length < 65536) :
    stack (ps ++ [q]) = (stack ps).map aged ++ [⟨q.1, 0, q.2⟩] := by
  induction ps with
  | nil => rfl
  | cons p ps ih =>
    simp only [List.length_cons] at h
    have hm : (ps.length + 1) % 65536 = ps.length + 1 := Nat.mod_eq_of_lt h
    have h1 := ih (by omega)
    rw [List.cons_append]
    show (⟨p.1, (ps ++ [q]).length, p.2⟩ : cache_frame) :: stack (ps ++ [q]) = _
    rw [h1]
    simp [stack, aged, hm]

theorem get_scan_stack (ps : List (Nat × List Nat)) (hnd : (ps.map Prod.fst).Nodup)
    (p : Nat × List Nat) (hp : p ∈ ps) : get_scan p.1 (stack ps) = some p.2 := by
  obtain ⟨e, he, h1, h2⟩ := stack_mem ps p hp
  have := get_scan_of_mem (stack ps) (by rw [keys_stack]; exact hnd) e he
  rw [h1, h2] at this
  exact this

theorem scan_lru_keep (l : List cache_frame) :
    ∀ (i lru lri : Nat), (∀ e ∈ l, (e.calls_since_use + 1) % 65536 ≤ lru) →
      scan_lru l i lru lri = (lru, lri) := by
  induction l with
  | nil => intro i lru lri _; rfl
  | cons e l ih =>
    intro i lru lri h
    have he := h e (by simp)
    unfold scan_lru
    rw [if_neg (by omega)]
    exact ih _ _ _ (fun x hx => h x (by simp [hx]))

theorem scan_lru_stack (ps : List (Nat × List Nat)) (h : ps.length < 65536) :
    (scan_lru (stack ps) 0 0 0).2 = 0 := by
  cases ps with
  | nil => rfl
  | cons p ps =>
    simp only [List.length_cons] at h
    have hm : (ps.length + 1) % 65536 = ps.length + 1 := Nat.mod_eq_of_lt h
    simp only [stack, scan_lru, hm]
    rw [if_pos (by omega)]
    rw [scan_lru_keep]
    intro e he
    have := stack_age ps e he
    rw [Nat.mod_eq_of_lt (by omega)]
    omega

/-- Puts of pairwise different frames into a cache with room for them fill
the slots in the order of the puts. -/
theorem puts_fill (F capacity : Nat) : ∀ (rest pre : List (Nat × List Nat)),
    (pre ++ rest).length ≤ capacity → (pre ++ rest).length ≤ 65536 →
    ((pre ++ rest).map Prod.fst).Nodup →
    (∀ p ∈ rest, p.1 < 65536 ∧ p.2.length = F) →
    puts F ⟨capacity, true, stack pre⟩ rest = .ok ⟨capacity, true, stack (pre ++ rest)⟩ := by
  intro rest
  induction rest with
  | nil => intro pre _ _ _ _; simp [puts]
  | cons q rest ih =>
    intro pre hcap h16 hnd hps
    obtain ⟨frm, buf⟩ := q
    have hq := hps (frm, buf) (by simp)
    simp only [List.length_append, List.length_cons] at hcap h16
    have hnew : frm ∉ keys (stack pre) := by
      rw [keys_stack]
      simp only [List.map_append, List.map_cons] at hnd
      have := (List.nodup_append.mp hnd).2.2
      intro hin
      exact this hin (by simp)
    have hput : put_block_cache F ⟨capacity, true, stack pre⟩ frm buf
        = .ok (0, ⟨capacity, true, stack (pre ++ [(frm, buf)])⟩) := by
      unfold put_block_cache
      simp only [put_scan_miss _ frm buf (stack pre) 0 0 0 hnew]
      have hroom : ((stack pre).map aged).length < capacity := by
        rw [List.length_map, stack_length]; omega
      simp only [hroom, if_true, peek_full buf F hq.2, Nat.mod_eq_of_lt hq.1]
      rw [stack_append pre (frm, buf) (by omega)]
      rfl
    simp only [puts, hput]
    have := ih (pre ++ [(frm, buf)]) (by simp; omega) (by simp; omega) (by simpa using hnd)
      (fun p hp => hps p (by simp [hp]))
    simpa using this

theorem puts_append (F : Nat) (b : List (Nat × List Nat)) :
    ∀ (a : List (Nat × List Nat)) (c c1 : CacheState), puts F c a = .ok c1 →
      puts F c (a ++ b) = puts F c1 b := by
  intro a
  induction a with
  | nil => intro c c1 h; simp only [puts] at h; cases h; rfl
  | cons p a ih =>
    intro c c1 h
    obtain ⟨frm, buf⟩ := p
    simp only [List.cons_append, puts] at h ⊢
    cases hp : put_block_cache F c frm buf with
    | error e => rw [hp] at h; cases h
    | ok r =>
      rw [hp] at h
      exact ih _ _ h

theorem nodup_length_le (l : List Nat) (n : Nat) (hnd : l.Nodup) (h : ∀ x ∈ l, x < n) :
    l.length ≤ n := by
  have hs : l ⊆ List.range n := fun x hx => List.mem_range.mpr (h x hx)
  have := (List.Nodup.subperm hnd hs).length_le
  simpa using this

/-- The put that finds a cache filled by puts of pairwise different frames
overwrites slot 0. -/
theorem put_evicts_first (F : Nat) (p : Nat × List Nat) (pre : List (Nat × List Nat))
    (frm : Nat) (buf : List Nat) (h16 : pre.length + 1 < 65536)
    (hpre : ∀ x ∈ p :: pre, x.2.length = F)
    (hnew : frm ∉ (p :: pre).map Prod.fst) (hfrm : frm < 65536) (hbuf : buf.length = F) :
    put_block_cache F ⟨pre.length + 1, true, stack (p :: pre)⟩ frm buf
      = .ok (0, ⟨pre.length + 1, true, ⟨frm, 0, buf⟩ :: (stack pre).map aged⟩) := by
  have hk : frm ∉ keys (stack (p :: pre)) := by rw [keys_stack]; exact hnew
  have hidx : (scan_lru (stack (p :: pre)) 0 0 0).2 = 0 :=
    scan_lru_stack (p :: pre) (by simp; omega)
  unfold put_block_cache
  simp only [put_scan_miss _ frm buf (stack (p :: pre)) 0 0 0 hk, hidx]
  have hroom : ¬ ((stack (p :: pre)).map aged).length < pre.length + 1 := by
    rw [List.length_map, stack_length]; simp
  have h0 : 0 < ((stack (p :: pre)).map aged).length := by
    rw [List.length_map, stack_length]; simp
  have hfl : (((stack (p :: pre)).map aged).get ⟨0, h0⟩).frame.length = F :=
    length_aged _ _ (stack_frame _ F hpre) _ (List.get_mem _ _ _)
  simp only [hroom, if_false, h0, dite_true, memcpy_full _ buf F hfl hbuf,
    Nat.mod_eq_of_lt hfrm]
  rfl

/-- C18 (eviction). In a freshly initialized cache of `capacity` slots, at
least one, the puts of `capacity + 1` pairwise different 16-bit frame numbers
with buffers of `F` bytes return and overwrite the first frame put and no
other: `get_block_cache` of the first frame number returns `NULL`, and of every
later one it returns the bytes put with it. -/
theorem eviction_of_oldest (F capacity : Nat) (ps : List (Nat × List Nat))
    (hcap : 1 ≤ capacity) (hlen : ps.length = capacity + 1)
    (hnd : (ps.map Prod.fst).Nodup)
    (hps : ∀ p ∈ ps, p.1 < 65536 ∧ p.2.length = F) :
    ∃ c, puts F (init_block_cache ⟨capacity, false, []⟩).2 ps = .ok c ∧
      (∀ p, ps[0]? = some p → get_block_cache c p.1 = .ok none) ∧
      (∀ (i : Nat) (p : Nat × List Nat), 1 ≤ i → ps[i]? = some p →
        get_block_cache c p.1 = .ok (some p.2)) := by
  have h16 : ps.length ≤ 65536 := by
    have := nodup_length_le (ps.map Prod.fst) 65536 hnd (by
      intro x hx
      simp only [List.mem_map] at hx
      obtain ⟨p, hp, rfl⟩ := hx
      exact (hps p hp).1)
    simpa using this
  rcases List.eq_nil_or_concat ps with h | ⟨pre, q, h⟩
  · rw [h] at hlen; simp at hlen
  rw [List.concat_eq_append] at h
  subst h
  obtain ⟨frm, buf⟩ := q
  simp only [List.length_append, List.length_singleton] at hlen h16
  cases pre with
  | nil => simp only [List.length_nil] at hlen; omega
  | cons p pre =>
    simp only [List.length_cons] at hlen h16
    have hc : capacity = pre.length + 1 := by omega
    subst hc
    have hq := hps (frm, buf) (by simp)
    simp only [List.map_append, List.map_cons, List.map_nil] at hnd
    have hnd1 := List.nodup_append.mp hnd
    have hnew : frm ∉ (p :: pre).map Prod.fst := by
      intro hin
      exact hnd1.2.2 (by simpa using hin) (by simp)
    have hfill := puts_fill F (pre.length + 1) (p :: pre) [] (by simp) (by simp; omega)
      (by simpa using hnd1.1) (fun x hx => hps x (by simp at hx ⊢; tauto))
    have hrun : puts F (init_block_cache ⟨pre.length + 1, false, []⟩).2 (p :: pre ++ [(frm, buf)])
        = .ok ⟨pre.length + 1, true, ⟨frm, 0, buf⟩ :: (stack pre).map aged⟩ := by
      have h1 := puts_append F [(frm, buf)] (p :: pre) ⟨pre.length + 1, true, stack []⟩ _ hfill
      have h2 := put_evicts_first F p pre frm buf (by omega)
        (fun x hx => (hps x (by simp at hx ⊢; tauto)).2) hnew hq.1 hq.2
      simp only [List.nil_append] at h1
      simp only [puts, h2] at h1
      exact h1
    refine ⟨_, hrun, ?_, ?_⟩
    · intro x hx
      simp only [List.cons_append, List.getElem?_cons_zero, Option.some.injEq] at hx
      subst hx
      have hne : ¬ frm = p.1 := by
        intro hc
        apply hnew
        rw [hc]
        simp
      have hp : p.1 ∉ keys (stack pre) := by
        rw [keys_stack]
        have := hnd1.1
        simp only [List.map_cons, List.nodup_cons] at this
        exact this.1
      simp only [get_block_cache, get_scan, hne, if_false, get_scan_aged, get_scan_none _ _ hp]
      simp
    · intro i x hi hx
      obtain ⟨j, rfl⟩ : ∃ j, i = j + 1 := ⟨i - 1, by omega⟩
      simp only [List.cons_append, List.getElem?_cons_succ] at hx
      have hmem : x ∈ pre ++ [(frm, buf)] := List.getElem?_mem hx
      simp only [List.mem_append, List.mem_singleton] at hmem
      apply get_block_cache_of_scan _ _ _ rfl
      rcases hmem with hm | hm
      · have hne : ¬ frm = x.1 := by
          intro hc
          apply hnew
          rw [hc]
          exact List.mem_map_of_mem _ (by simp [hm])
        have hndp : (pre.map Prod.fst).Nodup := by
          have := hnd1.1
          simp only [List.map_cons, List.nodup_cons] at this
          exact this.2
        simp only [get_scan, hne, if_false, get_scan_aged]
        exact get_scan_stack pre hndp x hm
      · subst hm
        simp [get_scan]

/-- Witness of `eviction_of_oldest`: three frames put into a cache of two
slots. -/
theorem eviction_of_oldest_witness :
    ∃ c, puts 4 (init_block_cache ⟨2, false, []⟩).2
        [(7, [1, 1, 1, 1]), (8, [2, 2, 2, 2]), (9, [3, 3, 3, 3])] = .ok c ∧
      (∀ p, [(7, [1, 1, 1, 1]), (8, [2, 2, 2, 2]), (9, [3, 3, 3, 3])][0]? = some p →
        get_block_cache c p.1 = .ok none) ∧
      (∀ (i : Nat) (p : Nat × List Nat), 1 ≤ i →
        [(7, [1, 1, 1, 1]), (8, [2, 2, 2, 2]), (9, [3, 3, 3, 3])][i]? = some p →
        get_block_cache c p.1 = .ok (some p.2)) :=
  eviction_of_oldest 4 2 _ (by decide) (by decide) (by decide) (by decide)

/-! ## Write-through: the cache and the recorded bus traffic -/

theorem log_read {β : Type} (E : Env β)
    (hop : E.BLOCK_OP_RDFRME % 256 ≠ E.BLOCK_OP_WRFRME % 256)
    (cur cs rt K : Nat) (x : List Nat) (log : List (Nat × List Nat)) :
    last_write E K ((generate_register E.BLOCK_OP_RDFRME cur cs rt, x) :: log)
      = last_write E K log := by
  have h : is_write E.BLOCK_OP_WRFRME K (generate_register E.BLOCK_OP_RDFRME cur cs rt, x)
      = false := by
    simp only [is_write, generate_register_op, decide_eq_false_iff_not, not_and]
    intro hc
    exact absurd hc hop
  simp only [last_write, List.find?_cons, h]

theorem log_write {β : Type} (E : Env β) (cur cs rt K : Nat) (x : List Nat)
    (log : List (Nat × List Nat)) :
    last_write E K ((generate_register E.BLOCK_OP_WRFRME cur cs rt, x) :: log)
      = if cur % 65536 = K then some x else last_write E K log := by
  by_cases hK : cur % 65536 = K
  · have h : is_write E.BLOCK_OP_WRFRME K (generate_register E.BLOCK_OP_WRFRME cur cs rt, x)
        = true := by
      simp only [is_write, generate_register_op, generate_register_frame, hK, and_self,
        decide_True]
    simp only [last_write, List.find?_cons, h, hK, if_true, Option.map_some']
  · have h : is_write E.BLOCK_OP_WRFRME K (generate_register E.BLOCK_OP_WRFRME cur cs rt, x)
        = false := by
      simp only [is_write, generate_register_op, generate_register_frame,
        decide_eq_false_iff_not, not_and]
      intro _
      exact hK
    simp only [last_write, List.find?_cons, h, hK, if_false]

theorem read_retry_log {β : Type} (E : Env β)
    (hop : E.BLOCK_OP_RDFRME % 256 ≠ E.BLOCK_OP_WRFRME % 256)
    (hbus : ∀ b reg x, x.length = E.BLOCK_FRAME_SIZE →
      (E.block_io_bus b reg x).buf.length = E.BLOCK_FRAME_SIZE)
    (cur ck : Nat) : ∀ (fuel : Nat) (buf : List Nat) (bus : β × List (Nat × List Nat))
      (b : List Nat) (bus1 : β × List (Nat × List Nat)),
      buf.length = E.BLOCK_FRAME_SIZE →
      read_retry (recordEnv E) cur ck fuel buf bus = .ok (.done b bus1) →
      b.length = E.BLOCK_FRAME_SIZE ∧ ∀ K, last_write E K bus1.2 = last_write E K bus.2 := by
  intro fuel
  induction fuel with
  | zero =>
    intro buf bus b bus1 hlen h
    unfold read_retry at h
    split_ifs at h with hc
    cases h
    exact ⟨hlen, fun _ => rfl⟩
  | succ n ih =>
    intro buf bus b bus1 hlen h
    unfold read_retry at h
    split_ifs at h with hc
    · cases h
      exact ⟨hlen, fun _ => rfl⟩
    · simp only at h
      split_ifs at h with hr
      · cases h
      obtain ⟨h1, h2⟩ := ih _ _ _ _ (hbus _ _ _ hlen) h
      refine ⟨h1, fun K => ?_⟩
      rw [h2 K]
      exact log_read E hop cur 0 0 K buf bus.2

theorem read_frame_log {β : Type} (E : Env β)
    (hop : E.BLOCK_OP_RDFRME % 256 ≠ E.BLOCK_OP_WRFRME % 256)
    (hbus : ∀ b reg x, x.length = E.BLOCK_FRAME_SIZE →
      (E.block_io_bus b reg x).buf.length = E.BLOCK_FRAME_SIZE)
    (fuel cur : Nat) (tb : List Nat) (bus : β × List (Nat × List Nat))
    (b : List Nat) (bus1 : β × List (Nat × List Nat))
    (hlen : tb.length = E.BLOCK_FRAME_SIZE)
    (h : read_frame (recordEnv E) fuel cur tb bus = .ok (.done b bus1)) :
    b.length = E.BLOCK_FRAME_SIZE ∧ ∀ K, last_write E K bus1.2 = last_write E K bus.2 := by
  unfold read_frame at h
  simp only at h
  split_ifs at h with hr
  · cases h
  obtain ⟨h1, h2⟩ := read_retry_log E hop hbus cur _ fuel _ _ _ _ (hbus _ _ _ hlen) h
  refine ⟨h1, fun K => ?_⟩
  rw [h2 K]
  exact log_read E hop cur 0 0 K tb bus.2

theorem fetch_log {β : Type} (E : Env β)
    (hop : E.BLOCK_OP_RDFRME % 256 ≠ E.BLOCK_OP_WRFRME % 256)
    (hbus : ∀ b reg x, x.length = E.BLOCK_FRAME_SIZE →
      (E.block_io_bus b reg x).buf.length = E.BLOCK_FRAME_SIZE)
    (fuel : Nat) (cache : CacheState) (cur : Nat) (tb : List Nat)
    (bus : β × List (Nat × List Nat)) (ft : Fetch (β × List (Nat × List Nat)))
    (hlen : tb.length = E.BLOCK_FRAME_SIZE)
    (h : fetch (recordEnv E) fuel cache cur (some tb) bus = .ok ft) (hf : ft.failed = false) :
    (∃ tb1, ft.temp_buf = some tb1 ∧ tb1.length = E.BLOCK_FRAME_SIZE) ∧
      ∀ K, last_write E K ft.bus.2 = last_write E K bus.2 := by
  unfold fetch at h
  split at h
  · cases h
  · cases h
    exact ⟨⟨tb, rfl, hlen⟩, fun _ => rfl⟩
  · simp only at h
    split at h
    · cases h
    · cases h
      simp at hf
    · rename_i b bus1 hr
      cases h
      obtain ⟨h1, h2⟩ := read_frame_log E hop hbus fuel cur tb bus b bus1 hlen hr
      exact ⟨⟨b, rfl, h1⟩, h2⟩

theorem memcpy_length (dst : List Nat) (d : Nat) (src : List Nat) (s n : Nat) (r : List Nat)
    (h : memcpy dst d src s n = .ok r) : r.length = dst.length := by
  unfold memcpy at h
  split at h
  · rename_i bytes _
    unfold poke at h
    split_ifs at h with hc
    cases h
    simp only [List.length_append, List.length_take, List.length_drop]
    omega
  · cases h

theorem splice_log {β : Type} (E : Env β)
    (hop : E.BLOCK_OP_RDFRME % 256 ≠ E.BLOCK_OP_WRFRME % 256)
    (hbus : ∀ b reg x, x.length = E.BLOCK_FRAME_SIZE →
      (E.block_io_bus b reg x).buf.length = E.BLOCK_FRAME_SIZE)
    (fuel : Nat) (cache : CacheState) (buf : List Nat) (cur seek left written : Nat)
    (tb : List Nat) (bus : β × List (Nat × List Nat))
    (sp : Splice (β × List (Nat × List Nat)))
    (hlen : tb.length = E.BLOCK_FRAME_SIZE)
    (h : splice (recordEnv E) fuel cache buf cur seek left written (some tb) bus = .ok sp)
    (hf : sp.failed = false) :
    (∃ tb1, sp.temp_buf = some tb1 ∧ tb1.length = E.BLOCK_FRAME_SIZE) ∧
      ∀ K, last_write E K sp.bus.2 = last_write E K bus.2 := by
  have key : ∀ ft, fetch (recordEnv E) fuel cache cur (some tb) bus = .ok ft →
      ¬ ft.failed = true → ∀ tb0, ft.temp_buf = some tb0 →
      tb0.length = E.BLOCK_FRAME_SIZE ∧ ∀ K, last_write E K ft.bus.2 = last_write E K bus.2 := by
    intro ft hft hff tb0 htb0
    obtain ⟨⟨tb1, h1, h2⟩, h3⟩ :=
      fetch_log E hop hbus fuel cache cur tb bus ft hlen hft (by simpa using hff)
    rw [h1] at htb0
    cases htb0
    exact ⟨h2, h3⟩
  unfold splice at h
  simp only at h
  repeat' split at h
  all_goals first
    | (cases h; done)
    | (cases h; simp at hf; done)
    | (cases h
       refine ⟨⟨_, rfl, ?_⟩, ?_⟩
       · rw [memcpy_length _ _ _ _ _ _ ‹memcpy _ _ _ _ _ = _›]
         first
           | exact (key _ ‹fetch _ _ _ _ _ _ = _› ‹¬ _ = true› _ ‹_ = some _›).1
           | exact hlen
       · first
           | exact (key _ ‹fetch _ _ _ _ _ _ = _› ‹¬ _ = true› _ ‹_ = some _›).2
           | exact fun _ => rfl)

theorem write_retry_log {β : Type} (E : Env β)
    (hwr : ∀ b reg x, reg >>> 56 = E.BLOCK_OP_WRFRME % 256 → (E.block_io_bus b reg x).buf = x)
    (cur ck : Nat) : ∀ (fuel : Nat) (rt : Int) (buf : List Nat)
      (bus : β × List (Nat × List Nat)) (b : List Nat) (bus1 : β × List (Nat × List Nat)),
      last_write E (cur % 65536) bus.2 = some buf →
      write_retry (recordEnv E) (generate_register E.BLOCK_OP_WRFRME cur ck 0) fuel rt buf bus
        = .ok (.done b bus1) →
      b = buf ∧ ∀ K, last_write E K bus1.2 = last_write E K bus.2 := by
  intro fuel
  induction fuel with
  | zero =>
    intro rt buf bus b bus1 _ h
    unfold write_retry at h
    split_ifs at h with hc
    cases h
    exact ⟨rfl, fun _ => rfl⟩
  | succ n ih =>
    intro rt buf bus b bus1 hlast h
    unfold write_retry at h
    split_ifs at h with hc
    · cases h
      exact ⟨rfl, fun _ => rfl⟩
    · simp only at h
      have hb : ((recordEnv E).block_io_bus bus
          (generate_register E.BLOCK_OP_WRFRME cur ck 0) buf).buf = buf :=
        hwr _ _ _ (generate_register_op _ _ _ _)
      have hl : ∀ K, last_write E K ((recordEnv E).block_io_bus bus
          (generate_register E.BLOCK_OP_WRFRME cur ck 0) buf).bus.2 = last_write E K bus.2 := by
        intro K
        show last_write E K ((generate_register E.BLOCK_OP_WRFRME cur ck 0, buf) :: bus.2) = _
        rw [log_write]
        split_ifs with hK
        · rw [← hK, hlast]
        · rfl
      rw [hb] at h
      obtain ⟨h1, h2⟩ := ih _ _ _ _ _ (by rw [hl]; exact hlast) h
      exact ⟨h1, fun K => by rw [h2 K, hl K]⟩

theorem write_frame_log {β : Type} (E : Env β)
    (hwr : ∀ b reg x, reg >>> 56 = E.BLOCK_OP_WRFRME % 256 → (E.block_io_bus b reg x).buf = x)
    (fuel cur : Nat) (tb : List Nat) (bus : β × List (Nat × List Nat))
    (b : List Nat) (bus1 : β × List (Nat × List Nat))
    (h : write_frame (recordEnv E) fuel cur tb bus = .ok (.done b bus1)) :
    b = tb ∧ ∀ K, last_write E K bus1.2
      = if cur % 65536 = K then some tb else last_write E K bus.2 := by
  unfold write_frame at h
  simp only at h
  split_ifs at h with hr
  · cases h
  have hreg : generate_register (recordEnv E).BLOCK_OP_WRFRME cur
      (fr_checksum_value (recordEnv E) tb) 0
      = generate_register E.BLOCK_OP_WRFRME cur (fr_checksum_value (recordEnv E) tb) 0 := rfl
  rw [hreg] at h
  have hb : ((recordEnv E).block_io_bus bus
      (generate_register E.BLOCK_OP_WRFRME cur (fr_checksum_value (recordEnv E) tb) 0) tb).buf
      = tb := hwr _ _ _ (generate_register_op _ _ _ _)
  have hl : ∀ K, last_write E K ((recordEnv E).block_io_bus bus
      (generate_register E.BLOCK_OP_WRFRME cur (fr_checksum_value (recordEnv E) tb) 0) tb).bus.2
      = if cur % 65536 = K then some tb else last_write E K bus.2 := by
    intro K
    show last_write E K ((generate_register E.BLOCK_OP_WRFRME cur _ 0, tb) :: bus.2) = _
    rw [log_write]
  rw [hb] at h
  obtain ⟨h1, h2⟩ := write_retry_log E hwr cur _ fuel _ _ _ _ _
    (by rw [hl]; simp) h
  exact ⟨h1, fun K => by rw [h2 K, hl K]⟩

/-- The cache agrees with the recorded traffic: a frame that is resident and
has a recorded write holds the bytes of its last recorded write. -/
theorem write_loop_consistent {β : Type} (E : Env β)
    (hop : E.BLOCK_OP_RDFRME % 256 ≠ E.BLOCK_OP_WRFRME % 256)
    (hwr : ∀ b reg x, reg >>> 56 = E.BLOCK_OP_WRFRME % 256 → (E.block_io_bus b reg x).buf = x)
    (hbus : ∀ b reg x, x.length = E.BLOCK_FRAME_SIZE →
      (E.block_io_bus b reg x).buf.length = E.BLOCK_FRAME_SIZE)
    (fuel : Nat) (buf : List Nat) :
    ∀ (rest : List Nat) (seek left written : Nat) (tb : List Nat) (cache : CacheState)
      (bus : β × List (Nat × List Nat)) (l : Loop (β × List (Nat × List Nat))),
      write_loop (recordEnv E) fuel buf rest seek left written (some tb) cache bus = .ok l →
      l.failed = false →
      tb.length = E.BLOCK_FRAME_SIZE → cache.wf E.BLOCK_FRAME_SIZE →
      (∀ x ∈ rest, x < 65536) →
      (∀ K d0 d, last_write E K bus.2 = some d0 → get_scan K cache.cache = some d → d = d0) →
      l.cache.wf E.BLOCK_FRAME_SIZE ∧
      ∀ K d0 d, last_write E K l.bus.2 = some d0 → get_scan K l.cache.cache = some d →
        d = d0 := by
  intro rest
  induction rest with
  | nil =>
    intro seek left written tb cache bus l h _ _ hwf _ hinv
    unfold write_loop at h
    split_ifs at h with hc
    cases h
    exact ⟨hwf, hinv⟩
  | cons cur rest ih =>
    intro seek left written tb cache bus l h hf hlen hwf h16 hinv
    unfold write_loop at h
    split_ifs at h with hc
    · cases h
      exact ⟨hwf, hinv⟩
    · cases hsp : splice (recordEnv E) fuel cache buf cur seek left written (some tb) bus with
      | error a => rw [hsp] at h; cases h
      | ok sp =>
        rw [hsp] at h
        simp only at h
        split_ifs at h with hfail
        · cases h
          simp at hf
        · obtain ⟨⟨tb1, ht1, hl1⟩, hlog1⟩ :=
            splice_log E hop hbus fuel cache buf cur seek left written tb bus sp hlen hsp
              (by simpa using hfail)
          rw [ht1] at h
          simp only at h
          cases hw : write_frame (recordEnv E) fuel cur tb1 sp.bus with
          | error a => rw [hw] at h; cases h
          | ok x =>
            rw [hw] at h
            cases x with
            | hard b bus1 =>
              simp only at h
              cases h
              simp at hf
            | done b bus1 =>
              simp only at h
              obtain ⟨hb, hlog2⟩ := write_frame_log E hwr fuel cur tb1 sp.bus b bus1 hw
              subst hb
              have hcur : cur < 65536 := h16 cur (by simp)
              obtain ⟨c1, hp1, hp2, _, hp4, hp5⟩ :=
                put_block_cache_spec E.BLOCK_FRAME_SIZE cache cur b hwf hcur hl1
              have hp1r : put_block_cache (recordEnv E).BLOCK_FRAME_SIZE cache cur b
                  = .ok (0, c1) := hp1
              rw [hp1r] at h
              simp only at h
              refine ih _ _ _ _ _ _ _ h hf hl1 hp2 (fun x hx => h16 x (by simp [hx])) ?_
              intro K d0 d hK hd
              rw [hlog2 K, Nat.mod_eq_of_lt hcur] at hK
              split_ifs at hK with hcK
              · subst hcK
                rw [hp4] at hd
                cases hK
                cases hd
                rfl
              · rw [hlog1 K] at hK
                exact hinv K d0 d hK (hp5 K d (fun hc => hcK hc.symm) hd)

theorem grow_frames_lt (F : Nat) : ∀ (n length : Nat) (frames : List Nat) (used : Nat)
    (r : List Nat × Nat), grow_frames F n length frames used = .ok r →
    (∀ x ∈ frames, x < 65536) → ∀ x ∈ r.1, x < 65536 := by
  intro n
  induction n with
  | zero => intro length frames used r h; simp [grow_frames] at h
  | succ n ih =>
    intro length frames used r h hfr
    unfold grow_frames at h
    split_ifs at h with h1 h2
    · refine ih _ _ _ _ h ?_
      intro x hx
      simp only [List.mem_append, List.mem_singleton] at hx
      rcases hx with hx | hx
      · exact hfr x hx
      · rw [hx]; omega
    · cases h
      exact hfr

theorem grow_file_lt (F : Nat) (f f1 : file) (count : Int) (used used1 : Nat)
    (h : grow_file F f count used = .ok (f1, used1)) (hfr : ∀ x ∈ f.frames, x < 65536) :
    ∀ x ∈ f1.frames, x < 65536 := by
  unfold grow_file at h
  split_ifs at h with hgt
  · simp only at h
    cases hg : grow_frames F 65536 ((f.seek_pos + toU32 count) % 4294967296) f.frames used with
    | error a => rw [hg] at h; cases h
    | ok p =>
      rw [hg] at h
      cases h
      exact grow_frames_lt F _ _ _ _ _ hg hfr
  · cases h
    exact hfr

theorem block_write_consistent {β : Type} (E : Env β)
    (hop : E.BLOCK_OP_RDFRME % 256 ≠ E.BLOCK_OP_WRFRME % 256)
    (hwr : ∀ b reg x, reg >>> 56 = E.BLOCK_OP_WRFRME % 256 → (E.block_io_bus b reg x).buf = x)
    (hbus : ∀ b reg x, x.length = E.BLOCK_FRAME_SIZE →
      (E.block_io_bus b reg x).buf.length = E.BLOCK_FRAME_SIZE)
    (fuel : Nat) (s : Driver (β × List (Nat × List Nat))) (fd : Int) (buf : List Nat)
    (count r : Int) (s1 : Driver (β × List (Nat × List Nat))) (tb : List Nat)
    (hlog : s.bus.2 = []) (hwf : s.cache.wf E.BLOCK_FRAME_SIZE)
    (htb : s.temp_buf = some tb) (htbl : tb.length = E.BLOCK_FRAME_SIZE)
    (h16 : ∀ g ∈ s.all_files, ∀ x ∈ g.frames, x < 65536)
    (hrun : block_write (recordEnv E) fuel s fd buf count = .ok (r, s1)) (hr : r ≠ -1) :
    0 < E.BLOCK_FRAME_SIZE ∧ s1.cache.wf E.BLOCK_FRAME_SIZE ∧
      ∀ K d0 d, last_write E K s1.bus.2 = some d0 → get_scan K s1.cache.cache = some d →
        d = d0 := by
  unfold block_write at hrun
  cases hfind : find_handle fd s.all_files with
  | none => rw [hfind] at hrun; cases hrun; exact absurd rfl hr
  | some index =>
    rw [hfind] at hrun
    simp only at hrun
    cases hget : s.all_files[index]? with
    | none => rw [hget] at hrun; cases hrun; exact absurd rfl hr
    | some f =>
      rw [hget] at hrun
      simp only at hrun
      by_cases hcl : f.status = Status.CLOSED
      · rw [if_pos hcl] at hrun; cases hrun; exact absurd rfl hr
      rw [if_neg hcl] at hrun
      cases hg : grow_file (recordEnv E).BLOCK_FRAME_SIZE f count s.num_frames_used with
      | error a => rw [hg] at hrun; cases hrun
      | ok p =>
        obtain ⟨f1, used⟩ := p
        rw [hg] at hrun
        simp only at hrun
        by_cases hF : (recordEnv E).BLOCK_FRAME_SIZE = 0
        · rw [if_pos hF] at hrun; cases hrun
        rw [if_neg hF] at hrun
        have hF0 : 0 < E.BLOCK_FRAME_SIZE := Nat.pos_of_ne_zero hF
        have hf16 : ∀ x ∈ f1.frames, x < 65536 :=
          grow_file_lt _ _ _ _ _ _ hg (h16 f (List.getElem?_mem hget))
        rw [htb] at hrun
        cases hl : write_loop (recordEnv E) fuel buf
            (List.drop (f.seek_pos / (recordEnv E).BLOCK_FRAME_SIZE % 65536) f1.frames)
            (f.seek_pos % (recordEnv E).BLOCK_FRAME_SIZE) (toU32 count) 0 (some tb) s.cache
            s.bus with
        | error a => rw [hl] at hrun; cases hrun
        | ok l =>
          rw [hl] at hrun
          simp only at hrun
          split_ifs at hrun with hfail
          · cases hrun; exact absurd rfl hr
          cases hrun
          have := write_loop_consistent E hop hwr hbus fuel buf _ _ _ _ tb s.cache s.bus l hl
            (by simpa using hfail) htbl hwf
            (fun x hx => hf16 x (List.mem_of_mem_drop hx))
            (by
              intro K d0 d hK
              rw [hlog] at hK
              simp [last_write] at hK)
          exact ⟨hF0, this.1, this.2⟩

/-- A read of a range that lies inside one frame, found in the cache, returns
the bytes of the cached frame and leaves the bus alone. -/
theorem block_read_hit {β : Type} (E : Env β) (fuel : Nat) (s : Driver β) (fd : Int)
    (count : Int) (index : Nat) (f : file) (K : Nat) (d : List Nat)
    (hfind : find_handle fd s.all_files = some index)
    (hget : s.all_files[index]? = some f) (hopen : f.status = Status.OPEN)
    (hF : 0 < E.BLOCK_FRAME_SIZE) (hlen : f.length < 4294967296)
    (hc0 : 0 ≤ count) (hend : f.seek_pos + count.toNat ≤ f.length)
    (hidx : f.seek_pos / E.BLOCK_FRAME_SIZE < 32768)
    (hK : f.frames[f.seek_pos / E.BLOCK_FRAME_SIZE]? = some K)
    (hin : f.seek_pos % E.BLOCK_FRAME_SIZE + count.toNat ≤ E.BLOCK_FRAME_SIZE)
    (hinit : s.cache.init = true) (hres : get_scan K s.cache.cache = some d)
    (hd : d.length = E.BLOCK_FRAME_SIZE) :
    block_read E fuel s fd count
      = .ok (count, (d.drop (f.seek_pos % E.BLOCK_FRAME_SIZE)).take count.toNat,
          { s with all_files :=
              s.all_files.set index { f with seek_pos := f.seek_pos + count.toNat } }) := by
  have hne : ¬ f.status = Status.CLOSED := by rw [hopen]; decide
  have hu : toU32 count = count.toNat := toU32_of_nonneg count hc0 (by omega)
  have havail : (f.length + 4294967296 - f.seek_pos) % 4294967296 = f.length - f.seek_pos := by
    omega
  have hnc : ¬ f.length - f.seek_pos < count.toNat := by omega
  have hfi : f.seek_pos / E.BLOCK_FRAME_SIZE % 65536 = f.seek_pos / E.BLOCK_FRAME_SIZE :=
    Nat.mod_eq_of_lt (by omega)
  have hlt : f.seek_pos / E.BLOCK_FRAME_SIZE < f.frames.length := by
    by_contra hcon
    rw [List.getElem?_eq_none (by omega)] at hK
    cases hK
  have hdrop : f.frames.drop (f.seek_pos / E.BLOCK_FRAME_SIZE)
      = K :: f.frames.drop (f.seek_pos / E.BLOCK_FRAME_SIZE + 1) := by
    rw [List.drop_eq_getElem_cons hlt]
    rw [List.getElem?_eq_getElem hlt] at hK
    cases hK
    rfl
  have hmod : (f.seek_pos + count.toNat) % 4294967296 = f.seek_pos + count.toNat := by
    apply Nat.mod_eq_of_lt; omega
  have hgetc : get_block_cache s.cache K = .ok (some d) :=
    get_block_cache_of_scan s.cache K d hinit hres
  simp only [block_read, hfind, hget, hne, if_false, havail, hu, hnc, Nat.pos_iff_ne_zero.mp hF,
    hfi, hdrop, hmod]
  by_cases hz : count.toNat = 0
  · rw [read_loop]
    simp only [hz, if_true, List.take_zero, Nat.add_zero, Bool.false_eq_true, if_false]
  · have hbytes : (if count.toNat < E.BLOCK_FRAME_SIZE then count.toNat else E.BLOCK_FRAME_SIZE)
        = count.toNat := by
      split_ifs <;> omega
    have hp : peek d (f.seek_pos % E.BLOCK_FRAME_SIZE) count.toNat
        = .ok ((d.drop (f.seek_pos % E.BLOCK_FRAME_SIZE)).take count.toNat) := by
      unfold peek
      rw [if_pos (by omega)]
    have hft : fetch E fuel s.cache K s.temp_buf s.bus
        = .ok ⟨false, some d, s.temp_buf, s.bus⟩ := by
      unfold fetch
      rw [hgetc]
    have hrest : ∀ (rest : List Nat) (i sk : Nat) (out : List Nat),
        read_loop E fuel s.cache rest i sk 0 out s.temp_buf s.bus
          = .ok ⟨false, out, s.temp_buf, s.cache, s.bus⟩ := by
      intro rest i sk out
      cases rest with
      | nil => rw [read_loop]; rfl
      | cons a l => rw [read_loop]; rfl
    rw [read_loop]
    rw [if_neg hz, if_neg (Nat.not_le.mpr hidx), hft]
    simp only [Bool.false_eq_true, if_false, hbytes, hp, Nat.sub_self, List.nil_append, hrest]

/-- Write-through consistency at the frame indices below 32768, where the
property holds.  The bus of `E` is observed through a recorder that has noted
nothing before the call.  Assume the bus leaves the
buffer of a write request as it is and every buffer at its size, the codes of
read and write differ, the cache is in working order (capacity at least 1),
`temp_buf` has a frame's size and frame numbers are 16-bit values.  After a
`block_write` that returns a value other than -1, every frame `K` with a
recorded write that `get_block_cache` still finds holds the bytes of its last
recorded write; and in any later state with that cache, `block_read` of a
range inside the file and inside frame `K`, at a frame index below 32768,
returns exactly those bytes and leaves the bus and its record as they were. -/
theorem write_through_consistency {β : Type} (E : Env β) (fuel : Nat)
    (s : Driver (β × List (Nat × List Nat))) (fd : Int) (buf : List Nat) (count r : Int)
    (s1 : Driver (β × List (Nat × List Nat))) (tb : List Nat)
    (hop : E.BLOCK_OP_RDFRME % 256 ≠ E.BLOCK_OP_WRFRME % 256)
    (hwr : ∀ b reg x, reg >>> 56 = E.BLOCK_OP_WRFRME % 256 → (E.block_io_bus b reg x).buf = x)
    (hbus : ∀ b reg x, x.length = E.BLOCK_FRAME_SIZE →
      (E.block_io_bus b reg x).buf.length = E.BLOCK_FRAME_SIZE)
    (hlog : s.bus.2 = []) (hwf : s.cache.wf E.BLOCK_FRAME_SIZE)
    (htb : s.temp_buf = some tb) (htbl : tb.length = E.BLOCK_FRAME_SIZE)
    (h16 : ∀ g ∈ s.all_files, ∀ x ∈ g.frames, x < 65536)
    (hrun : block_write (recordEnv E) fuel s fd buf count = .ok (r, s1)) (hr : r ≠ -1) :
    ∀ (K : Nat) (d0 d : List Nat), last_write E K s1.bus.2 = some d0 →
      get_block_cache s1.cache K = .ok (some d) →
      d = d0 ∧
      ∀ (s2 : Driver (β × List (Nat × List Nat))) (fd2 c : Int) (index : Nat) (f : file),
        s2.cache = s1.cache →
        find_handle fd2 s2.all_files = some index → s2.all_files[index]? = some f →
        f.status = Status.OPEN → f.length < 4294967296 →
        0 ≤ c → f.seek_pos + c.toNat ≤ f.length →
        f.seek_pos / E.BLOCK_FRAME_SIZE < 32768 →
        f.frames[f.seek_pos / E.BLOCK_FRAME_SIZE]? = some K →
        f.seek_pos % E.BLOCK_FRAME_SIZE + c.toNat ≤ E.BLOCK_FRAME_SIZE →
        ∃ s3, block_read (recordEnv E) fuel s2 fd2 c
            = .ok (c, (d0.drop (f.seek_pos % E.BLOCK_FRAME_SIZE)).take c.toNat, s3) ∧
          s3.bus = s2.bus := by
  obtain ⟨hF, hwf1, hinv⟩ :=
    block_write_consistent E hop hwr hbus fuel s fd buf count r s1 tb hlog hwf htb htbl h16
      hrun hr
  intro K d0 d hK hd
  have hscan : get_scan K s1.cache.cache = some d := by
    unfold get_block_cache at hd
    split_ifs at hd with h1 h2
    · cases hd
    · exact Except.ok.inj hd
  have hdd : d = d0 := hinv K d0 d hK hscan
  subst hdd
  refine ⟨rfl, ?_⟩
  intro s2 fd2 c index f hc hfind hget hopen hlen hc0 hend hidx hfr hin
  obtain ⟨e, he, _, h2⟩ := get_scan_some_mem K _ d hscan
  have hdl : d.length = E.BLOCK_FRAME_SIZE := by
    rw [← h2]
    exact hwf1.2.2.1 e he
  have := block_read_hit (recordEnv E) fuel s2 fd2 c index f K d hfind hget hopen hF hlen hc0
    hend hidx hfr hin (by rw [hc]; exact hwf1.1) (by rw [hc]; exact hscan) hdl
  exact ⟨_, this, rfl⟩

/-- Witness of `write_through_consistency`: one byte written to the file of
`fresh_recorded`, then read back after a seek to offset 0. -/
theorem write_through_consistency_witness :
    last_write (ramEnv 1024) 1 recorded_written.bus.2 = some (65 :: List.replicate 1023 0) ∧
    get_block_cache recorded_written.cache 1 = .ok (some (65 :: List.replicate 1023 0)) ∧
    ∃ s3, block_read (recordEnv (ramEnv 1024)) 0 (block_seek recorded_written 7 0).2 7 1
        = .ok (1, ((65 :: List.replicate 1023 0).drop (0 % 1024)).take (1 : Int).toNat, s3) ∧
      s3.bus = (block_seek recorded_written 7 0).2.bus :=
  have h := write_through_consistency (ramEnv 1024) 0 fresh_recorded 7 [65] 1 1
    recorded_written (List.replicate 1024 0) (by decide)
    (by
      intro b reg x hreg
      have h3 : reg >>> 56 = 3 := hreg
      simp only [ramEnv, ramBus, h3, if_true])
    (ramEnv_frame_size 1024) rfl
    (And.intro rfl (And.intro (by decide) (And.intro (fun e he => by cases he) List.nodup_nil)))
    rfl (by decide!) (by decide!) (by decide!) (by decide)
    1 (65 :: List.replicate 1023 0) (65 :: List.replicate 1023 0) (by decide!) (by decide!)
  ⟨by decide!, by decide!,
    h.2 (block_seek recorded_written 7 0).2 7 1 0 ⟨path_a, 7, 1, .OPEN, 0, [1]⟩
      (by decide!) (by decide!) (by decide!) rfl (by decide) (by decide) (by decide)
      (by decide) (by decide) (by decide)⟩

/-- C16 (write-through consistency), evaluated on a file of 32769 frames: a
one-byte write at the start of the last frame returns 1 and leaves frame 32769
in the cache; after seeking back, the read of that byte does not return the
cached byte: `frame_index`, an `int16_t` in `block_read` (a `uint16_t` in
`block_write`), has wrapped to -32768 and the read leaves the frame array. -/
theorem read_of_cached_frame_faults :
    value_of (block_write (ramEnv 1024) 0 long_file 7 [65] 1) = some 1 ∧
    get_block_cache long_written.cache 32769 = .ok (some (65 :: List.replicate 1023 0)) ∧
    long_written.all_files.map (fun g => (g.handle, g.status, g.seek_pos, g.length,
      g.frames.drop 32768)) = [(7, Status.OPEN, 33554432, 33555456, [32769])] ∧
    block_read (ramEnv 1024) 0 long_written 7 1 = .error .fault := by
  refine ⟨by decide!, by decide!, ?_, by decide!⟩
  decide!

/-! ## The control word -/

/-- C22 (control word). For field values in the ranges of the parameter types,
`generate_register` is the sum `kr1 * 2^56 + fm1 * 2^40 + cs1 * 2^8 + rt1`,
each field can be read back from its bit range (63-56, 55-40, 39-8, 7-0), equal
registers have equal fields, and the decoders of the driver recover the
checksum and the return code: `(reg << 24) >> 32` as `uint32_t` is `cs1`, and
`(reg << 56) >> 56` is `rt1`, which the driver reads as an `int8_t`. -/
theorem generate_register_reversible (kr1 fm1 cs1 rt1 : Nat)
    (hk : kr1 < 2 ^ 8) (hf : fm1 < 2 ^ 16) (hc : cs1 < 2 ^ 32) (hr : rt1 < 2 ^ 8) :
    generate_register kr1 fm1 cs1 rt1 = kr1 * 2 ^ 56 + fm1 * 2 ^ 40 + cs1 * 2 ^ 8 + rt1 ∧
    generate_register kr1 fm1 cs1 rt1 >>> 56 = kr1 ∧
    (generate_register kr1 fm1 cs1 rt1 >>> 40) % 2 ^ 16 = fm1 ∧
    (generate_register kr1 fm1 cs1 rt1 >>> 8) % 2 ^ 32 = cs1 ∧
    generate_register kr1 fm1 cs1 rt1 % 2 ^ 8 = rt1 ∧
    (∀ kr2 fm2 cs2 rt2 : Nat, kr2 < 2 ^ 8 → fm2 < 2 ^ 16 → cs2 < 2 ^ 32 → rt2 < 2 ^ 8 →
      generate_register kr2 fm2 cs2 rt2 = generate_register kr1 fm1 cs1 rt1 →
      kr2 = kr1 ∧ fm2 = fm1 ∧ cs2 = cs1 ∧ rt2 = rt1) ∧
    checksum_of (generate_register kr1 fm1 cs1 rt1) = cs1 ∧
    (((generate_register kr1 fm1 cs1 rt1 % 2 ^ 64) <<< 56) % 2 ^ 64) >>> 56 = rt1 ∧
    rt_of (generate_register kr1 fm1 cs1 rt1) = toI8 rt1 := by
  have key : ∀ a b c d : Nat, a < 2 ^ 8 → b < 2 ^ 16 → c < 2 ^ 32 → d < 2 ^ 8 →
      generate_register a b c d = a * 2 ^ 56 + b * 2 ^ 40 + c * 2 ^ 8 + d := by
    intro a b c d ha hb hc hd
    rw [generate_register_eq]
    norm_num at ha hb hc hd ⊢
    rw [Nat.mod_eq_of_lt ha, Nat.mod_eq_of_lt hb, Nat.mod_eq_of_lt hc, Nat.mod_eq_of_lt hd]
    omega
  have h := key kr1 fm1 cs1 rt1 hk hf hc hr
  norm_num at hk hf hc hr
  refine ⟨h, ?_, ?_, ?_, ?_, ?_, ?_, ?_, ?_⟩
  · rw [h, Nat.shiftRight_eq_div_pow]; omega
  · rw [h, Nat.shiftRight_eq_div_pow]; omega
  · rw [h, Nat.shiftRight_eq_div_pow]; omega
  · rw [h]; omega
  · intro kr2 fm2 cs2 rt2 h1 h2 h3 h4 he
    rw [h, key kr2 fm2 cs2 rt2 h1 h2 h3 h4] at he
    norm_num at h1 h2 h3 h4
    omega
  · rw [checksum_of_field, h]; omega
  · rw [h, Nat.shiftLeft_eq, Nat.shiftRight_eq_div_pow]; omega
  · rw [rt_of_low_byte, h]
    congr 1
    omega

/-- Witness of `generate_register_reversible`: a write request for frame 5. -/
theorem generate_register_reversible_witness :
    generate_register 3 5 4000000000 0 = 3 * 2 ^ 56 + 5 * 2 ^ 40 + 4000000000 * 2 ^ 8 + 0 ∧
    checksum_of (generate_register 3 5 4000000000 0) = 4000000000 :=
  have h := generate_register_reversible 3 5 4000000000 0 (by decide) (by decide) (by decide)
    (by decide)
  ⟨h.1, h.2.2.2.2.2.2.1⟩

/-! ## The cache: the hit, the victim and the invariant -/

theorem aged_age (e : cache_frame) :
    (aged e).calls_since_use = (e.calls_since_use + 1) % 65536 := rfl

/-- The search loop on a table that holds `frm`: it stops at the first slot `k`
holding `frm`, which gets the bytes of `buf` and age 0; the slots before it are
aged and the slots after it are as they were. -/
theorem put_scan_hit_at (frm : Nat) (buf : List Nat) :
    ∀ (l : List cache_frame) (i lru lri : Nat), (∀ e ∈ l, e.frame.length = buf.length) →
      frm ∈ keys l →
      ∃ (k : Nat) (e : cache_frame) (c1 : List cache_frame),
        l[k]? = some e ∧ e.frame_number = frm ∧
        (∀ (j : Nat) (e1 : cache_frame), j < k → l[j]? = some e1 → e1.frame_number ≠ frm) ∧
        put_scan buf.length frm buf l i lru lri = .ok (.hit c1) ∧
        c1.length = l.length ∧ c1[k]? = some ⟨frm, 0, buf⟩ ∧
        (∀ (j : Nat), j < k → c1[j]? = (l[j]?).map aged) ∧
        (∀ (j : Nat), k < j → c1[j]? = l[j]?) := by
  intro l
  induction l with
  | nil => intro i lru lri _ h; simp [keys] at h
  | cons e l ih =>
    intro i lru lri hfr h
    have he : e.frame.length = buf.length := hfr e (by simp)
    have hl : ∀ x ∈ l, x.frame.length = buf.length := fun x hx => hfr x (by simp [hx])
    unfold put_scan
    by_cases hc : e.frame_number = frm
    · subst hc
      simp only [if_true, memcpy_full e.frame buf _ he rfl]
      refine ⟨0, e, _, by simp, rfl, ?_, rfl, rfl, by simp, ?_, ?_⟩
      · intro j e1 hj; omega
      · intro j hj; omega
      · intro j hj
        obtain ⟨n, rfl⟩ : ∃ n, j = n + 1 := ⟨j - 1, by omega⟩
        simp
    · have hin : frm ∈ keys l := by
        simp only [keys, List.map_cons, List.mem_cons] at h
        rcases h with h | h
        · exact absurd h.symm hc
        · exact h
      obtain ⟨k, e0, c1, h1, h2, h3, h4, h5, h6, h7, h8⟩ := ih (i + 1)
        (if (e.calls_since_use + 1) % 65536 > lru then (e.calls_since_use + 1) % 65536 else lru)
        (if (e.calls_since_use + 1) % 65536 > lru then i % 65536 else lri) hl hin
      simp only [hc, if_false, h4]
      refine ⟨k + 1, e0, _, by simpa using h1, h2, ?_, rfl, by simp [h5], by simpa using h6,
        ?_, ?_⟩
      · intro j e1 hj hje
        cases j with
        | zero =>
          simp only [List.getElem?_cons_zero, Option.some.injEq] at hje
          rw [← hje]
          exact hc
        | succ n =>
          simp only [List.getElem?_cons_succ] at hje
          exact h3 n e1 (by omega) hje
      · intro j hj
        cases j with
        | zero => simp [aged]
        | succ n =>
          simp only [List.getElem?_cons_succ]
          exact h7 n (by omega)
      · intro j hj
        obtain ⟨n, rfl⟩ : ∃ n, j = n + 1 := ⟨j - 1, by omega⟩
        simp only [List.getElem?_cons_succ]
        exact h8 n (by omega)

theorem keys_of_getElem? (l l1 : List cache_frame)
    (h : ∀ (j : Nat), (l1[j]?).map cache_frame.frame_number
      = (l[j]?).map cache_frame.frame_number) : keys l1 = keys l := by
  apply List.ext_getElem?
  intro j
  simp only [keys, List.getElem?_map]
  exact h j

/-- C28 (hit). In an initialized cache whose slots hold `F` bytes and in which
`frm` is resident, `put_block_cache` with a buffer of `F` bytes returns 0 and
overwrites the first slot holding `frm` with the bytes of the buffer and age 0;
the number of slots, the capacity, the frame number of every slot and the data
of every other slot are as before. -/
theorem put_hit_overwrites (F : Nat) (c : CacheState) (frm : Nat) (buf : List Nat)
    (hinit : c.init = true) (hfr : ∀ e ∈ c.cache, e.frame.length = F)
    (hbuf : buf.length = F) (hres : frm ∈ keys c.cache) :
    ∃ (k : Nat) (e : cache_frame) (c1 : CacheState),
      c.cache[k]? = some e ∧ e.frame_number = frm ∧
      (∀ (j : Nat) (e1 : cache_frame), j < k → c.cache[j]? = some e1 → e1.frame_number ≠ frm) ∧
      put_block_cache F c frm buf = .ok (0, c1) ∧
      c1.init = true ∧ c1.block_cache_max_items = c.block_cache_max_items ∧
      c1.cache.length = c.cache.length ∧ keys c1.cache = keys c.cache ∧
      c1.cache[k]? = some ⟨frm, 0, buf⟩ ∧
      ∀ (j : Nat) (e1 : cache_frame), j ≠ k → c.cache[j]? = some e1 →
        ∃ e2 : cache_frame, c1.cache[j]? = some e2 ∧ e2.frame_number = e1.frame_number ∧
          e2.frame = e1.frame := by
  subst hbuf
  obtain ⟨k, e, l1, h1, h2, h3, h4, h5, h6, h7, h8⟩ :=
    put_scan_hit_at frm buf c.cache 0 0 0 hfr hres
  have hother : ∀ (j : Nat) (e1 : cache_frame), j ≠ k → c.cache[j]? = some e1 →
      ∃ e2 : cache_frame, l1[j]? = some e2 ∧ e2.frame_number = e1.frame_number ∧
        e2.frame = e1.frame := by
    intro j e1 hj hje
    rcases Nat.lt_or_gt_of_ne hj with hlt | hgt
    · exact ⟨aged e1, by rw [h7 j hlt, hje]; rfl, rfl, rfl⟩
    · exact ⟨e1, by rw [h8 j hgt, hje], rfl, rfl⟩
  refine ⟨k, e, { c with cache := l1 }, h1, h2, h3, ?_, hinit, rfl, h5, ?_, h6, hother⟩
  · unfold put_block_cache
    rw [if_neg (by simp [hinit])]
    simp only [h4]
  · apply keys_of_getElem?
    intro j
    by_cases hj : j = k
    · subst hj
      rw [h6, h1]
      simp [h2]
    · cases hje : c.cache[j]? with
      | none =>
        have : c.cache.length ≤ j := by
          by_contra hcon
          rw [List.getElem?_eq_getElem (by omega)] at hje
          cases hje
        have hl1 : l1.length ≤ j := by omega
        show (l1[j]?).map cache_frame.frame_number = _
        rw [List.getElem?_eq_none hl1]
      | some e1 =>
        obtain ⟨e2, g1, g2, _⟩ := hother j e1 hj hje
        rw [g1]
        simp [g2]

/-- Witness of `put_hit_overwrites`: frame 8, in the second of three slots, is
put again. -/
theorem put_hit_overwrites_witness :
    ∃ (k : Nat) (e : cache_frame) (c1 : CacheState),
      [(⟨7, 2, [1, 1]⟩ : cache_frame), ⟨8, 1, [2, 2]⟩, ⟨9, 0, [3, 3]⟩][k]? = some e ∧
      e.frame_number = 8 ∧
      put_block_cache 2 ⟨3, true, [⟨7, 2, [1, 1]⟩, ⟨8, 1, [2, 2]⟩, ⟨9, 0, [3, 3]⟩]⟩ 8 [5, 5]
        = .ok (0, c1) ∧
      c1.cache.length = 3 ∧ c1.cache[k]? = some ⟨8, 0, [5, 5]⟩ :=
  match put_hit_overwrites 2 ⟨3, true, [⟨7, 2, [1, 1]⟩, ⟨8, 1, [2, 2]⟩, ⟨9, 0, [3, 3]⟩]⟩ 8 [5, 5]
      rfl (by decide) rfl (by decide) with
  | ⟨k, e, c1, h1, h2, _, h4, _, _, h7, _, h9, _⟩ => ⟨k, e, c1, h1, h2, h4, h7, h9⟩

/-- What the search loop of `put_block_cache` ends with on a miss: either no
slot has an age above the starting value, or the index is that of the first
slot with the largest age after the increment. -/
theorem scan_lru_spec (l : List cache_frame) : ∀ (i lru lri : Nat),
    (scan_lru l i lru lri = (lru, lri) ∧ ∀ e ∈ l, (aged e).calls_since_use ≤ lru) ∨
    ∃ (k : Nat) (e : cache_frame), l[k]? = some e ∧
      scan_lru l i lru lri = ((aged e).calls_since_use, (i + k) % 65536) ∧
      lru < (aged e).calls_since_use ∧
      (∀ (j : Nat) (e1 : cache_frame), l[j]? = some e1 →
        (aged e1).calls_since_use ≤ (aged e).calls_since_use) ∧
      (∀ (j : Nat) (e1 : cache_frame), j < k → l[j]? = some e1 →
        (aged e1).calls_since_use < (aged e).calls_since_use) := by
  induction l with
  | nil => intro i lru lri; left; exact ⟨rfl, by simp⟩
  | cons a l ih =>
    intro i lru lri
    unfold scan_lru
    by_cases hgt : (a.calls_since_use + 1) % 65536 > lru
    · rw [if_pos hgt]
      right
      rcases ih (i + 1) ((a.calls_since_use + 1) % 65536) (i % 65536) with ⟨h1, h2⟩ | h
      · refine ⟨0, a, by simp, ?_, hgt, ?_, ?_⟩
        · rw [h1]; simp [aged_age]
        · intro j e1 hje
          cases j with
          | zero =>
            simp only [List.getElem?_cons_zero, Option.some.injEq] at hje
            rw [hje]
          | succ n =>
            simp only [List.getElem?_cons_succ] at hje
            exact h2 e1 (List.getElem?_mem hje)
        · intro j e1 hj; omega
      · obtain ⟨k, e, g1, g2, g3, g4, g5⟩ := h
        refine ⟨k + 1, e, by simpa using g1, ?_, by omega, ?_, ?_⟩
        · rw [g2]
          have : i + 1 + k = i + (k + 1) := by omega
          rw [this]
        · intro j e1 hje
          cases j with
          | zero =>
            simp only [List.getElem?_cons_zero, Option.some.injEq] at hje
            rw [← hje, aged_age]
            omega
          | succ n =>
            simp only [List.getElem?_cons_succ] at hje
            exact g4 n e1 hje
        · intro j e1 hj hje
          cases j with
          | zero =>
            simp only [List.getElem?_cons_zero, Option.some.injEq] at hje
            rw [← hje, aged_age]
            exact g3
          | succ n =>
            simp only [List.getElem?_cons_succ] at hje
            exact g5 n e1 (by omega) hje
    · rw [if_neg hgt]
      rcases ih (i + 1) lru lri with ⟨h1, h2⟩ | h
      · left
        refine ⟨h1, ?_⟩
        intro e he
        simp only [List.mem_cons] at he
        rcases he with he | he
        · rw [he, aged_age]; omega
        · exact h2 e he
      · right
        obtain ⟨k, e, g1, g2, g3, g4, g5⟩ := h
        refine ⟨k + 1, e, by simpa using g1, ?_, g3, ?_, ?_⟩
        · rw [g2]
          have : i + 1 + k = i + (k + 1) := by omega
          rw [this]
        · intro j e1 hje
          cases j with
          | zero =>
            simp only [List.getElem?_cons_zero, Option.some.injEq] at hje
            rw [← hje, aged_age]
            omega
          | succ n =>
            simp only [List.getElem?_cons_succ] at hje
            exact g4 n e1 hje
        · intro j e1 hj hje
          cases j with
          | zero =>
            simp only [List.getElem?_cons_zero, Option.some.injEq] at hje
            rw [← hje, aged_age]
            omega
          | succ n =>
            simp only [List.getElem?_cons_succ] at hje
            exact g5 n e1 (by omega) hje

/-- C27 (victim). In a full cache of 1 to 65536 slots of `F` bytes, a put of a
frame number that is not resident returns 0 and overwrites the slot `v` with
the frame number, the bytes of the buffer and age 0, where `v` is the lowest
index among the slots whose age after the increment of this call is the
largest; every other slot keeps its frame number and data (its age is the
incremented one). -/
theorem victim_selection (F : Nat) (c : CacheState) (frm : Nat) (buf : List Nat)
    (hinit : c.init = true) (hfull : c.cache.length = c.block_cache_max_items)
    (hcap1 : 1 ≤ c.block_cache_max_items) (hcap2 : c.block_cache_max_items ≤ 65536)
    (hfr : ∀ e ∈ c.cache, e.frame.length = F) (hbuf : buf.length = F)
    (hfrm : frm < 65536) (hnew : frm ∉ keys c.cache) :
    ∃ (v : Nat) (e : cache_frame), c.cache[v]? = some e ∧
      (∀ (j : Nat) (e1 : cache_frame), c.cache[j]? = some e1 →
        (aged e1).calls_since_use ≤ (aged e).calls_since_use) ∧
      (∀ (j : Nat) (e1 : cache_frame), j < v → c.cache[j]? = some e1 →
        (aged e1).calls_since_use < (aged e).calls_since_use) ∧
      put_block_cache F c frm buf
        = .ok (0, { c with cache := (c.cache.map aged).set v ⟨frm, 0, buf⟩ }) ∧
      ((c.cache.map aged).set v ⟨frm, 0, buf⟩)[v]? = some ⟨frm, 0, buf⟩ ∧
      ∀ (j : Nat) (e1 : cache_frame), j ≠ v → c.cache[j]? = some e1 →
        ((c.cache.map aged).set v ⟨frm, 0, buf⟩)[j]?
          = some ⟨e1.frame_number, (e1.calls_since_use + 1) % 65536, e1.frame⟩ := by
  have hpos : 0 < c.cache.length := by omega
  -- the slot the search loop ends with
  have hsel : ∃ (v : Nat) (e : cache_frame), c.cache[v]? = some e ∧
      (scan_lru c.cache 0 0 0).2 = v ∧
      (∀ (j : Nat) (e1 : cache_frame), c.cache[j]? = some e1 →
        (aged e1).calls_since_use ≤ (aged e).calls_since_use) ∧
      (∀ (j : Nat) (e1 : cache_frame), j < v → c.cache[j]? = some e1 →
        (aged e1).calls_since_use < (aged e).calls_since_use) := by
    rcases scan_lru_spec c.cache 0 0 0 with ⟨h1, h2⟩ | ⟨k, e, g1, g2, _, g4, g5⟩
    · refine ⟨0, c.cache.get ⟨0, hpos⟩, by simp [List.getElem?_eq_getElem hpos], by rw [h1], ?_, ?_⟩
      · intro j e1 hje
        have := h2 e1 (List.getElem?_mem hje)
        omega
      · intro j e1 hj; omega
    · have hk : k < c.cache.length := by
        by_contra hcon
        rw [List.getElem?_eq_none (by omega)] at g1
        cases g1
      refine ⟨k, e, g1, ?_, g4, g5⟩
      rw [g2]
      simp only [Nat.zero_add]
      exact Nat.mod_eq_of_lt (by omega)
  obtain ⟨v, e, h1, h2, h3, h4⟩ := hsel
  have hv : v < c.cache.length := by
    by_contra hcon
    rw [List.getElem?_eq_none (by omega)] at h1
    cases h1
  have hvl : v < (c.cache.map aged).length := by rw [List.length_map]; exact hv
  refine ⟨v, e, h1, h3, h4, ?_, ?_, ?_⟩
  · unfold put_block_cache
    rw [if_neg (by simp [hinit])]
    simp only [put_scan_miss _ frm buf c.cache 0 0 0 hnew, h2]
    have hroom : ¬ (c.cache.map aged).length < c.block_cache_max_items := by
      rw [List.length_map]; omega
    have hfl : ((c.cache.map aged).get ⟨v, hvl⟩).frame.length = F :=
      length_aged _ _ hfr _ (List.get_mem _ _ _)
    simp only [hroom, if_false, hvl, dite_true, memcpy_full _ buf F hfl hbuf,
      Nat.mod_eq_of_lt hfrm]
  · simp [hv]
  · intro j e1 hj hje
    rw [List.getElem?_set_ne (fun h => hj h.symm)]
    simp only [List.getElem?_map, hje]
    rfl

/-- Witness of `victim_selection`: two slots share the largest age; the one
with the lower index is overwritten. -/
theorem victim_selection_witness :
    ∃ (v : Nat) (e : cache_frame),
      [(⟨7, 1, [1, 1]⟩ : cache_frame), ⟨8, 4, [2, 2]⟩, ⟨9, 4, [3, 3]⟩][v]? = some e ∧
      put_block_cache 2 ⟨3, true, [⟨7, 1, [1, 1]⟩, ⟨8, 4, [2, 2]⟩, ⟨9, 4, [3, 3]⟩]⟩ 5 [5, 5]
        = .ok (0, ⟨3, true, ([(⟨7, 1, [1, 1]⟩ : cache_frame), ⟨8, 4, [2, 2]⟩,
            ⟨9, 4, [3, 3]⟩].map aged).set v ⟨5, 0, [5, 5]⟩⟩) :=
  match victim_selection 2 ⟨3, true, [⟨7, 1, [1, 1]⟩, ⟨8, 4, [2, 2]⟩, ⟨9, 4, [3, 3]⟩]⟩ 5 [5, 5]
      rfl rfl (by decide) (by decide) (by decide) rfl (by decide) (by decide) with
  | ⟨v, e, h1, _, _, h4, _, _⟩ => ⟨v, e, h1, h4⟩

theorem put_scan_hit_keys (F frm : Nat) (buf : List Nat) :
    ∀ (l : List cache_frame) (i lru lri : Nat) (sc : Scan), frm ∈ keys l →
      put_scan F frm buf l i lru lri = .ok sc →
      ∃ c1, sc = .hit c1 ∧ keys c1 = keys l ∧ c1.length = l.length := by
  intro l
  induction l with
  | nil => intro i lru lri sc h; simp [keys] at h
  | cons e l ih =>
    intro i lru lri sc h hrun
    unfold put_scan at hrun
    by_cases hc : e.frame_number = frm
    · simp only [hc, if_true] at hrun
      cases hm : memcpy e.frame 0 buf 0 F with
      | error a => rw [hm] at hrun; cases hrun
      | ok fr =>
        rw [hm] at hrun
        cases hrun
        exact ⟨_, rfl, by simp [keys, hc], by simp⟩
    · have hin : frm ∈ keys l := by
        simp only [keys, List.map_cons, List.mem_cons] at h
        rcases h with h | h
        · exact absurd h.symm hc
        · exact h
      simp only [hc, if_false] at hrun
      cases hr : put_scan F frm buf l (i + 1)
          (if (e.calls_since_use + 1) % 65536 > lru then (e.calls_since_use + 1) % 65536
            else lru)
          (if (e.calls_since_use + 1) % 65536 > lru then i % 65536 else lri) with
      | error a => rw [hr] at hrun; cases hrun
      | ok sc1 =>
        obtain ⟨c1, g1, g2, g3⟩ := ih _ _ _ sc1 hin hr
        rw [hr, g1] at hrun
        cases hrun
        refine ⟨_, rfl, ?_, by simp [g3]⟩
        simp only [keys, List.map_cons] at g2 ⊢
        rw [g2]

/-- One put keeps the number of used slots within the capacity and the frame
numbers of the used slots pairwise distinct. -/
theorem put_block_cache_inv (F : Nat) (c : CacheState) (frm : Nat) (buf : List Nat)
    (r : Int) (c1 : CacheState) (hfrm : frm < 65536)
    (hlen : c.cache.length ≤ c.block_cache_max_items) (hnd : (keys c.cache).Nodup)
    (hrun : put_block_cache F c frm buf = .ok (r, c1)) :
    c1.cache.length ≤ c1.block_cache_max_items ∧ (keys c1.cache).Nodup ∧
      c1.block_cache_max_items = c.block_cache_max_items ∧ c1.init = c.init := by
  have hmod : frm % 65536 = frm := Nat.mod_eq_of_lt hfrm
  unfold put_block_cache at hrun
  by_cases hi : c.init = false
  · rw [if_pos hi] at hrun; cases hrun
  rw [if_neg hi] at hrun
  by_cases hin : frm ∈ keys c.cache
  · cases hs : put_scan F frm buf c.cache 0 0 0 with
    | error a => rw [hs] at hrun; cases hrun
    | ok sc =>
      obtain ⟨l1, g1, g2, g3⟩ := put_scan_hit_keys F frm buf c.cache 0 0 0 sc hin hs
      rw [hs, g1] at hrun
      cases hrun
      exact ⟨by simp only [g3]; exact hlen, by simp only [g2]; exact hnd, rfl, rfl⟩
  · rw [put_scan_miss F frm buf c.cache 0 0 0 hin] at hrun
    simp only at hrun
    by_cases hroom : (c.cache.map aged).length < c.block_cache_max_items
    · rw [if_pos hroom] at hrun
      cases hp : peek buf 0 F with
      | error a => rw [hp] at hrun; cases hrun
      | ok fr =>
        rw [hp] at hrun
        cases hrun
        refine ⟨?_, ?_, rfl, rfl⟩
        · simp only [List.length_append, List.length_map, List.length_singleton] at hroom ⊢
          omega
        · simp only [keys, List.map_append, List.map_cons, List.map_nil, hmod]
          have hk : List.map cache_frame.frame_number (c.cache.map aged) = keys c.cache :=
            keys_aged c.cache
          rw [hk]
          apply List.Nodup.append hnd (List.nodup_singleton _)
          intro x hx hx1
          simp only [List.mem_singleton] at hx1
          rw [hx1] at hx
          exact hin hx
    · rw [if_neg hroom] at hrun
      by_cases hidx : (scan_lru c.cache 0 0 0).2 < (c.cache.map aged).length
      · rw [dif_pos hidx] at hrun
        cases hm : memcpy ((c.cache.map aged).get ⟨(scan_lru c.cache 0 0 0).2, hidx⟩).frame 0
            buf 0 F with
        | error a => rw [hm] at hrun; cases hrun
        | ok fr =>
          rw [hm] at hrun
          cases hrun
          refine ⟨?_, ?_, rfl, rfl⟩
          · simp only [List.length_set, List.length_map]
            exact hlen
          · rw [keys_set, keys_aged, hmod]
            exact List.Nodup.set hnd hin
      · rw [dif_neg hidx] at hrun
        cases hrun

theorem puts_inv (F : Nat) : ∀ (ps : List (Nat × List Nat)) (c c1 : CacheState),
    (∀ p ∈ ps, p.1 < 65536) →
    c.cache.length ≤ c.block_cache_max_items → (keys c.cache).Nodup →
    puts F c ps = .ok c1 →
    c1.cache.length ≤ c1.block_cache_max_items ∧ (keys c1.cache).Nodup ∧
      c1.block_cache_max_items = c.block_cache_max_items := by
  intro ps
  induction ps with
  | nil =>
    intro c c1 _ hlen hnd h
    simp only [puts] at h
    cases h
    exact ⟨hlen, hnd, rfl⟩
  | cons p ps ih =>
    intro c c1 hps hlen hnd h
    obtain ⟨frm, buf⟩ := p
    simp only [puts] at h
    cases hp : put_block_cache F c frm buf with
    | error a => rw [hp] at h; cases h
    | ok x =>
      obtain ⟨r, c2⟩ := x
      rw [hp] at h
      obtain ⟨g1, g2, g3, _⟩ :=
        put_block_cache_inv F c frm buf r c2 (hps (frm, buf) (by simp)) hlen hnd hp
      obtain ⟨k1, k2, k3⟩ := ih c2 c1 (fun q hq => hps q (by simp [hq])) g1 g2 h
      exact ⟨k1, k2, by rw [k3, g3]⟩

theorem nodup_index (l : List Nat) (hnd : l.Nodup) (i j : Nat) (a : Nat)
    (hi : l[i]? = some a) (hj : l[j]? = some a) : i = j := by
  have hil : i < l.length := by
    by_contra hcon
    rw [List.getElem?_eq_none (by omega)] at hi
    cases hi
  have hjl : j < l.length := by
    by_contra hcon
    rw [List.getElem?_eq_none (by omega)] at hj
    cases hj
  rw [List.getElem?_eq_getElem hil] at hi
  rw [List.getElem?_eq_getElem hjl] at hj
  have h : l[i] = l[j] := by
    rw [Option.some.inj hi, Option.some.inj hj]
  exact (List.Nodup.getElem_inj_iff hnd).mp h

/-- C30 (cache invariant). In every state that puts of 16-bit frame numbers
reach from `init_block_cache` (`get_block_cache` changes nothing), the number
of used slots is at most the capacity, the capacity is the one the cache was
initialized with, and no two used slots hold the same frame number: the first
slot `get_block_cache` finds a frame number in is the only one. -/
theorem cache_stays_well_formed (F : Nat) (c0 c : CacheState) (ps : List (Nat × List Nat))
    (hps : ∀ p ∈ ps, p.1 < 65536)
    (hrun : puts F (init_block_cache c0).2 ps = .ok c) :
    c.cache_indeces_used ≤ c.block_cache_max_items ∧
    c.block_cache_max_items = c0.block_cache_max_items ∧
    (c.cache.map cache_frame.frame_number).Nodup ∧
    (∀ (i j : Nat) (e1 e2 : cache_frame), c.cache[i]? = some e1 → c.cache[j]? = some e2 →
      e1.frame_number = e2.frame_number → i = j) ∧
    (∀ (frm : Nat) (r : Option (List Nat)), get_block_cache c frm = .ok r →
      ∀ (j : Nat) (e : cache_frame), c.cache[j]? = some e → e.frame_number = frm →
        r = some e.frame) := by
  obtain ⟨h1, h2, h3⟩ := puts_inv F ps (init_block_cache c0).2 c hps
    (by simp [init_block_cache]) (by simp [init_block_cache, keys]) hrun
  refine ⟨h1, h3, h2, ?_, ?_⟩
  · intro i j e1 e2 hi hj he
    apply nodup_index (keys c.cache) h2 i j e1.frame_number
    · simp [keys, List.getElem?_map, hi]
    · simp [keys, List.getElem?_map, hj, he]
  · intro frm r hget j e hj he
    have hscan := get_scan_of_mem c.cache h2 e (List.getElem?_mem hj)
    rw [he] at hscan
    unfold get_block_cache at hget
    have hne : c.cache ≠ [] := by
      intro hc
      rw [hc] at hj
      simp at hj
    rw [if_neg hne] at hget
    split_ifs at hget with hinit
    rw [hscan] at hget
    exact (Except.ok.inj hget).symm

/-- Witness of `cache_stays_well_formed`: six puts, two of them hits, into a
cache of two slots. -/
theorem cache_stays_well_formed_witness :
    (state_of_puts 2).cache_indeces_used ≤ (state_of_puts 2).block_cache_max_items ∧
    ((state_of_puts 2).cache.map cache_frame.frame_number).Nodup :=
  have h := cache_stays_well_formed 4 ⟨2, false, []⟩ (state_of_puts 2)
    [(1, [1, 1, 1, 1]), (2, [2, 2, 2, 2]), (1, [3, 3, 3, 3]), (3, [4, 4, 4, 4]),
     (3, [5, 5, 5, 5]), (4, [6, 6, 6, 6])] (by decide) (by decide!)
  ⟨h.1, h.2.2.1⟩

/-! ## The cursor invariant -/

theorem cursor_ok_set (l : List file) (i : Nat) (f : file) (h : cursor_ok l)
    (hf : f.seek_pos ≤ f.length ∧ f.length < 4294967296) : cursor_ok (l.set i f) := by
  intro g hg
  rcases List.mem_or_eq_of_mem_set hg with hg | hg
  · exact h g hg
  · rw [hg]; exact hf

theorem load32_lt (b : List Nat) : load32 b < 4294967296 := by
  unfold load32
  omega

theorem parse_file_cursor (bytes : List Nat) (f : file) (rest : List Nat)
    (h : parse_file bytes = .ok (f, rest)) : f.seek_pos = 0 ∧ f.length < 4294967296 := by
  unfold parse_file at h
  split at h
  · split at h
    · cases h
    · cases h
      exact ⟨rfl, load32_lt _⟩
  · cases h

theorem parse_files_cursor : ∀ (n : Nat) (bytes : List Nat) (fs : List file),
    parse_files n bytes = .ok fs → cursor_ok fs := by
  intro n
  induction n with
  | zero =>
    intro bytes fs h
    simp only [parse_files] at h
    cases h
    intro f hf
    simp at hf
  | succ n ih =>
    intro bytes fs h
    unfold parse_files at h
    cases hp : parse_file bytes with
    | error a => rw [hp] at h; cases h
    | ok x =>
      obtain ⟨f, rest⟩ := x
      rw [hp] at h
      simp only at h
      cases hr : parse_files n rest with
      | error a => rw [hr] at h; cases h
      | ok fs1 =>
        rw [hr] at h
        cases h
        intro g hg
        simp only [List.mem_cons] at hg
        rcases hg with hg | hg
        · obtain ⟨h1, h2⟩ := parse_file_cursor bytes f rest hp
          rw [hg, h1]
          exact ⟨Nat.zero_le _, h2⟩
        · exact ih rest fs1 hr g hg

theorem block_poweron_cursor {β : Type} (E : Env β) (fuel : Nat) (s0 s : Driver β)
    (bck_exists : Bool) (heap : List Nat)
    (h : block_poweron E fuel s0 bck_exists heap = .ok (0, s)) : cursor_ok s.all_files := by
  unfold block_poweron at h
  simp only at h
  split_ifs at h with h1 h2
  · cases h
  · cases hr : read_frame E fuel 0 heap
        (E.block_io_bus s0.bus (generate_register E.BLOCK_OP_INITMS 0 0 0) []).bus with
    | error a => rw [hr] at h; cases h
    | ok x =>
      rw [hr] at h
      cases x with
      | hard b bus1 => cases h
      | done b bus1 =>
        simp only at h
        cases hp : parse_metadata b with
        | error a => rw [hp] at h; cases h
        | ok files =>
          rw [hp] at h
          cases h
          unfold parse_metadata at hp
          cases hk : peek b 0 2 with
          | error a => rw [hk] at hp; cases hp
          | ok x =>
            rw [hk] at hp
            exact parse_files_cursor _ _ _ hp
  · cases h
    intro f hf
    simp at hf

theorem block_seek_cursor {β : Type} (s : Driver β) (fd : Int) (loc : Nat)
    (h : cursor_ok s.all_files) : cursor_ok (block_seek s fd loc).2.all_files := by
  cases hfind : find_handle fd s.all_files with
  | none => simp only [block_seek, hfind]; exact h
  | some index =>
    cases hget : s.all_files[index]? with
    | none => simp only [block_seek, hfind, hget]; exact h
    | some f =>
      simp only [block_seek, hfind, hget]
      split_ifs with h1 h2
      · exact h
      · exact cursor_ok_set _ _ _ h ⟨h2, (h f (List.getElem?_mem hget)).2⟩
      · exact h

theorem block_close_cursor {β : Type} (s : Driver β) (fd : Int)
    (h : cursor_ok s.all_files) : cursor_ok (block_close s fd).2.all_files := by
  cases hfind : find_handle fd s.all_files with
  | none => simp only [block_close, hfind]; exact h
  | some index =>
    cases hget : s.all_files[index]? with
    | none => simp only [block_close, hfind, hget]; exact h
    | some f =>
      simp only [block_close, hfind, hget]
      split_ifs with h1
      · exact h
      · exact cursor_ok_set _ _ _ h (h f (List.getElem?_mem hget))

theorem block_open_cursor {β : Type} (s s1 : Driver β) (path : List Nat) (rnd : Nat)
    (heap : List Nat) (r : Int) (h : cursor_ok s.all_files)
    (hrun : block_open s path rnd heap = .ok (r, s1)) : cursor_ok s1.all_files := by
  unfold block_open at hrun
  cases hf : find_path path s.all_files with
  | error a => rw [hf] at hrun; cases hrun
  | ok o =>
    rw [hf] at hrun
    cases o with
    | some index =>
      simp only at hrun
      cases hget : s.all_files[index]? with
      | none => rw [hget] at hrun; cases hrun
      | some f => rw [hget] at hrun; cases hrun; exact h
    | none =>
      simp only at hrun
      split_ifs at hrun with h1 h2
      · cases hrun; exact h
      · cases hp : poke heap 0 (cstr path ++ [0]) with
        | error a => rw [hp] at hrun; cases hrun
        | ok arr =>
          rw [hp] at hrun
          cases hrun
          intro g hg
          simp only [List.mem_append, List.mem_singleton] at hg
          rcases hg with hg | hg
          · exact h g hg
          · rw [hg]; exact ⟨Nat.le_refl _, by norm_num⟩

theorem block_read_cursor {β : Type} (E : Env β) (fuel : Nat) (s s1 : Driver β) (fd : Int)
    (count r : Int) (out : List Nat) (hc0 : 0 ≤ count) (hc1 : count < 2147483648)
    (h : cursor_ok s.all_files)
    (hrun : block_read E fuel s fd count = .ok (r, out, s1)) : cursor_ok s1.all_files := by
  unfold block_read at hrun
  cases hfind : find_handle fd s.all_files with
  | none => rw [hfind] at hrun; cases hrun; exact h
  | some index =>
    rw [hfind] at hrun
    simp only at hrun
    cases hget : s.all_files[index]? with
    | none => rw [hget] at hrun; cases hrun; exact h
    | some f =>
      rw [hget] at hrun
      simp only at hrun
      obtain ⟨hs, hl⟩ := h f (List.getElem?_mem hget)
      have hu : toU32 count = count.toNat := toU32_of_nonneg count hc0 (by omega)
      have havail : (f.length + 4294967296 - f.seek_pos) % 4294967296
          = f.length - f.seek_pos := by omega
      by_cases hcl : f.status = Status.CLOSED
      · rw [if_pos hcl] at hrun; cases hrun; exact h
      rw [if_neg hcl] at hrun
      by_cases hF : E.BLOCK_FRAME_SIZE = 0
      · rw [if_pos hF] at hrun; cases hrun
      rw [if_neg hF] at hrun
      rw [havail, hu] at hrun
      have hcnt : ∃ n : Int, (if f.length - f.seek_pos < count.toNat
          then toI32 (f.length - f.seek_pos) else count) = n ∧
          (f.seek_pos + toU32 n) % 4294967296 ≤ f.length := by
        split_ifs with hlt
        · refine ⟨_, rfl, ?_⟩
          rw [toI32_of_lt _ (by omega), toU32_of_nonneg _ (by omega) (by omega)]
          simp only [Int.toNat_ofNat]
          rw [Nat.mod_eq_of_lt (by omega)]
          omega
        · refine ⟨_, rfl, ?_⟩
          rw [hu, Nat.mod_eq_of_lt (by omega)]
          omega
      obtain ⟨n, hn, hle⟩ := hcnt
      rw [hn] at hrun
      cases hloop : read_loop E fuel s.cache
          (List.drop (f.seek_pos / E.BLOCK_FRAME_SIZE % 65536) f.frames)
          (f.seek_pos / E.BLOCK_FRAME_SIZE % 65536) (f.seek_pos % E.BLOCK_FRAME_SIZE)
          (toU32 n) [] s.temp_buf s.bus with
      | error a => rw [hloop] at hrun; cases hrun
      | ok l =>
        rw [hloop] at hrun
        simp only at hrun
        split_ifs at hrun with hfail
        · cases hrun; exact h
        · cases hrun
          exact cursor_ok_set _ _ _ h ⟨hle, hl⟩

theorem block_write_cursor {β : Type} (E : Env β) (fuel : Nat) (s s1 : Driver β) (fd : Int)
    (buf : List Nat) (count r : Int) (hc0 : 0 ≤ count) (hc1 : count < 2147483648)
    (hsum : ∀ f ∈ s.all_files, f.handle = fd → (f.seek_pos : Int) + count < 4294967296)
    (h : cursor_ok s.all_files)
    (hrun : block_write E fuel s fd buf count = .ok (r, s1)) : cursor_ok s1.all_files := by
  unfold block_write at hrun
  cases hfind : find_handle fd s.all_files with
  | none => rw [hfind] at hrun; cases hrun; exact h
  | some index =>
    rw [hfind] at hrun
    simp only at hrun
    obtain ⟨f0, hf0, hfd, _⟩ := find_handle_some hfind
    cases hget : s.all_files[index]? with
    | none => rw [hget] at hrun; cases hrun; exact h
    | some f =>
      rw [hget] at hrun
      simp only at hrun
      obtain ⟨hs, hl⟩ := h f (List.getElem?_mem hget)
      have hf : f.handle = fd := by
        rw [hget] at hf0
        cases hf0
        exact hfd
      have hov := hsum f (List.getElem?_mem hget) hf
      have hu : toU32 count = count.toNat := toU32_of_nonneg count hc0 (by omega)
      by_cases hcl : f.status = Status.CLOSED
      · rw [if_pos hcl] at hrun; cases hrun; exact h
      rw [if_neg hcl] at hrun
      cases hg : grow_file E.BLOCK_FRAME_SIZE f count s.num_frames_used with
      | error a => rw [hg] at hrun; cases hrun
      | ok p =>
        obtain ⟨f1, used⟩ := p
        obtain ⟨g1, g2, _, _, _⟩ := grow_file_fields _ _ _ _ _ _ hc0 hov hg
        rw [hg] at hrun
        simp only at hrun
        by_cases hF : E.BLOCK_FRAME_SIZE = 0
        · rw [if_pos hF] at hrun; cases hrun
        rw [if_neg hF] at hrun
        cases hloop : write_loop E fuel buf
            (List.drop (f.seek_pos / E.BLOCK_FRAME_SIZE % 65536) f1.frames)
            (f.seek_pos % E.BLOCK_FRAME_SIZE) (toU32 count) 0 s.temp_buf s.cache s.bus with
        | error a => rw [hloop] at hrun; cases hrun
        | ok l =>
          rw [hloop] at hrun
          simp only at hrun
          split_ifs at hrun with hfail
          · cases hrun
            apply cursor_ok_set _ _ _ h
            rw [g1, g2]
            omega
          · cases hrun
            apply cursor_ok_set _ _ _ h
            show (f1.seek_pos + toU32 count) % 4294967296 ≤ f1.length ∧ f1.length < 4294967296
            rw [g1, g2, hu, Nat.mod_eq_of_lt (by omega)]
            omega

theorem call_cursor {β : Type} (E : Env β) (fuel : Nat) (s s1 : Driver β) (c : Call)
    (hr : call_in_range s c = true) (h : cursor_ok s.all_files)
    (hrun : call E fuel s c = .ok s1) : cursor_ok s1.all_files := by
  cases c with
  | «open» path rnd heap =>
    simp only [call] at hrun
    cases ho : block_open s path rnd heap with
    | error a => rw [ho] at hrun; cases hrun
    | ok x =>
      obtain ⟨r, s2⟩ := x
      rw [ho] at hrun
      cases hrun
      exact block_open_cursor s _ path rnd heap r h ho
  | close fd =>
    simp only [call] at hrun
    cases hrun
    exact block_close_cursor s fd h
  | read fd count =>
    simp only [call_in_range, Bool.and_eq_true, decide_eq_true_eq] at hr
    simp only [call] at hrun
    cases ho : block_read E fuel s fd count with
    | error a => rw [ho] at hrun; cases hrun
    | ok x =>
      obtain ⟨r, out, s2⟩ := x
      rw [ho] at hrun
      cases hrun
      exact block_read_cursor E fuel s _ fd count r out hr.1 hr.2 h ho
  | write fd buf count =>
    simp only [call_in_range, Bool.and_eq_true, decide_eq_true_eq, List.all_eq_true,
      Bool.or_eq_true] at hr
    simp only [call] at hrun
    cases ho : block_write E fuel s fd buf count with
    | error a => rw [ho] at hrun; cases hrun
    | ok x =>
      obtain ⟨r, s2⟩ := x
      rw [ho] at hrun
      cases hrun
      refine block_write_cursor E fuel s _ fd buf count r hr.1.1 hr.1.2 ?_ h ho
      intro f hf hfd
      rcases hr.2 f hf with h1 | h1
      · exact absurd hfd h1
      · exact h1
  | seek fd loc =>
    simp only [call] at hrun
    cases hrun
    exact block_seek_cursor s fd loc h

theorem calls_cursor {β : Type} (E : Env β) (fuel : Nat) : ∀ (cs : List Call) (s s1 : Driver β),
    calls_in_range E fuel s cs = true → cursor_ok s.all_files →
    calls E fuel s cs = .ok s1 → cursor_ok s1.all_files := by
  intro cs
  induction cs with
  | nil =>
    intro s s1 _ h hrun
    simp only [calls] at hrun
    cases hrun
    exact h
  | cons c cs ih =>
    intro s s1 hr h hrun
    simp only [calls_in_range, Bool.and_eq_true] at hr
    simp only [calls] at hrun
    cases hc : call E fuel s c with
    | error a => rw [hc] at hrun; cases hrun
    | ok s2 =>
      rw [hc] at hrun hr
      exact ih s2 s1 hr.2 (call_cursor E fuel s s2 c hr.1 h hc) hrun

/-- C29 (cursor invariant). After a `block_poweron` that returns 0, with or
without metadata to restore, and any sequence of `block_open`, `block_close`,
`block_seek`, `block_read` and `block_write` calls that run, whose counts are
non-negative `int32_t` values and whose writes do not take `seek_pos + count`
to `2^32` or beyond, every entry of the file table has `seek_pos` at most
`length` (both are unsigned, so `0 ≤ seek_pos`). -/
theorem cursor_invariant {β : Type} (E : Env β) (fuel : Nat) (s0 s s1 : Driver β)
    (bck_exists : Bool) (heap : List Nat) (cs : List Call)
    (hon : block_poweron E fuel s0 bck_exists heap = .ok (0, s))
    (hrange : calls_in_range E fuel s cs = true)
    (hrun : calls E fuel s cs = .ok s1) :
    ∀ f ∈ s1.all_files, 0 ≤ f.seek_pos ∧ f.seek_pos ≤ f.length := by
  intro f hf
  exact ⟨Nat.zero_le _,
    (calls_cursor E fuel cs s s1 hrange (block_poweron_cursor E fuel s0 s bck_exists heap hon)
      hrun f hf).1⟩

/-! ## Worked runs: the power window, handles, frame numbers and checksums -/

/-- C23 (handles), evaluated on `fresh 1024`, whose file has the handle 7.
With the random value `0xFFFF0000` `block_open` of a new path creates the
entry and returns -1; with the random value `0x00070000` it returns 7, the
handle of the file that was there, and `block_close(7)` then closes that file
and not the new one. -/
theorem handle_not_unique :
    (fresh 1024).all_files.map file.handle = [7] ∧
    value_of (block_open (fresh 1024) [98] 4294901760 (List.replicate 128 0)) = some (-1) ∧
    (state_of (block_open (fresh 1024) [98] 4294901760 (List.replicate 128 0))
      (fresh 1024)).all_files.map file.handle = [7, -1] ∧
    value_of (block_open (fresh 1024) [98] 458752 (List.replicate 128 0)) = some 7 ∧
    (state_of (block_open (fresh 1024) [98] 458752 (List.replicate 128 0))
      (fresh 1024)).all_files.map file.handle = [7, 7] ∧
    (block_close (state_of (block_open (fresh 1024) [98] 458752 (List.replicate 128 0))
      (fresh 1024)) 7).2.all_files.map file.status = [Status.CLOSED, Status.OPEN] := by
  refine ⟨by decide!, by decide!, by decide!, by decide!, by decide!, by decide!⟩

/-- C24 (frame numbers), evaluated.  `block_poweron` restores the files of
`two_files`, which own the frames 1 to 4, and leaves `num_frames_used` at 0;
the next `block_open` of a new path hands out frame 1 again. -/
theorem poweron_resets_frame_counter :
    value_of (block_poweron (ramEnv 1024) 0 powered_off true (List.replicate 1024 0)) = some 0 ∧
    restarted.all_files.map file.frames = [[1, 2, 3], [4]] ∧
    restarted.num_frames_used = 0 ∧
    value_of (block_open restarted [99] 327680 (List.replicate 128 0)) = some 5 ∧
    (state_of (block_open restarted [99] 327680 (List.replicate 128 0))
      restarted).all_files.map file.frames = [[1, 2, 3], [4], [1]] := by
  refine ⟨by decide!, by decide!, by decide!, by decide!, by decide!⟩

/-- C25 (checksum of a read), evaluated on the device `replyBus` with the
answers `crossed`.  The first answer announces checksum 5 for a frame whose
checksum is 0, so the read is retried; the second announces checksum 9 for a
frame whose checksum is 5.  The read sequence accepts the second frame, and
`block_read` hands out its first byte; `block_poweron` builds the file table
from such a frame. -/
theorem stale_checksum_accepted :
    checksum_of (5 <<< 8) = 5 ∧ checksum_of (9 <<< 8) = 9 ∧
    fr_checksum_value (replyEnv 1024) (List.replicate 1024 0) = 0 ∧
    fr_checksum_value (replyEnv 1024) (5 :: List.replicate 1023 0) = 5 ∧
    read_frame (replyEnv 1024) 3 1 (List.replicate 1024 0) crossed
      = .ok (.done (5 :: List.replicate 1023 0) []) ∧
    (block_read (replyEnv 1024) 3 (one_byte 1024 crossed) 7 1).map (fun r => (r.1, r.2.1))
      = .ok (1, [5]) ∧
    (state_of (block_poweron (replyEnv 1024) 3 { powered_off with bus := (0, []) :: crossed }
      true (List.replicate 1024 0)) powered_off).all_files.length = 5 := by
  refine ⟨by decide!, by decide!, by decide!, by decide!, by decide!, by decide!, by decide!⟩

/-- C26 (age accounting), evaluated on a cache of three slots.  After the puts
of the frames 1, 2, 3 the ages are 2, 1, 0.  A put of frame 1, a hit in slot 0,
leaves the ages of the frames 2 and 3 at 1 and 0, where the claim asks for 2
and 1; a put of frame 4 instead, an eviction, does age them. -/
theorem hit_skips_aging :
    residents (puts 1024 (empty_cache 3) three_puts) = some [1, 2, 3] ∧
    ages (puts 1024 (empty_cache 3) three_puts) = some [2, 1, 0] ∧
    residents (puts 1024 (empty_cache 3) (three_puts ++ [(1, List.replicate 1024 9)]))
      = some [1, 2, 3] ∧
    ages (puts 1024 (empty_cache 3) (three_puts ++ [(1, List.replicate 1024 9)]))
      = some [0, 1, 0] ∧
    residents (puts 1024 (empty_cache 3) (three_puts ++ [(4, List.replicate 1024 9)]))
      = some [4, 2, 3] ∧
    ages (puts 1024 (empty_cache 3) (three_puts ++ [(4, List.replicate 1024 9)]))
      = some [0, 2, 1] := by
  refine ⟨by decide!, by decide!, by decide!, by decide!, by decide!, by decide!⟩

/-- Witness of `cursor_invariant`: after the restart on `powered_off`, a seek,
a read that is clamped at the end of the file, a write to the empty file and a
close. -/
theorem cursor_invariant_witness :
    block_poweron (ramEnv 1024) 0 powered_off true (List.replicate 1024 0)
      = .ok (0, restarted) ∧
    calls_in_range (ramEnv 1024) 0 restarted
      [.seek 7 2048, .read 7 600, .write (-3) [65, 66] 2, .close 7] = true ∧
    ∀ f ∈ (calls_state (calls (ramEnv 1024) 0 restarted
        [.seek 7 2048, .read 7 600, .write (-3) [65, 66] 2, .close 7]) restarted).all_files,
      0 ≤ f.seek_pos ∧ f.seek_pos ≤ f.length :=
  ⟨by decide!, by decide!,
    cursor_invariant (ramEnv 1024) 0 powered_off restarted _ true (List.replicate 1024 0)
      [.seek 7 2048, .read 7 600, .write (-3) [65, 66] 2, .close 7]
      (by decide!) (by decide!) (by decide!)⟩

/-! ## The size of the metadata -/

/-- C31 (metadata size), evaluated.  With frames of 1024 bytes, seven files of
one frame each take 968 bytes of metadata, and the eighth `block_open` makes it
1106 bytes: the serializer of `block_poweroff` stores past the end of
`temp_buf`, and a parser given the first 1024 of these bytes reads past the end
of the frame.  With frames of 4096 bytes the same happens at 30 files.  The
file limit of `block_open` is 1024. -/
theorem metadata_outgrows_frame :
    value_of (block_poweron (ramEnv 1024) 0 at_start false (List.replicate 1024 0)) = some 0 ∧
    (crowded 1024 7).all_files.map file.num_frames = List.replicate 7 1 ∧
    (metadata_bytes (crowded 1024 7).all_files).length = 968 ∧
    (crowded 1024 8).all_files.map file.num_frames = List.replicate 8 1 ∧
    (metadata_bytes (crowded 1024 8).all_files).length = 2 + 8 * (128 + 2 + 4 + 2 + 2 * 1) ∧
    serialize_metadata 1024 (crowded 1024 8).all_files = .error .fault ∧
    block_poweroff (ramEnv 1024) 0 (crowded 1024 8) = .error .fault ∧
    parse_metadata ((metadata_bytes (crowded 1024 8).all_files).take 1024) = .error .fault ∧
    (crowded 4096 30).all_files.map file.num_frames = List.replicate 30 1 ∧
    (metadata_bytes (crowded 4096 30).all_files).length = 4142 ∧
    serialize_metadata 4096 (crowded 4096 30).all_files = .error .fault := by
  refine ⟨by decide!, by decide!, by decide!, by decide!, by decide!, by decide!, by decide!,
    by decide!, by decide!, by decide!, by decide!⟩

end BlockDriver
